import Mathlib

/-!
# cc-wallet-core: the verified blockchain

A shallow embedding of `src/blockchain/VerifiedBlockchain.js` and of the header helpers of
`lib/bitcoin.js`, with theorems about the difficulty model, the chain validator and the
synchronisation engine.

Conventions of the embedding:
* a Node `Buffer` is a list of bytes, a byte is a `Fin 256`;
* a JavaScript string is a `List Char`;
* reading a buffer past its end gives `undefined`, which is `none`;
* a JavaScript number that may be `NaN` is an `Option Int`, `none` being `NaN`;
* a thrown exception is the `Except.error` of the `Err` type.
-/

namespace VerifiedBlockchain

/-! ## Buffers and hexadecimal strings -/

abbrev Byte := Fin 256

abbrev Buffer := List Byte

/-- Value of a buffer read as a big-endian unsigned integer. -/
def beVal : Buffer → Nat
  | [] => 0
  | b :: bs => b.val * 256 ^ bs.length + beVal bs

/-- The lower-case hexadecimal digit of a value below 16. -/
def hexDigit (n : Nat) : Char :=
  if n < 10 then Char.ofNat (48 + n) else Char.ofNat (87 + n)

/-- Value of one hexadecimal digit, either case; `none` for any other character. -/
def hexVal (c : Char) : Option Nat :=
  if 48 ≤ c.toNat ∧ c.toNat ≤ 57 then some (c.toNat - 48)
  else if 97 ≤ c.toNat ∧ c.toNat ≤ 102 then some (c.toNat - 87)
  else if 65 ≤ c.toNat ∧ c.toNat ≤ 70 then some (c.toNat - 55)
  else none

/-- The two hexadecimal digits of a byte. -/
def byteToHex (b : Byte) : List Char := [hexDigit (b.val / 16), hexDigit (b.val % 16)]

/-- Node `buffer.toString('hex')`. -/
def toHex : Buffer → List Char
  | [] => []
  | b :: bs => byteToHex b ++ toHex bs

/-- Node `new Buffer(s, 'hex')`: two digits per byte; `none` stands for the
`TypeError` raised on a string of odd length or with a character that is no digit. -/
def bufferFromHex : List Char → Option Buffer
  | [] => some []
  | [_] => none
  | h :: l :: rest =>
    match hexVal h, hexVal l, bufferFromHex rest with
    | some x, some y, some bs => some (Fin.ofNat (16 * x + y) :: bs)
    | _, _, _ => none

/-- The npm `zfill(s, width)`: pad with `'0'` on the left up to `width` characters. -/
def zfill (s : List Char) (width : Nat) : List Char :=
  List.replicate (width - s.length) '0' ++ s

/-! ## Double SHA-256

`bitcoin.crypto.hash256` of bitcoinjs-lib is SHA-256 applied twice (FIPS 180-4). Words are
natural numbers below `2 ^ 32`. -/

def word32 (n : Nat) : Nat := n % 4294967296

def rotr (x n : Nat) : Nat := word32 ((x >>> n) ||| (x <<< (32 - n)))

def shaK : List Nat := [
  0x428a2f98, 0x71374491, 0xb5c0fbcf, 0xe9b5dba5, 0x3956c25b, 0x59f111f1, 0x923f82a4, 0xab1c5ed5,
  0xd807aa98, 0x12835b01, 0x243185be, 0x550c7dc3, 0x72be5d74, 0x80deb1fe, 0x9bdc06a7, 0xc19bf174,
  0xe49b69c1, 0xefbe4786, 0x0fc19dc6, 0x240ca1cc, 0x2de92c6f, 0x4a7484aa, 0x5cb0a9dc, 0x76f988da,
  0x983e5152, 0xa831c66d, 0xb00327c8, 0xbf597fc7, 0xc6e00bf3, 0xd5a79147, 0x06ca6351, 0x14292967,
  0x27b70a85, 0x2e1b2138, 0x4d2c6dfc, 0x53380d13, 0x650a7354, 0x766a0abb, 0x81c2c92e, 0x92722c85,
  0xa2bfe8a1, 0xa81a664b, 0xc24b8b70, 0xc76c51a3, 0xd192e819, 0xd6990624, 0xf40e3585, 0x106aa070,
  0x19a4c116, 0x1e376c08, 0x2748774c, 0x34b0bcb5, 0x391c0cb3, 0x4ed8aa4a, 0x5b9cca4f, 0x682e6ff3,
  0x748f82ee, 0x78a5636f, 0x84c87814, 0x8cc70208, 0x90befffa, 0xa4506ceb, 0xbef9a3f7, 0xc67178f2]

def shaInit : List Nat :=
  [0x6a09e667, 0xbb67ae85, 0x3c6ef372, 0xa54ff53a, 0x510e527f, 0x9b05688c, 0x1f83d9ab, 0x5be0cd19]

/-- The message schedule: `ws` holds the words computed so far, the newest first; `n` more
words are added. -/
def shaSchedule : Nat → List Nat → List Nat
  | 0, ws => ws
  | n + 1, ws =>
    match ws with
    | _ :: w2 :: _ :: _ :: _ :: _ :: w7 :: _ :: _ :: _ :: _ :: _ :: _ :: _ :: w15 :: w16 :: _ =>
      let s0 := rotr w15 7 ^^^ rotr w15 18 ^^^ (w15 >>> 3)
      let s1 := rotr w2 17 ^^^ rotr w2 19 ^^^ (w2 >>> 10)
      shaSchedule n (word32 (w16 + s0 + w7 + s1) :: ws)
    | _ => ws

/-- One round of the compression function on the eight working variables. -/
def shaRound (st : List Nat) (kw : Nat × Nat) : List Nat :=
  match st with
  | [a, b, c, d, e, f, g, h] =>
    let s1 := rotr e 6 ^^^ rotr e 11 ^^^ rotr e 25
    let ch := (e &&& f) ^^^ ((4294967295 - e) &&& g)
    let t1 := word32 (h + s1 + ch + kw.1 + kw.2)
    let s0 := rotr a 2 ^^^ rotr a 13 ^^^ rotr a 22
    let maj := (a &&& b) ^^^ (a &&& c) ^^^ (b &&& c)
    let t2 := word32 (s0 + maj)
    [word32 (t1 + t2), a, b, c, word32 (d + t1), e, f, g]
  | _ => st

/-- Big-endian 32-bit words of a list of byte values. -/
def beWords : List Nat → List Nat
  | a :: b :: c :: d :: rest => (((a * 256 + b) * 256 + c) * 256 + d) :: beWords rest
  | _ => []

def shaCompress (st : List Nat) (block : List Nat) : List Nat :=
  let ws := (shaSchedule 48 (beWords block).reverse).reverse
  let st2 := (shaK.zip ws).foldl shaRound st
  List.zipWith (fun x y => word32 (x + y)) st st2

/-- The padded message: a `0x80` byte, zero bytes, and the bit length on 8 bytes. -/
def shaPad (msg : List Nat) : List Nat :=
  let l := msg.length
  let k := (119 - l % 64) % 64
  msg ++ [0x80] ++ List.replicate k 0 ++
    [0, 0, 0, 0, (l * 8 / 16777216) % 256, (l * 8 / 65536) % 256, (l * 8 / 256) % 256,
      (l * 8) % 256]

/-- The 64-byte blocks of a list, at most `n` of them. -/
def shaBlocks : Nat → List Nat → List (List Nat)
  | 0, _ => []
  | n + 1, l => if l = [] then [] else l.take 64 :: shaBlocks n (l.drop 64)

def wordBytes (w : Nat) : List Nat :=
  [w / 16777216 % 256, w / 65536 % 256, w / 256 % 256, w % 256]

def sha256 (msg : Buffer) : Buffer :=
  let p := shaPad (msg.map Fin.val)
  (((shaBlocks p.length p).foldl shaCompress shaInit).flatMap wordBytes).map Fin.ofNat

/-- `bitcoin.crypto.hash256`. -/
@[irreducible]
def hash256 (buffer : Buffer) : Buffer := sha256 (sha256 buffer)

/-! ## Headers and targets -/

/-- The `Header` object of `lib/bitcoin.js`. Numeric fields are non-negative integers: every
header that reaches the validator was produced by `buffer2header` or accepted by
`header2buffer`. `prevBlockHash` is `none` when the object carries `null`. -/
structure Header where
  version : Nat
  prevBlockHash : Option (List Char)
  merkleRoot : List Char
  timestamp : Nat
  bits : Nat
  nonce : Nat
deriving DecidableEq, Repr

/-- The `{bits, target}` object returned by `getTarget`; `bits` may be `NaN`. -/
structure Target where
  bits : Option Int
  target : Buffer
deriving DecidableEq, Repr

/-- The exceptions that the embedded code can raise; `Error` is a plain JavaScript `Error`.
Two more outcomes are rendered as errors: `Unsettled` is a promise that is never resolved nor
rejected (no handler of the source catches it), `OutOfFuel` is the end of the fuel of a loop
of the embedding. -/
inductive Err where
  | AssertionError
  | TypeError
  | NotFoundError
  | LoopInterrupt
  | VerifyError
  | VerifyChunkError
  | NetworkError
  | Unsettled
  | OutOfFuel
  | BlockNotFoundError
  | VerifyTxError
  | Error
deriving DecidableEq, Repr

deriving instance DecidableEq for Except

/-! ## Header codec (`lib/bitcoin.js`) -/

/-- `bitcoin.util.headerHash(buffer)`: the double hash, byte-reversed. -/
def headerHash (buffer : Buffer) : Buffer := (hash256 buffer).reverse

/-- `revHex(s)`: `hashDecode(s).toString('hex')`, the hexadecimal string with its bytes in
reverse order; `none` when `s` is not a hexadecimal string. -/
def revHex (s : List Char) : Option (List Char) :=
  (bufferFromHex s).map fun b => toHex b.reverse

/-- Node `buffer.writeUInt32LE(value, offset)` on a non-negative integer: the four bytes
written; a value above `0xffffffff` raises (the write is made with assertions on).
`writeUInt32LENumber` is the write on any number. -/
def writeUInt32LE (value : Nat) : Except Err Buffer :=
  if value ≤ 0xffffffff then
    pure [Fin.ofNat (value % 256), Fin.ofNat (value / 256 % 256), Fin.ofNat (value / 65536 % 256),
      Fin.ofNat (value / 16777216 % 256)]
  else throw Err.TypeError

/-- Node `buffer.readUInt32LE(offset)` on the four bytes at the offset. -/
def readUInt32LE (bytes : Buffer) : Nat :=
  match bytes with
  | [a, b, c, d] => a.val + 256 * b.val + 65536 * c.val + 16777216 * d.val
  | _ => 0

/-- Node `buffer.slice(start, end)`: a negative index counts from the end, both indices are
brought into `[0, length]`, and the result is empty when `end` is not after `start`. -/
def slice (buffer : Buffer) (start stop : Int) : Buffer :=
  let len : Int := buffer.length
  let first : Int := if start < 0 then max (len + start) 0 else min start len
  let last : Int := if stop < 0 then max (len + stop) 0 else min stop len
  (buffer.take last.toNat).drop first.toNat

/-- `bitcoin.util.header2buffer(header)` on a `Header`. The checks of `verify` come first
(`prevBlockHash` and `merkleRoot` are strings of length 64), then the six writes in the order
of the source. Every failure is rendered as `TypeError`. `header2bufferObject` is the same
function on any header object. -/
def header2buffer (header : Header) : Except Err Buffer :=
  match header.prevBlockHash with
  | none => throw Err.TypeError
  | some prevBlockHash =>
    if prevBlockHash.length ≠ 64 then throw Err.TypeError
    else if header.merkleRoot.length ≠ 64 then throw Err.TypeError
    else do
      let version ← writeUInt32LE header.version
      let prev ←
        (match bufferFromHex prevBlockHash with
        | none => throw Err.TypeError
        | some b => pure b.reverse)
      let merkle ←
        (match bufferFromHex header.merkleRoot with
        | none => throw Err.TypeError
        | some b => pure b.reverse)
      let timestamp ← writeUInt32LE header.timestamp
      let bits ← writeUInt32LE header.bits
      let nonce ← writeUInt32LE header.nonce
      pure (version ++ prev ++ merkle ++ timestamp ++ bits ++ nonce)

/-- `bitcoin.util.buffer2header(buffer)`: fails unless the buffer has 80 bytes. -/
def buffer2header (buffer : Buffer) : Except Err Header :=
  if buffer.length ≠ 80 then throw Err.TypeError
  else
    pure
      { version := readUInt32LE (slice buffer 0 4)
        prevBlockHash := some (toHex (slice buffer 4 36).reverse)
        merkleRoot := toHex (slice buffer 36 68).reverse
        timestamp := readUInt32LE (slice buffer 68 72)
        bits := readUInt32LE (slice buffer 72 76)
        nonce := readUInt32LE (slice buffer 76 80) }

/-- A JavaScript number, as far as the checks of an integer write tell numbers apart: an
integer, a finite number with a fractional component (`below` is the integer just below it),
`NaN`, or an infinity. -/
inductive JsNumber where
  | integer (value : Int)
  | fractional (below : Int)
  | nan
  | infinity (negative : Bool)
deriving DecidableEq, Repr

/-- Node `buffer.writeUInt32LE(value, offset)` on any JavaScript number. The write is made
with assertions on (no `noAssert` argument), which require `value >= 0`,
`value <= 0xffffffff` and `Math.floor(value) === value`: a negative integer fails the first,
an integer above `0xffffffff` the second, a number with a fractional component the third (or
one of the bounds), `NaN` the first, an infinity one of the bounds. -/
def writeUInt32LENumber (value : JsNumber) : Except Err Buffer :=
  match value with
  | JsNumber.integer v => if 0 ≤ v then writeUInt32LE v.toNat else throw Err.TypeError
  | JsNumber.fractional _ => throw Err.TypeError
  | JsNumber.nan => throw Err.TypeError
  | JsNumber.infinity _ => throw Err.TypeError

/-- A header object as a collaborator may hand it to `header2buffer`: the four numbers are any
JavaScript numbers, each of the two hashes is a string or `null` (`none`). -/
structure HeaderObject where
  version : JsNumber
  prevBlockHash : Option (List Char)
  merkleRoot : Option (List Char)
  timestamp : JsNumber
  bits : JsNumber
  nonce : JsNumber
deriving DecidableEq, Repr

/-- `bitcoin.util.header2buffer(header)` on any header object (lines 75-95): the checks of
`verify` (each hash is a string of length 64), then the six writes in the order of the source.
Every failure is rendered as `TypeError`. -/
def header2bufferObject (header : HeaderObject) : Except Err Buffer :=
  match header.prevBlockHash with
  | none => throw Err.TypeError
  | some prevBlockHash =>
    if prevBlockHash.length ≠ 64 then throw Err.TypeError
    else
      match header.merkleRoot with
      | none => throw Err.TypeError
      | some merkleRoot =>
        if merkleRoot.length ≠ 64 then throw Err.TypeError
        else do
          let version ← writeUInt32LENumber header.version
          let prev ←
            (match bufferFromHex prevBlockHash with
            | none => throw Err.TypeError
            | some b => pure b.reverse)
          let merkle ←
            (match bufferFromHex merkleRoot with
            | none => throw Err.TypeError
            | some b => pure b.reverse)
          let timestamp ← writeUInt32LENumber header.timestamp
          let bits ← writeUInt32LENumber header.bits
          let nonce ← writeUInt32LENumber header.nonce
          pure (version ++ prev ++ merkle ++ timestamp ++ bits ++ nonce)

/-- The header object of a `Header`: its numbers are non-negative integers and its
`merkleRoot` is a string. -/
def Header.toObject (h : Header) : HeaderObject :=
  { version := JsNumber.integer h.version
    prevBlockHash := h.prevBlockHash
    merkleRoot := some h.merkleRoot
    timestamp := JsNumber.integer h.timestamp
    bits := JsNumber.integer h.bits
    nonce := JsNumber.integer h.nonce }

/-! ## Constants of `_sync` -/

def maxBits : Nat := 0x1d00ffff

/-- The buffer `00000000FFFF0000…00` of 32 bytes. -/
def maxTarget : Buffer := [0, 0, 0, 0, 255, 255] ++ List.replicate 26 0

/-- The integer `BigInteger.fromHex(maxTarget.toString('hex'))`. -/
def maxTargetBI : Nat := beVal maxTarget

/-! ## Proof of work comparison -/

/-- JavaScript `a < b` on two buffer reads; a comparison with `undefined` is false. -/
def jsLt : Option Byte → Option Byte → Bool
  | some a, some b => decide (a.val < b.val)
  | _, _ => false

/-- The loop of `isGoodHash` from index `i`, with `n` iterations left. -/
def isGoodHashFrom (hash target : Buffer) : Nat → Nat → Bool
  | 0, _ => false
  | n + 1, i => if jsLt (hash.get? i) (target.get? i) then true else isGoodHashFrom hash target n (i + 1)

/-- `isGoodHash(hash, target)`: for `i` from 0 to 31, return true at the first `i` with
`hash[i] < target[i]`; false when there is none. -/
def isGoodHash (hash target : Buffer) : Bool := isGoodHashFrom hash target 32 0

/-! ## Chain validator -/

/-- Node `assert.equal(actual, expected)` once the comparison has been evaluated. -/
def assertEqual (same : Bool) : Except Err Unit :=
  if same then pure () else throw Err.AssertionError

/-- `verifyHeader(currentHash, currentHeader, prevHash, prevHeader, target)` of `_sync`.
`prevHeader` is `none` when the variable is still `undefined` (first header of chunk 0), in
which case reading `prevHeader.timestamp` raises a `TypeError`. -/
def verifyHeader (isTestnet : Bool) (currentHash : Buffer) (currentHeader : Header)
    (prevHash : Buffer) (prevHeader : Option Header) (target : Target) : Except Err Unit :=
  tryCatch
    (do
      assertEqual (decide (some (toHex prevHash) = currentHeader.prevBlockHash))
      tryCatch
        (do
          assertEqual (decide (some (currentHeader.bits : Int) = target.bits))
          assertEqual (isGoodHash currentHash target.target == true))
        (fun error =>
          let isAssertionError := decide (error = Err.AssertionError)
          match prevHeader with
          | none => throw Err.TypeError
          | some p => do
            let interval : Int := (currentHeader.timestamp : Int) - (p.timestamp : Int)
            if !(isAssertionError && isTestnet && decide (interval > 1200)) then
              throw error
            assertEqual (decide (currentHeader.bits = maxBits))
            assertEqual (isGoodHash currentHash maxTarget == true)))
    (fun error =>
      if error = Err.AssertionError then throw Err.VerifyError else throw error)

/-- The control flow of `verifyHeader` written on the outcomes of its tests: linkage, bits and
hash against the expected target, the gap test (`none` when there is no previous header),
the testnet flag, bits and hash against the maximum target. Used to reason about
`verifyHeader`, see `verifyHeader_eq_tree`. -/
def verifyHeaderTree (link bitsOk hashOk : Bool) (gap : Option Bool)
    (testnet maxBitsOk maxHashOk : Bool) : Except Err Unit :=
  if link then
    if bitsOk && hashOk then Except.ok ()
    else
      match gap with
      | none => Except.error Err.TypeError
      | some g =>
        if testnet && g then
          if maxBitsOk && maxHashOk then Except.ok () else Except.error Err.VerifyError
        else Except.error Err.VerifyError
  else Except.error Err.VerifyError

/-! ## Difficulty model -/

def nTargetTimestamp : Nat := 14 * 24 * 60 * 60

def MM : Nat := 256 * 256 * 256

/-- The bigi `BigInteger.pow(e)`: the exponentiation routine returns one for every `e < 1`. -/
def bigPow (b : Nat) (e : Int) : Nat :=
  if e < 1 then 1 else b ^ e.toNat

/-- Big-endian bytes of `n` pushed in front of `acc`, `fuel` divisions at most. -/
def toByteArrayUnsignedAux : Nat → Nat → Buffer → Buffer
  | 0, _, acc => acc
  | fuel + 1, n, acc =>
    if n = 0 then acc else toByteArrayUnsignedAux fuel (n / 256) (Fin.ofNat (n % 256) :: acc)

/-- The bigi `toByteArrayUnsigned()` of a non-negative integer: its big-endian bytes without
leading zero, none at all for zero. -/
def toByteArrayUnsigned (n : Nat) : Buffer := toByteArrayUnsignedAux n n []

/-- The bigi `BigInteger.toHex()` without size: `toBuffer().toString('hex')`. -/
def bigToHex (n : Nat) : List Char := toHex (toByteArrayUnsigned n)

/-- The loop `while (c.slice(0, 2) === '00') { c = c.slice(2); i -= 1 }`. -/
def stripZeroBytes : List Char → Int → List Char × Int
  | a :: b :: rest, i =>
    if a = '0' ∧ b = '0' then stripZeroBytes rest (i - 1) else (a :: b :: rest, i)
  | c, i => (c, i)

/-- Digits of `parseInt(s, 16)` read so far: `acc` is `none` until a digit is read. -/
def parseIntHexAux : List Char → Option Int → Option Int
  | [], acc => acc
  | ch :: rest, acc =>
    match hexVal ch with
    | some d => parseIntHexAux rest (some (16 * acc.getD 0 + (d : Int)))
    | none => acc

/-- `parseInt(s, 16)` on a string that starts with neither blank, sign nor `0x`: the value of
the longest prefix of hexadecimal digits, `NaN` when that prefix is empty. -/
def parseIntHex (s : List Char) : Option Int := parseIntHexAux s none

/-- Lines 383-386 of `getTarget`: the time span of the period, kept within
`[nTargetTimestamp / 4, nTargetTimestamp * 4]`. -/
def actualTimestamp (firstHeader lastHeader : Header) : Int :=
  let nActualTimestamp : Int := (lastHeader.timestamp : Int) - (firstHeader.timestamp : Int)
  let nActualTimestamp : Int := max nActualTimestamp ((nTargetTimestamp : Int) / 4)
  let nActualTimestamp : Int := min nActualTimestamp ((nTargetTimestamp : Int) * 4)
  nActualTimestamp

/-- Lines 388-395 of `getTarget`: the target integer decoded from the compact `bits`. -/
def decodeBits (bits : Nat) : Nat :=
  let a := bits % MM
  let a := if a < 0x8000 then a * 256 else a
  let target : Nat := a
  let target := target * bigPow 2 (8 * (((bits / MM : Nat) : Int) - 3))
  target

/-- Lines 396-398 of `getTarget`: the new target integer. -/
def newTarget (firstHeader lastHeader : Header) : Nat :=
  let target := decodeBits lastHeader.bits
  let target := target * (actualTimestamp firstHeader lastHeader).toNat
  let target := target / nTargetTimestamp
  let target := min target maxTargetBI
  target

/-- Lines 400-413 of `getTarget`: the compact bits computed from the target integer. -/
def encodeBits (target : Nat) : Option Int :=
  let c := zfill (bigToHex target) 64
  let (c, i) := stripZeroBytes c 32
  let c : Option Int := parseIntHex (c.take 6)
  let (c, i) : Option Int × Int :=
    match c with
    | some v => if v > 0x800000 then (some (v / 256), i + 1) else (some v, i)
    | none => (none, i)
  c.map (fun v => v + (MM : Int) * i)

/-- The last callback of `getTarget` (lines 382-414): the retarget computation from the two
boundary headers. -/
def retarget (firstHeader lastHeader : Header) : Except Err Target :=
  let target := newTarget firstHeader lastHeader
  match bufferFromHex (bigToHex target) with
  | none => throw Err.TypeError
  | some buffer => pure { bits := encodeBits target, target := buffer }

/-- `getTarget(index, chain)` once the two boundary headers have been looked up: period 0
answers at once with the maximum target; `lastHeader` is `none` when neither the verified
chain nor the candidate list has the header, and reading its timestamp raises a `TypeError`. -/
def getTarget (index : Int) (firstHeader : Header) (lastHeader : Option Header) :
    Except Err Target :=
  if index = 0 then pure { bits := some (maxBits : Int), target := maxTarget }
  else
    match lastHeader with
    | none => throw Err.TypeError
    | some l => retarget firstHeader l

/-! ## Storage, cache, network and the state of a `VerifiedBlockchain` -/

/-- Modelled from the spec: the class `VerifiedBlockchainStorage`, which `VerifiedBlockchain.js`
requires and whose source is not among the files: the hashes of the closed chunks, the pending
raw headers and the last hash, all as hexadecimal strings. -/
structure Storage where
  chunkHashes : List (List Char)
  headers : List (List Char)
  lastHash : List Char
deriving DecidableEq, Repr

/-- Modelled from the spec: `getChunksCount()` of the missing `VerifiedBlockchainStorage`. -/
def Storage.getChunksCount (s : Storage) : Int := s.chunkHashes.length

/-- Modelled from the spec: `getHeadersCount()` of the missing `VerifiedBlockchainStorage`. -/
def Storage.getHeadersCount (s : Storage) : Int := s.headers.length

/-- Modelled from the spec: `getHeader(indexInPendingBuffer)` of the missing
`VerifiedBlockchainStorage`; `none` (`undefined`) outside the pending buffer. -/
def Storage.getHeader (s : Storage) (i : Int) : Option (List Char) :=
  if i < 0 then none else s.headers.get? i.toNat

/-- Modelled from the spec: `getChunkHash(index)` of the missing `VerifiedBlockchainStorage`;
`none` (`undefined`) when there is no such closed chunk. -/
def Storage.getChunkHash (s : Storage) (i : Int) : Option (List Char) :=
  if i < 0 then none else s.chunkHashes.get? i.toNat

/-- Modelled from the spec: `pushHeader(hex)` of the missing `VerifiedBlockchainStorage`. -/
def Storage.pushHeader (s : Storage) (hex : List Char) : Storage :=
  { s with headers := s.headers ++ [hex] }

/-- Modelled from the spec: `pushChunkHash(hex)` of the missing `VerifiedBlockchainStorage`. -/
def Storage.pushChunkHash (s : Storage) (hex : List Char) : Storage :=
  { s with chunkHashes := s.chunkHashes ++ [hex] }

/-- Modelled from the spec: `truncateHeaders(n)` of the missing `VerifiedBlockchainStorage`:
the first `n` pending headers are kept. -/
def Storage.truncateHeaders (s : Storage) (n : Int) : Storage :=
  { s with headers := s.headers.take n.toNat }

/-- Modelled from the spec: `truncateChunks(n)` of the missing `VerifiedBlockchainStorage`:
the first `n` chunk hashes are kept. -/
def Storage.truncateChunks (s : Storage) (n : Int) : Storage :=
  { s with chunkHashes := s.chunkHashes.take n.toNat }

/-- Modelled from the spec: `getLastHash() -> 32 bytes` of the missing
`VerifiedBlockchainStorage`: the buffer of the stored hexadecimal string. -/
def Storage.getLastHash (s : Storage) : Buffer := (bufferFromHex s.lastHash).getD []

/-- Modelled from the spec: `setLastHash(hex)` of the missing `VerifiedBlockchainStorage`. -/
def Storage.setLastHash (s : Storage) (hex : List Char) : Storage :=
  { s with lastHash := hex }

/-- Modelled from the spec: `clear()` of the missing `VerifiedBlockchainStorage`. -/
def Storage.clear (_ : Storage) : Storage :=
  { chunkHashes := [], headers := [], lastHash := [] }

/-- The `lru-cache` object behind `_headerCache`: at most `max` entries (no bound when `max`
is 0), the most recently used first. -/
structure LRU where
  max : Nat
  items : List (Int × Buffer)
deriving DecidableEq, Repr

/-- The `get(key)` of `lru-cache`: the value, and the cache with the entry made the most recent. -/
def LRU.get (c : LRU) (key : Int) : Option Buffer × LRU :=
  match c.items.find? (fun e => decide (e.1 = key)) with
  | some e => (some e.2, { c with items := e :: c.items.filter (fun x => decide (x.1 ≠ key)) })
  | none => (none, c)

/-- The `set(key, value)` of `lru-cache`: the entry becomes the most recent, the least recent
ones are dropped beyond `max`. -/
def LRU.set (c : LRU) (key : Int) (value : Buffer) : LRU :=
  let items := (key, value) :: c.items.filter (fun x => decide (x.1 ≠ key))
  { c with items := if c.max = 0 then items else items.take c.max }

/-- A transaction object of the `Network` collaborator, by its serialized form. -/
abbrev Transaction := List Char

/-- A value `{ height: height, tx: tx }` of `_txCache`; `tx` is `none` when the variable is
still `undefined`. -/
structure TxEntry where
  height : Int
  tx : Option Transaction
deriving DecidableEq, Repr

/-- The `lru-cache` object behind `_txCache`, keyed by transaction id: at most `max` entries
(no bound when `max` is 0), the most recently used first. -/
structure TxCache where
  max : Nat
  items : List (List Char × TxEntry)
deriving DecidableEq, Repr

/-- The `get(key)` of `lru-cache`: the value, and the cache with the entry made the most recent. -/
def TxCache.get (c : TxCache) (key : List Char) : Option TxEntry × TxCache :=
  match c.items.find? (fun e => decide (e.1 = key)) with
  | some e => (some e.2, { c with items := e :: c.items.filter (fun x => decide (x.1 ≠ key)) })
  | none => (none, c)

/-- The `set(key, value)` of `lru-cache`: the entry becomes the most recent, the least recent
ones are dropped beyond `max`. -/
def TxCache.set (c : TxCache) (key : List Char) (value : TxEntry) : TxCache :=
  let items := (key, value) :: c.items.filter (fun x => decide (x.1 ≠ key))
  { c with items := if c.max = 0 then items else items.take c.max }

/-- The `del(key)` of `lru-cache`. -/
def TxCache.del (c : TxCache) (key : List Char) : TxCache :=
  { c with items := c.items.filter (fun x => decide (x.1 ≠ key)) }

/-- The `forEach(fn)` of `lru-cache`: `fn(value, key, cache)` is called for the entries that the
cache holds at the call, the most recent first; the third argument is the cache as the calls
made so far have left it. -/
def TxCache.forEach (c : TxCache) (fn : TxEntry → List Char → TxCache → TxCache) : TxCache :=
  c.items.foldl (fun cache e => fn e.2 e.1 cache) c

/-- The listener of `newHeight` that the constructor sets on the blockchain itself (lines
96-101): every entry of `_txCache` whose `height` is 0 is deleted. -/
def newHeightListener (txCache : TxCache) : TxCache :=
  txCache.forEach (fun value key cache => if value.height = 0 then cache.del key else cache)

/-- The value that a promise of `_getVerifiedTx` is resolved with: the transaction (`undefined`
is `none`) from the promise chain, the whole cache entry when the cache answers (line 278). -/
inductive TxResult where
  | tx (tx : Option Transaction)
  | entry (entry : TxEntry)
deriving DecidableEq, Repr

/-- The answer `{ height, merkle, index }` of the `getMerkle` of the network. -/
structure MerkleResult where
  height : Int
  merkle : List (List Char)
  index : Int
deriving DecidableEq, Repr

/-- An error passed by the `Network` collaborator to a callback. The code tells such errors
apart by their `type` field, which is `'NotFoundError'` (`notFound`), `'BlockNotFoundError'`
(`blockNotFoundType`) or something else, and, after `getMerkle`, by their `message`, which is
`'BlockNotFound'` (`blockNotFoundMessage`, with a type that is none of the two) or not. -/
inductive NetErr where
  | notFound
  | other
  | blockNotFoundType
  | blockNotFoundMessage
deriving DecidableEq, Repr

/-- The error that a promise made by `Q.ninvoke` on the network is rejected with. -/
def NetErr.toErr : NetErr → Err
  | NetErr.notFound => Err.NotFoundError
  | NetErr.other => Err.NetworkError
  | NetErr.blockNotFoundType => Err.BlockNotFoundError
  | NetErr.blockNotFoundMessage => Err.NetworkError

/-- The `Network` collaborator. Its answers may change with time: the first argument of each
field is the number of requests that the blockchain has sent so far. -/
structure Network where
  getCurrentHeight : Nat → Int
  getCurrentBlockHash : Nat → Buffer
  getHeader : Nat → Int → Except NetErr Header
  getChunk : Nat → Int → Except NetErr (List Char)
  getTx : Nat → List Char → Except NetErr Transaction
  getMerkle : Nat → List Char → Except NetErr MerkleResult

/-- The options and the collaborator of one `VerifiedBlockchain`. -/
structure Env where
  isTestnet : Bool
  network : Network

/-- The mutable fields of a `VerifiedBlockchain` and of its running `_sync`.
`tick` counts the requests sent to the network, `newHeightEvents` the `newHeight` events
emitted (an emission also runs `newHeightListener` on `txCache`), `syncIndex` is the variable
`index` of `_sync`. `lastCommitted` is a history
variable, not a field of the source: the raw header that the last commit made the tip.
An entry of `getVerifiedTxRunning` is a promise, rendered by the outcome that it settles with
(`Unsettled` when it never does). -/
structure State where
  currentHeight : Int
  currentBlockHash : Buffer
  storage : Storage
  headerCache : LRU
  tick : Nat
  newHeightEvents : Nat
  syncIndex : Int
  lastCommitted : Option Buffer
  txCache : TxCache
  getVerifiedTxRunning : List (List Char × Except Err TxResult)
deriving DecidableEq, Repr

/-- The buffer `new Buffer(zfill('', 64), 'hex')`. -/
def zeroHash : Buffer := (bufferFromHex (zfill [] 64)).getD []

/-- Lines 48-63 of the constructor: the empty caches and tables (`txCacheSize` at its default,
250), the initial height and hash from the reloaded storage. -/
def construct (storage : Storage) (headerCacheSize : Nat) : State :=
  let currentHeight : Int := -1
  let currentBlockHash := zeroHash
  let storageChunksCount := storage.getChunksCount
  let storageHeadersCount := storage.getHeadersCount
  let (currentHeight, currentBlockHash) :=
    if storageChunksCount > 0 ∨ storageHeadersCount > 0 then
      (storageChunksCount * 2016 + storageHeadersCount, storage.getLastHash)
    else (currentHeight, currentBlockHash)
  { currentHeight := currentHeight
    currentBlockHash := currentBlockHash
    storage := storage
    headerCache := { max := headerCacheSize, items := [] }
    tick := 0
    newHeightEvents := 0
    syncIndex := 0
    lastCommitted := none
    txCache := { max := 250, items := [] }
    getVerifiedTxRunning := [] }

/-! ## The monad of the asynchronous code

A promise chain is run to its end in one go: a computation takes the state and gives back
the outcome and the new state, which is kept when the outcome is an error. -/

def Run (α : Type) : Type := State → Except Err α × State

instance : Monad Run where
  pure a := fun s => (Except.ok a, s)
  bind m f := fun s =>
    match m s with
    | (Except.ok a, s1) => f a s1
    | (Except.error e, s1) => (Except.error e, s1)

instance : MonadExceptOf Err Run where
  throw e := fun s => (Except.error e, s)
  tryCatch m handler := fun s =>
    match m s with
    | (Except.ok a, s1) => (Except.ok a, s1)
    | (Except.error e, s1) => handler e s1

/-- The current state. -/
def getState : Run State := fun s => (Except.ok s, s)

/-- A change of the state. -/
def modifyState (f : State → State) : Run Unit := fun s => (Except.ok (), f s)

/-- A synchronous computation inside a promise chain. -/
def liftExcept {α : Type} (x : Except Err α) : Run α := fun s => (x, s)

/-- A change of `self._storage`. -/
def modifyStorage (f : Storage → Storage) : Run Unit :=
  modifyState fun s => { s with storage := f s.storage }

/-- Node `new Buffer(hex, 'hex')` inside a promise chain. -/
def newBuffer (hex : List Char) : Run Buffer :=
  match bufferFromHex hex with
  | none => throw Err.TypeError
  | some b => pure b

/-- `Q.ninvoke(self._network, 'getChunk', index)`. -/
def networkGetChunk (env : Env) (index : Int) : Run (List Char) := fun s =>
  ((env.network.getChunk s.tick index).mapError NetErr.toErr, { s with tick := s.tick + 1 })

/-- `Q.ninvoke(self._network, 'getHeader', height)`, the body of `_getHeader`. -/
def _getHeader (env : Env) (height : Int) : Run Header := fun s =>
  ((env.network.getHeader s.tick height).mapError NetErr.toErr, { s with tick := s.tick + 1 })

/-! ## Verified headers and chunks -/

/-- `_waitHeight(height)`: resolved at once when the height is reached; otherwise the promise
waits for a `newHeight` event, which the chain that awaits it cannot emit. -/
def _waitHeight (height : Int) : Run Unit := do
  let s ← getState
  if height ≤ s.currentHeight then pure () else throw Err.Unsettled

/-- The loop of `_getVerifiedChunk` over `_.range(0, 2016)`: every 80-byte slice of the chunk
is put in the header cache under its height. -/
def cacheChunk (cache : LRU) (chunkIndex : Int) (chunk : Buffer) : LRU :=
  (List.range 2016).foldl
    (fun c offset =>
      c.set (chunkIndex * 2016 + (offset : Int))
        (slice chunk ((offset : Int) * 80) (((offset : Int) + 1) * 80)))
    cache

/-- `_getVerifiedChunk(chunkIndex)`. The table of the requests in flight plays no part in a
single promise chain and is left out. -/
def _getVerifiedChunk (env : Env) (chunkIndex : Int) : Run Buffer := do
  let chunkHex ← networkGetChunk env chunkIndex
  let chunk ← newBuffer chunkHex
  let chunkHash := toHex (hash256 chunk)
  let s ← getState
  if some chunkHash ≠ s.storage.getChunkHash chunkIndex then throw Err.VerifyChunkError
  else do
    modifyState fun s => { s with headerCache := cacheChunk s.headerCache chunkIndex chunk }
    pure chunk

/-- `_getVerifiedHeader(height)`. -/
def _getVerifiedHeader (env : Env) (height : Int) : Run Buffer := do
  let s ← getState
  modifyState fun s => { s with headerCache := (s.headerCache.get height).2 }
  match (s.headerCache.get height).1 with
  | some buffer => pure buffer
  | none => do
    let s ← getState
    let _ ← (if height > s.currentHeight ∧ height ≤ env.network.getCurrentHeight s.tick then
      _waitHeight height else pure ())
    let chunkIndex : Int := height / 2016
    let headerIndex : Int := Int.tmod height 2016
    let s ← getState
    if chunkIndex = s.storage.getChunksCount then
      if headerIndex ≥ s.storage.getHeadersCount then throw Err.NotFoundError
      else
        match s.storage.getHeader headerIndex with
        | none => throw Err.TypeError
        | some hex => newBuffer hex
    else do
      let chunk ← _getVerifiedChunk env chunkIndex
      pure (slice chunk (headerIndex * 80) ((headerIndex + 1) * 80))

/-- An element `{height, header}` of the candidate list `chain`. -/
structure ChainItem where
  height : Int
  header : Header
deriving DecidableEq, Repr

/-- The whole of `getTarget(index, chain)`: the look-up of the two boundary headers, the
candidate of height `index * 2016 - 1` taking the place of the last one, then `getTarget`. -/
def getTargetAt (env : Env) (index : Int) (chain : List ChainItem) : Run Target :=
  if index = 0 then pure { bits := some (maxBits : Int), target := maxTarget }
  else do
    let buffer ← _getVerifiedHeader env ((index - 1) * 2016)
    let firstHeader ← liftExcept (buffer2header buffer)
    let lastHeader : Option Header ←
      tryCatch
        (do
          let buffer ← _getVerifiedHeader env (index * 2016 - 1)
          let header ← liftExcept (buffer2header buffer)
          pure (some header))
        (fun error => if error ≠ Err.NotFoundError then throw error else pure none)
    let lastHeader := chain.foldl
      (fun last data => if data.height = index * 2016 - 1 then some data.header else last)
      lastHeader
    liftExcept (getTarget index firstHeader lastHeader)

/-! ## Verified transactions -/

/-- `bitcoin.util.hashDecode(s)` of coloredcoinjs-lib, which `bitcoin.hashDecode` calls: the
buffer of the hexadecimal string, reversed; `none` when `new Buffer(s, 'hex')` raises. -/
def hashDecode (s : List Char) : Option Buffer := (bufferFromHex s).map List.reverse

/-- `bitcoin.util.hashEncode(buffer)` of coloredcoinjs-lib, which `bitcoin.hashEncode` calls:
the hexadecimal string of the reversed buffer. -/
def hashEncode (buffer : Buffer) : List Char := toHex buffer.reverse

/-- JavaScript `ToInt32` of an integer: its value modulo `2 ^ 32`, in `[-2 ^ 31, 2 ^ 31)`. -/
def toInt32 (x : Int) : Int :=
  let m := x % 4294967296
  if m ≥ 2147483648 then m - 4294967296 else m

/-- JavaScript `x >> n`: the left operand goes through `ToInt32`, the shift count is taken
modulo 32, the sign is kept. -/
def jsShiftRight (x : Int) (n : Nat) : Int := (toInt32 x) >>> (n % 32)

/-- JavaScript `x & y` on integers. -/
def jsAnd (x y : Int) : Int := Int.land (toInt32 x) (toInt32 y)

/-- One call of the callback of `result.merkle.forEach` (lines 296-304): the new `hash` from
the sibling `txId` at position `i`. -/
def merkleStep (index : Int) (hash : Buffer) (txId : List Char) (i : Nat) : Except Err Buffer :=
  match hashDecode txId with
  | none => throw Err.TypeError
  | some sibling =>
    let items := if jsAnd (jsShiftRight index i) 1 ≠ 0 then [sibling, hash] else [hash, sibling]
    pure (hash256 items.flatten)

/-- The `result.merkle.forEach` of `_getVerifiedTx` from position `i` on. -/
def merkleFold (index : Int) : List (List Char) → Nat → Buffer → Except Err Buffer
  | [], _, hash => pure hash
  | txId :: rest, i, hash => do
    let hash ← merkleStep index hash txId i
    merkleFold index rest (i + 1) hash

/-- Lines 295-305 of `_getVerifiedTx`: the Merkle root recomputed from the transaction id and
the answer of `getMerkle`. -/
def computeMerkleRoot (txId : List Char) (result : MerkleResult) : Except Err (List Char) :=
  match hashDecode txId with
  | none => throw Err.TypeError
  | some hash => do
    let hash ← merkleFold result.index result.merkle 0 hash
    pure (hashEncode hash)

/-- Lines 310-312 of `_getVerifiedTx`: the recomputed root against the root of the verified
header. -/
def checkMerkleRoot (buffer : Buffer) (merkleRoot : List Char) : Except Err Unit := do
  let header ← buffer2header buffer
  if header.merkleRoot ≠ merkleRoot then throw Err.VerifyTxError else pure ()

/-- The reference fold of the specification (4.5) from position `i` on: `hash` and the siblings
are in internal byte order, bit `i` of `index` chooses the order of the concatenation. -/
def merkleFoldSpec (index : Nat) : List Buffer → Nat → Buffer → Buffer
  | [], _, hash => hash
  | sibling :: rest, i, hash =>
    merkleFoldSpec index rest (i + 1)
      (if index.testBit i then hash256 (sibling ++ hash) else hash256 (hash ++ sibling))

/-- Modelled from the spec: `verify.txId` of the module `verify`, which `VerifiedBlockchain.js`
requires and whose source is not among the files: an id is a string of exactly 64 hexadecimal
characters. -/
def verifyTxId (txId : List Char) : Except Err Unit :=
  if txId.length = 64 ∧ txId.all (fun c => (hexVal c).isSome) = true then pure ()
  else throw Err.TypeError

/-- `Q.ninvoke(this._network, 'getTx', txId)`, the body of `_getTx`. -/
def _getTx (env : Env) (txId : List Char) : Run Transaction := fun s =>
  ((env.network.getTx s.tick txId).mapError NetErr.toErr, { s with tick := s.tick + 1 })

/-- `Q.ninvoke(self._network, 'getMerkle', txId)` with its handler (lines 285-290): an error
whose message is `'BlockNotFound'` becomes a `BlockNotFoundError`. -/
def networkGetMerkle (env : Env) (txId : List Char) : Run MerkleResult := fun s =>
  ((env.network.getMerkle s.tick txId).mapError
      (fun error =>
        if error = NetErr.blockNotFoundMessage then Err.BlockNotFoundError else error.toErr),
    { s with tick := s.tick + 1 })

/-- The promise chain of `_getVerifiedTx` (lines 283-322), before its `finally`. The handler of
line 314 is written twice, since it reads the variables `tx` and `height` of the closure: once
around the callbacks that run when `tx` is set, once for a failure of `_getTx`, when `tx` is
still `undefined`. In both it sets `height` to 0. -/
def verifiedTxChain (env : Env) (txId : List Char) : Run TxResult :=
  tryCatch
    (do
      let tx ← _getTx env txId
      let height ←
        tryCatch
          (do
            let result ← networkGetMerkle env txId
            let merkleRoot ← liftExcept (computeMerkleRoot txId result)
            let buffer ← _getVerifiedHeader env result.height
            liftExcept (checkMerkleRoot buffer merkleRoot)
            pure result.height)
          (fun error => if error ≠ Err.BlockNotFoundError then throw error else pure 0)
      modifyState fun s =>
        { s with txCache := s.txCache.set txId { height := height, tx := some tx } }
      pure (TxResult.tx (some tx)))
    (fun error =>
      if error ≠ Err.BlockNotFoundError then throw error
      else do
        modifyState fun s =>
          { s with txCache := s.txCache.set txId { height := 0, tx := none } }
        pure (TxResult.tx none))

/-- `_getVerifiedTx(txId)`. The entry of `_getVerifiedTxRunning` is set as soon as the chain
is built and deleted by the `finally` when the chain settles; the chain does not read the
table, so that the entry only shows in the state when the chain never settles. -/
def _getVerifiedTx (env : Env) (txId : List Char) : Run TxResult := do
  liftExcept (verifyTxId txId)
  let s ← getState
  modifyState fun s => { s with txCache := (s.txCache.get txId).2 }
  match (s.txCache.get txId).1 with
  | some entry => pure (TxResult.entry entry)
  | none => do
    let s ← getState
    match s.getVerifiedTxRunning.find? (fun e => decide (e.1 = txId)) with
    | some e => liftExcept e.2
    | none => fun s =>
      let r := verifiedTxChain env txId s
      if r.1 = Except.error Err.Unsettled then
        (r.1, { r.2 with getVerifiedTxRunning := (txId, r.1) :: r.2.getVerifiedTxRunning })
      else
        (r.1, { r.2 with
          getVerifiedTxRunning :=
            r.2.getVerifiedTxRunning.filter (fun e => decide (e.1 ≠ txId)) })

/-! ## `_sync`: incremental mode -/

/-- The height `(_.last(chain) || { height: self.getCurrentHeight() }).height + 1` that
`runChainLoopOnce` looks at next. -/
def nextHeight (chain : List ChainItem) (currentHeight : Int) : Int :=
  (match chain.getLast? with
    | some data => data.height
    | none => currentHeight) + 1

/-- The first part of `runChainLoopOnce`: while the next height is at most `networkHeight`,
fetch its header and append it to `chain`. A failed fetch is a rejection that nothing
handles, so that the promise of `_sync` is never settled. `n` bounds the iterations. -/
def fetchChain (env : Env) (networkHeight : Int) : Nat → List ChainItem → Run (List ChainItem)
  | 0, _ => throw Err.OutOfFuel
  | n + 1, chain => do
    let s ← getState
    if nextHeight chain s.currentHeight ≤ networkHeight then do
      let header ← tryCatch (_getHeader env (nextHeight chain s.currentHeight))
        (fun _ => throw Err.Unsettled)
      fetchChain env networkHeight n
        (chain ++ [{ height := nextHeight chain s.currentHeight, header := header }])
    else pure chain

/-- The `chain.forEach` of `runChainLoopOnce` that validates the candidates in order, from
the candidate list `rest` on. -/
def verifyChain (env : Env) (chain : List ChainItem) :
    List ChainItem → Buffer → Header → Run Unit
  | [], _, _ => pure ()
  | data :: rest, prevHash, prevHeader => do
    let target ← getTargetAt env (data.height / 2016) chain
    let buffer ← liftExcept (header2buffer data.header)
    let currentHash := headerHash buffer
    liftExcept (verifyHeader env.isTestnet currentHash data.header prevHash (some prevHeader)
      target)
    verifyChain env chain rest currentHash data.header

/-- A `forEach` that pushes the raw form of the headers of `items` that satisfy `keep`. -/
def pushHeaders (keep : ChainItem → Bool) : List ChainItem → Run Unit
  | [] => pure ()
  | obj :: rest => do
    let _ ← (if keep obj then do
        let buffer ← liftExcept (header2buffer obj.header)
        modifyStorage fun st => st.pushHeader (toHex buffer)
      else pure ())
    pushHeaders keep rest

/-- The string `chunkHex` extended with the raw form of the candidates below `startHeight`. -/
def appendChainHex (startHeight : Int) : List ChainItem → List Char → Run (List Char)
  | [], chunkHex => pure chunkHex
  | obj :: rest, chunkHex => do
    if obj.height < startHeight then
      let buffer ← liftExcept (header2buffer obj.header)
      appendChainHex startHeight rest (chunkHex ++ toHex buffer)
    else appendChainHex startHeight rest chunkHex

/-- The string `chunkHex` built from the pending headers of the storage, `getHeader(offset)`
for every offset of `_.range(getHeadersCount())`; a missing header prints as `undefined`. -/
def storedHeadersHex (st : Storage) : List Char :=
  (List.range st.headers.length).foldl
    (fun chunkHex offset =>
      chunkHex ++ (st.getHeader (offset : Int)).getD "undefined".toList)
    []

/-- The commit of `runChainLoopOnce` (lines 497-540). -/
def commitChain (chain : List ChainItem) : Run Unit := do
  let last ←
    (match chain.getLast? with
    | none => throw Err.TypeError
    | some data => pure data)
  let lastBlock ← liftExcept (header2buffer last.header)
  let lastBlockHash := toHex (headerHash lastBlock)
  modifyStorage fun st => st.setLastHash lastBlockHash
  let chunkIndex : Int := last.height / 2016
  let headerIndex : Int := Int.tmod last.height 2016
  let s ← getState
  let _ ← (if chunkIndex = s.storage.getChunksCount then do
      modifyStorage fun st => st.truncateHeaders headerIndex
      pushHeaders (fun _ => true) chain
    else do
      liftExcept (assertEqual (decide (chunkIndex - 1 = s.storage.getChunksCount)))
      let startHeight : Int := chunkIndex * 2016
      let chunkHex := storedHeadersHex s.storage
      let chunkHex ← appendChainHex startHeight chain chunkHex
      liftExcept (assertEqual (decide (chunkHex.length = 2016 * 160)))
      let chunk ← newBuffer chunkHex
      let chunkHash := toHex (hash256 chunk)
      modifyStorage fun st => st.pushChunkHash chunkHash
      modifyStorage fun st => st.truncateHeaders 0
      pushHeaders (fun obj => decide (obj.height ≥ startHeight)) chain)
  modifyState fun s =>
    { s with
      currentBlockHash := s.storage.getLastHash
      currentHeight := last.height
      newHeightEvents := s.newHeightEvents + 1
      txCache := newHeightListener s.txCache
      lastCommitted := some lastBlock }

/-- The two `then` callbacks of `runChainLoopOnce` that follow the fetch (lines 474-540):
the link of the first candidate to the local tip, the validation and the commit. -/
def replayChain (env : Env) (chain : List ChainItem) : Run Unit := do
  let s ← getState
  let buffer ← _getVerifiedHeader env s.currentHeight
  let prevHeader ← liftExcept (buffer2header buffer)
  let first ←
    (match chain.head? with
    | none => throw Err.TypeError
    | some data => pure data)
  if some (toHex (headerHash buffer)) ≠ first.header.prevBlockHash then throw Err.LoopInterrupt
  else do
    verifyChain env chain chain (headerHash buffer) prevHeader
    commitChain chain

/-- `runChainLoopOnce()`; `chunkLoop` is the `startChunkLoop()` of the last handler. -/
def runChainLoopOnce (env : Env) (networkHeight : Int) (chunkLoop : Run Unit) : Run Unit := do
  let s ← getState
  let chain ← fetchChain env networkHeight ((networkHeight - s.currentHeight).toNat + 1) []
  tryCatch (replayChain env chain)
    (fun error => if error = Err.LoopInterrupt then chunkLoop else throw error)

/-! ## `_sync`: catch-up mode -/

/-- The slices `chunk.slice(offset, offset + 80)` for the offsets of
`_.range(0, chunk.length, 80)`; `n` bounds their number. -/
def chunkSlices : Nat → Buffer → List Buffer
  | 0, _ => []
  | n + 1, chunk => if chunk = [] then [] else chunk.take 80 :: chunkSlices n (chunk.drop 80)

/-- The `forEach` of `runChunkLoopOnce` that validates the headers of a chunk in order. -/
def verifyChunk (isTestnet : Bool) (target : Target) :
    List Buffer → Buffer → Option Header → Except Err Unit
  | [], _, _ => pure ()
  | raw :: rest, prevHash, prevHeader => do
    let currentHeader ← buffer2header raw
    let currentHash := headerHash raw
    verifyHeader isTestnet currentHash currentHeader prevHash prevHeader target
    verifyChunk isTestnet target rest currentHash (some currentHeader)

/-- The commit of `runChunkLoopOnce` (lines 589-609), up to `index += 1`. -/
def commitChunk (chunk : Buffer) : Run Unit := do
  let index := (← getState).syncIndex
  modifyStorage fun st =>
    st.setLastHash (toHex (headerHash (slice chunk (-80) (chunk.length : Int))))
  modifyStorage fun st => st.truncateHeaders 0
  let _ ← (if chunk.length = 2016 * 80 then do
      modifyStorage fun st => st.truncateChunks index
      modifyStorage fun st => st.pushChunkHash (toHex (hash256 chunk))
    else
      modifyStorage fun st =>
        (chunkSlices chunk.length chunk).foldl (fun st raw => st.pushHeader (toHex raw)) st)
  modifyState fun s =>
    { s with
      currentBlockHash := s.storage.getLastHash
      currentHeight := index * 2016 + (chunk.length : Int) / 80 - 1
      newHeightEvents := s.newHeightEvents + 1
      txCache := newHeightListener s.txCache
      lastCommitted := some (slice chunk (-80) (chunk.length : Int)) }
  modifyState fun s => { s with syncIndex := s.syncIndex + 1 }

/-- One pass through the promise chain of `runChunkLoopOnce`, without its last handler: the
chunk of the current index is fetched, linked, validated and committed; on a link mismatch
the index goes down by one and `LoopInterrupt` is raised. -/
def chunkStep (env : Env) : Run Unit := do
  let index := (← getState).syncIndex
  let chunkHex ← networkGetChunk env index
  let chunk ← newBuffer chunkHex
  let buffer : Option Buffer ←
    (if index > 0 then (do let b ← _getVerifiedHeader env (index * 2016 - 1); pure (some b))
    else pure none)
  let prevHash : Option Buffer := if index > 0 then none else some zeroHash
  let prev : Option Buffer × Option Header ←
    (match buffer with
    | some b =>
      if b.length = 80 then do
        let header ← liftExcept (buffer2header b)
        pure (some (headerHash b), some header)
      else pure (prevHash, none)
    | none => pure (prevHash, none))
  let prevHeader := prev.2
  let chunkFirstHeader ← liftExcept (buffer2header (slice chunk 0 80))
  let prevHash ←
    (match prev.1 with
    | none => throw Err.TypeError
    | some h => pure h)
  if chunkFirstHeader.prevBlockHash = some (toHex prevHash) then do
    let target ← getTargetAt env index []
    liftExcept (verifyChunk env.isTestnet target (chunkSlices chunk.length chunk) prevHash
      prevHeader)
    commitChunk chunk
  else do
    modifyState fun s => { s with syncIndex := s.syncIndex - 1 }
    throw Err.LoopInterrupt

/-- `runChunkLoopOnce()`, which calls itself after a commit and after a `LoopInterrupt`;
`fuel` bounds the number of passes. -/
def runChunkLoopOnce (env : Env) (networkIndex : Int) : Nat → Run Unit
  | 0 => throw Err.OutOfFuel
  | fuel + 1 => do
    let s ← getState
    if s.syncIndex > networkIndex then pure ()
    else do
      tryCatch (chunkStep env)
        (fun error => if error = Err.LoopInterrupt then pure () else throw error)
      runChunkLoopOnce env networkIndex fuel

/-- `startChunkLoop()`. -/
def startChunkLoop (env : Env) (networkHeight : Int) (fuel : Nat) : Run Unit := do
  let networkIndex : Int := max (networkHeight / 2016) 0
  let s ← getState
  let index : Int := max (s.currentHeight / 2016) 0
  let index : Int := min index networkIndex
  modifyState fun s => { s with syncIndex := index }
  runChunkLoopOnce env networkIndex fuel

/-- `_sync()`; the outcome `ok` is the resolution of its promise. -/
def _sync (env : Env) (fuel : Nat) : Run Unit := do
  let s ← getState
  let networkHeight := env.network.getCurrentHeight s.tick
  let networkLastHash := env.network.getCurrentBlockHash s.tick
  if s.currentBlockHash = networkLastHash ∨ networkHeight = -1 then pure ()
  else if networkHeight - s.currentHeight < 50 then
    runChainLoopOnce env networkHeight (startChunkLoop env networkHeight fuel)
  else startChunkLoop env networkHeight fuel

/-! ## The queue of `newHeight` triggers (constructor, lines 65-90) -/

/-- The variables `running` and `queue` of the constructor, and what the event loop holds of
the promise chains that `onNewHeight` builds: `scheduled` counts the chains whose first
callback, the one that calls `self._sync()`, is still to run, `active` the runs of `_sync`
that have started and are not settled, `started` all the runs started so far. An element of
`queue` is a deferred of `Q.defer()`; no callback is ever attached to one (see `onNewHeight`),
so that it carries nothing. -/
structure TriggerState where
  running : Bool
  queue : List Unit
  scheduled : Nat
  active : Nat
  started : Nat
deriving DecidableEq, Repr

/-- One call of `onNewHeight()` (lines 67-87), up to the end of the synchronous part. When
`running` is set, `promise` is `_.last(queue)`, the deferred itself and not its `promise`
field: an object of `Q.defer()` has `promise`, `resolve`, `reject` and `notify` and no `then`
(lines 167-176 and 337-344 go through `deferred.promise`), so that `promise.then(...)` raises
a `TypeError` after `running = true` and builds no chain. -/
def onNewHeight (t : TriggerState) : Except Err Unit × TriggerState :=
  if t.running then
    (Except.error Err.TypeError, { t with queue := t.queue ++ [()], running := true })
  else (Except.ok (), { t with running := true, scheduled := t.scheduled + 1 })

/-- The first callback of a chain built by `onNewHeight` runs: `self._sync()` starts. `none`
when no chain is waiting. -/
def startRun (t : TriggerState) : Option TriggerState :=
  if t.scheduled = 0 then none
  else some { t with scheduled := t.scheduled - 1, active := t.active + 1, started := t.started + 1 }

/-- A run of `_sync` settles, with success or failure, and the `finally` of lines 82-86 runs:
`running = false`, and the last deferred of the queue is popped and resolved, which calls
nothing. `none` when no run is active. -/
def settleRun (t : TriggerState) : Option TriggerState :=
  if t.active = 0 then none
  else some { t with active := t.active - 1, running := false, queue := t.queue.dropLast }

/-- The state of the triggers when the constructor reaches line 90. -/
def TriggerState.initial : TriggerState :=
  { running := false, queue := [], scheduled := 0, active := 0, started := 0 }

/-! ## The table of the chunk requests in flight (`_getVerifiedChunk`, lines 188 and 203-208) -/

/-- The object `_getVerifiedChunkRunning` and what the calls of `_getVerifiedChunk` leave
outside it: a promise is known by its number, `created` counts the promises built so far,
`fetches` lists the chunk indices of the `getChunk` requests made to the network, the oldest
first. -/
structure ChunkRequests where
  running : List (Int × Nat)
  created : Nat
  fetches : List Int
deriving DecidableEq, Repr

/-- The synchronous part of `_getVerifiedChunk(chunkIndex)`: when the table has no promise for
the index, a promise is built on a `getChunk` request and put in the table (lines 188-206);
the promise of the table is returned (line 208). -/
def requestVerifiedChunk (chunkIndex : Int) (t : ChunkRequests) : Nat × ChunkRequests :=
  match t.running.find? (fun e => decide (e.1 = chunkIndex)) with
  | some e => (e.2, t)
  | none =>
    (t.created,
      { running := (chunkIndex, t.created) :: t.running
        created := t.created + 1
        fetches := t.fetches ++ [chunkIndex] })

/-- The `finally` of line 203, which runs when the promise of the index settles, resolved or
rejected: the entry of the index is deleted. -/
def settleVerifiedChunk (chunkIndex : Int) (t : ChunkRequests) : ChunkRequests :=
  { t with running := t.running.filter (fun e => decide (e.1 ≠ chunkIndex)) }

/-- The calls `_getVerifiedChunk(chunkIndex)` made `n` times in a row, before any promise
settles: the promises that the callers receive, in the order of the calls, and the table. -/
def requestVerifiedChunkTimes (chunkIndex : Int) : Nat → ChunkRequests → List Nat × ChunkRequests
  | 0, t => ([], t)
  | n + 1, t =>
    let first := requestVerifiedChunk chunkIndex t
    let rest := requestVerifiedChunkTimes chunkIndex n first.2
    (first.1 :: rest.1, rest.2)

/-! ## `CoinManager.getMainCoinColorValue` (`src/coin/CoinManager.js`) -/

/-- A `ColorValue` of coloredcoinjs-lib: a color definition, by its number, and a value. -/
structure ColorValue where
  colorDefinition : Nat
  value : Int
deriving DecidableEq, Repr

/-- The callback of lines 149-154 on one result `colorValue`: the new `coinColorValue`. -/
def colorValueStep (coinColorValue colorValue : Option ColorValue) :
    Except Err (Option ColorValue) :=
  if coinColorValue ≠ none ∧ colorValue ≠ none then throw Err.Error
  else pure colorValue

/-- `getMainCoinColorValue(coin, cb)`: `results` are the answers of `coin.getColorValue` for
the color definitions, `null` being `none`, in the order in which their callbacks run;
`uncolored` is `cdManager.getUncolored()` and `coinValue` is `coin.value`. The outcome is what
`cb` is called with. -/
def getMainCoinColorValue (uncolored : Nat) (coinValue : Int)
    (results : List (Option ColorValue)) : Except Err ColorValue := do
  let coinColorValue ← results.foldlM colorValueStep none
  match coinColorValue with
  | none => pure { colorDefinition := uncolored, value := coinValue }
  | some colorValue => pure colorValue

/-! ## Predicates of the specification -/

/-- The sync commit invariant on a state: the local height is `closedChunkCount * 2016 +
pendingHeaderCount - 1`, and the local hash is the identity hash of the header that the last
commit made the tip. -/
def Inv (s : State) : Prop :=
  s.currentHeight = s.storage.getChunksCount * 2016 + s.storage.getHeadersCount - 1 ∧
  ∀ b, s.lastCommitted = some b → s.currentBlockHash = headerHash b

/-- The pending buffer holds at most one period of headers. -/
def PendingBounded (s : State) : Prop := s.storage.getHeadersCount ≤ 2016

/-- A network that serves no chunk for a negative index, and only chunks of exactly 2016
headers for the indices below the index of the chunk that holds `networkHeight`. -/
def ServesFullChunks (network : Network) (networkHeight : Int) : Prop :=
  ∀ (t : Nat) (index : Int) (hex : List Char) (chunk : Buffer),
    network.getChunk t index = Except.ok hex → bufferFromHex hex = some chunk →
      0 ≤ index ∧ (index < networkHeight / 2016 → chunk.length = 2016 * 80)

/-- The fields that only a commit of `_sync` changes are the same in both states. -/
def SameCore (s s1 : State) : Prop :=
  s1.currentHeight = s.currentHeight ∧ s1.currentBlockHash = s.currentBlockHash ∧
  s1.storage = s.storage ∧ s1.newHeightEvents = s.newHeightEvents ∧
  s1.lastCommitted = s.lastCommitted

/-- A computation that changes neither the fields of `SameCore` nor the index of `_sync`. -/
def Frame {α : Type} (m : Run α) : Prop :=
  ∀ s, SameCore s (m s).2 ∧ (m s).2.syncIndex = s.syncIndex

/-- The storage that `commitChunk` leaves: the mutations of lines 590-602 in their order. -/
def commitChunkStorage (chunk : Buffer) (index : Int) (st : Storage) : Storage :=
  let st :=
    (st.setLastHash (toHex (headerHash (slice chunk (-80) (chunk.length : Int))))).truncateHeaders 0
  if chunk.length = 2016 * 80 then
    (st.truncateChunks index).pushChunkHash (toHex (hash256 chunk))
  else (chunkSlices chunk.length chunk).foldl (fun st raw => st.pushHeader (toHex raw)) st

/-- The candidate list holds the heights `current + 1`, `current + 2`, … in order. -/
def ChainFrom : Int → List ChainItem → Prop
  | _, [] => True
  | current, data :: rest => data.height = current + 1 ∧ ChainFrom (current + 1) rest

/-- A computation that never raises `LoopInterrupt`. -/
def NoInterrupt {α : Type} (m : Run α) : Prop :=
  ∀ s, (m s).1 ≠ Except.error Err.LoopInterrupt

/-- The lower-case form of a hexadecimal digit: `A`-`F` become `a`-`f`. -/
def lowerHexChar (c : Char) : Char :=
  if 65 ≤ c.toNat ∧ c.toNat ≤ 70 then Char.ofNat (c.toNat + 32) else c

/-- A hexadecimal string with its digits in lower case. -/
def lowerHex (s : List Char) : List Char := s.map lowerHexChar

/-- A string of exactly 64 hexadecimal characters. -/
def IsHex64 (s : List Char) : Prop := s.length = 64 ∧ ∀ c ∈ s, (hexVal c).isSome = true

/-- A header whose fields are all valid: the four numbers are in the uint32 range and the two
hashes are strings of exactly 64 hexadecimal characters. -/
def ValidHeader (h : Header) : Prop :=
  h.version ≤ 0xffffffff ∧ h.timestamp ≤ 0xffffffff ∧ h.bits ≤ 0xffffffff ∧
  h.nonce ≤ 0xffffffff ∧ (∃ p, h.prevBlockHash = some p ∧ IsHex64 p) ∧ IsHex64 h.merkleRoot

/-- A number in the uint32 range: an integer from 0 to `0xffffffff`. -/
def JsNumber.IsUInt32 : JsNumber → Prop
  | JsNumber.integer v => 0 ≤ v ∧ v ≤ 0xffffffff
  | _ => False

/-- A header object whose fields are all valid: the four numbers are in the uint32 range and
the two hashes are strings of exactly 64 hexadecimal characters. -/
def ValidHeaderObject (h : HeaderObject) : Prop :=
  h.version.IsUInt32 ∧ h.timestamp.IsUInt32 ∧ h.bits.IsUInt32 ∧ h.nonce.IsUInt32 ∧
  (∃ p, h.prevBlockHash = some p ∧ IsHex64 p) ∧ (∃ m, h.merkleRoot = some m ∧ IsHex64 m)

/-- The header with its two hashes in lower case. -/
def lowerCaseHashes (h : Header) : Header :=
  { h with prevBlockHash := h.prevBlockHash.map lowerHex, merkleRoot := lowerHex h.merkleRoot }

/-- A transaction cache as `lru-cache` keeps it: no two entries under one key. -/
def TxCache.WellFormed (c : TxCache) : Prop := (c.items.map Prod.fst).Nodup

/-- A computation that changes neither the transaction cache nor the table of the
verifications in flight. -/
def KeepsTx {α : Type} (m : Run α) : Prop :=
  ∀ s, (m s).2.txCache = s.txCache ∧ (m s).2.getVerifiedTxRunning = s.getVerifiedTxRunning

/-! ## Concrete inputs used by the theorems below -/

/-- A raw header of height 0: version 1, no previous block, time 1000000, bits `0x1d00ffff`. -/
def rawHeaderA : List Char :=
  ("01000000" ++ "0000000000000000000000000000000000000000000000000000000000000000" ++
    "0000000000000000000000000000000000000000000000000000000000000000" ++
    "40420f00" ++ "ffff001d" ++ "00000000").toList

/-- A raw header kept in the header cache under height 2015: time 2209600, 14 days after
`rawHeaderA`, bits `0x1d00ffff`. -/
def rawHeaderB : List Char :=
  ("01000000" ++ "1111111111111111111111111111111111111111111111111111111111111111" ++
    "0000000000000000000000000000000000000000000000000000000000000000" ++
    "40b72100" ++ "ffff001d" ++ "00000000").toList

/-- A raw header whose previous block is `rawHeaderB`: time 2210200, bits `0x1d00ffff`. -/
def rawHeaderC : List Char :=
  ("01000000" ++ "ae601b49d852ca4f62e83f7024ed133b9a675d2455a40e6aef13948659124143" ++
    "0000000000000000000000000000000000000000000000000000000000000000" ++
    "98b92100" ++ "ffff001d" ++ "00000000").toList

/-- A network at height 2076 that serves a chunk of one header for index 0, `rawHeaderA`,
and a chunk of one header for index 1, `rawHeaderC`. -/
def shortChunkNetwork : Network where
  getCurrentHeight := fun _ => 2076
  getCurrentBlockHash := fun _ => List.replicate 32 1
  getHeader := fun _ _ => Except.error NetErr.other
  getChunk := fun _ index =>
    if index = 0 then Except.ok rawHeaderA
    else if index = 1 then Except.ok rawHeaderC
    else Except.error NetErr.other
  getTx := fun _ _ => Except.error NetErr.other
  getMerkle := fun _ _ => Except.error NetErr.other

/-- A blockchain with an empty storage whose header cache holds `rawHeaderB` under 2015. -/
def staleCacheState : State :=
  { construct { chunkHashes := [], headers := [], lastHash := [] } 5000 with
    headerCache := { max := 5000, items := [(2015, (bufferFromHex rawHeaderB).getD [])] } }

/-- A network at height 60 that serves one chunk, of index 0, with the single header
`rawHeaderA`. -/
def smallNetwork : Network where
  getCurrentHeight := fun _ => 60
  getCurrentBlockHash := fun _ => List.replicate 32 1
  getHeader := fun _ _ => Except.error NetErr.other
  getChunk := fun _ index =>
    if index = 0 then Except.ok rawHeaderA else Except.error NetErr.other
  getTx := fun _ _ => Except.error NetErr.other
  getMerkle := fun _ _ => Except.error NetErr.other

/-- The transaction id written with 64 digits `0`. -/
def txIdZeros : List Char := List.replicate 64 '0'

/-- The transaction id written with 64 digits `1`. -/
def txIdOnes : List Char := List.replicate 64 '1'

/-- The string of 64 upper-case digits `A`. -/
def txIdUpper : List Char := List.replicate 64 'A'

/-- The header of height 300000 of `test/network.implementation.js`. -/
def header300000 : Header :=
  { version := 2
    prevBlockHash := some "00000000dfe970844d1bf983d0745f709368b5c66224837a17ed633f0dabd300".toList
    merkleRoot := "ca7c7b64204eaa4b0a1632a7d326d4d8255bfd0fa1f5d66f8def8fa72e5b2f32".toList
    timestamp := 1412899877
    bits := 453050367
    nonce := 733842077 }

/-- A valid header whose `merkleRoot` is written with upper-case digits. -/
def upperCaseHeader : Header :=
  { version := 1
    prevBlockHash := some txIdZeros
    merkleRoot := txIdUpper
    timestamp := 1000000
    bits := 0x1d00ffff
    nonce := 0 }

/-- A network that answers `getTx` with a transaction and `getMerkle` with the height 2015, an
empty branch and the index 0. -/
def txNetwork : Network where
  getCurrentHeight := fun _ => 2015
  getCurrentBlockHash := fun _ => List.replicate 32 1
  getHeader := fun _ _ => Except.error NetErr.other
  getChunk := fun _ _ => Except.error NetErr.other
  getTx := fun _ _ => Except.ok "01000000".toList
  getMerkle := fun _ _ => Except.ok { height := 2015, merkle := [], index := 0 }

/-- A candidate of height 1 whose previous block is `rawHeaderA`: time 1000600, bits
`0x1d00ffff`. -/
def candidateOne : Header :=
  { version := 1
    prevBlockHash := some "b34cfd32e184ffc6e913b29735c37312a8f8805a8fcbc79933942139ffc6490a".toList
    merkleRoot := txIdZeros
    timestamp := 1000600
    bits := 0x1d00ffff
    nonce := 0 }

/-- A candidate of height 2 whose declared previous block is not `candidateOne`. -/
def candidateTwo : Header :=
  { version := 1
    prevBlockHash := some (List.replicate 64 '2')
    merkleRoot := txIdZeros
    timestamp := 1001200
    bits := 0x1d00ffff
    nonce := 0 }

/-- A network at height 2 that serves `candidateOne` and `candidateTwo` as the headers of
heights 1 and 2. -/
def forkNetwork : Network where
  getCurrentHeight := fun _ => 2
  getCurrentBlockHash := fun _ => List.replicate 32 1
  getHeader := fun _ height =>
    if height = 1 then Except.ok candidateOne
    else if height = 2 then Except.ok candidateTwo
    else Except.error NetErr.other
  getChunk := fun _ _ => Except.error NetErr.other
  getTx := fun _ _ => Except.error NetErr.other
  getMerkle := fun _ _ => Except.error NetErr.other

/-- A raw header of height 0 that is not `rawHeaderA`: the same fields with the nonce 1. -/
def rawHeaderD : List Char :=
  ("01000000" ++ "0000000000000000000000000000000000000000000000000000000000000000" ++
    "0000000000000000000000000000000000000000000000000000000000000000" ++
    "40420f00" ++ "ffff001d" ++ "01000000").toList

/-- A candidate of height 1 whose previous block is `rawHeaderD`: time 1000600, bits
`0x1d00ffff`. -/
def forkCandidate : Header :=
  { version := 1
    prevBlockHash := some "6332064a2ee026cbf02aab6010fdeb9e5cf185a0fd302af00c76fc4003fa6e80".toList
    merkleRoot := txIdZeros
    timestamp := 1000600
    bits := 0x1d00ffff
    nonce := 0 }

/-- The raw form of `forkCandidate`. -/
def rawHeaderE : List Char :=
  ("01000000" ++ "806efa0340fc760cf02a30fda085f15c9eebfd1060ab2af0cb26e02e4a063263" ++
    "0000000000000000000000000000000000000000000000000000000000000000" ++
    "98440f00" ++ "ffff001d" ++ "00000000").toList

/-- A network at height 1 whose chain is `rawHeaderD`, `rawHeaderE`: it serves `forkCandidate`
as the header of height 1 and the two raw headers as the chunk of index 0. -/
def reorgNetwork : Network where
  getCurrentHeight := fun _ => 1
  getCurrentBlockHash := fun _ =>
    (bufferFromHex
      "89ad082fb37b64b69f0847c773088ec13d22bbf39b3f178e394d9ea6324126ea".toList).getD []
  getHeader := fun _ height =>
    if height = 1 then Except.ok forkCandidate else Except.error NetErr.other
  getChunk := fun _ index =>
    if index = 0 then Except.ok (rawHeaderD ++ rawHeaderE) else Except.error NetErr.other
  getTx := fun _ _ => Except.error NetErr.other
  getMerkle := fun _ _ => Except.error NetErr.other

/-- A blockchain at height 0 whose storage holds `rawHeaderA` as its only pending header. -/
def oneHeaderState : State :=
  { construct
      { chunkHashes := []
        headers := [rawHeaderA]
        lastHash := "b34cfd32e184ffc6e913b29735c37312a8f8805a8fcbc79933942139ffc6490a".toList }
      5000 with
    currentHeight := 0 }

/-- A network at height 0 whose best block is not the local one. -/
def sameHeightNetwork : Network where
  getCurrentHeight := fun _ => 0
  getCurrentBlockHash := fun _ => List.replicate 32 1
  getHeader := fun _ _ => Except.error NetErr.other
  getChunk := fun _ _ => Except.error NetErr.other
  getTx := fun _ _ => Except.error NetErr.other
  getMerkle := fun _ _ => Except.error NetErr.other

/-- A transaction cache with an unconfirmed entry and a confirmed one. -/
def twoEntryCache : TxCache :=
  { max := 250
    items := [(txIdZeros, { height := 0, tx := some "01000000".toList }),
      (txIdOnes, { height := 5, tx := some "02000000".toList })] }

/-! # Theorems -/

/-! ## Lemmas on buffers and hexadecimal strings -/

theorem hexVal_hexDigit : ∀ n : Fin 16, hexVal (hexDigit n.val) = some n.val := by decide

theorem byte_recompose (b : Byte) : (Fin.ofNat (16 * (b.val / 16) + b.val % 16) : Byte) = b := by
  apply Fin.ext
  have h := b.isLt
  simp only [Fin.ofNat, Nat.div_add_mod]
  omega

theorem bufferFromHex_toHex (b : Buffer) : bufferFromHex (toHex b) = some b := by
  induction b with
  | nil => rfl
  | cons x xs ih =>
    have h1 : x.val / 16 < 16 := by have := x.isLt; omega
    have h2 : x.val % 16 < 16 := Nat.mod_lt _ (by decide)
    have e1 := hexVal_hexDigit ⟨x.val / 16, h1⟩
    have e2 := hexVal_hexDigit ⟨x.val % 16, h2⟩
    simp only at e1 e2
    have e3 : [].append (toHex xs) = toHex xs := rfl
    simp only [toHex, byteToHex, List.cons_append, List.nil_append, bufferFromHex, e1, e2, e3, ih,
      byte_recompose]

theorem beVal_toByteArrayUnsignedAux (fuel : Nat) :
    ∀ (n : Nat) (acc : Buffer), n ≤ fuel →
      beVal (toByteArrayUnsignedAux fuel n acc) = n * 256 ^ acc.length + beVal acc := by
  induction fuel with
  | zero =>
    intro n acc h
    have : n = 0 := by omega
    subst this
    simp [toByteArrayUnsignedAux]
  | succ k ih =>
    intro n acc h
    unfold toByteArrayUnsignedAux
    by_cases hn : n = 0
    · simp [hn]
    · rw [if_neg hn, ih _ _ (by omega)]
      have hv : ((Fin.ofNat (n % 256) : Byte)).val = n % 256 := by
        simp [Fin.ofNat]
      simp only [List.length_cons, beVal, hv, pow_succ]
      have h3 : n = 256 * (n / 256) + n % 256 := (Nat.div_add_mod n 256).symm
      generalize 256 ^ acc.length = p
      generalize n / 256 = q at h3 ⊢
      generalize n % 256 = r at h3 ⊢
      subst h3
      ring

theorem beVal_toByteArrayUnsigned (n : Nat) : beVal (toByteArrayUnsigned n) = n := by
  unfold toByteArrayUnsigned
  rw [beVal_toByteArrayUnsignedAux n n [] (le_refl n)]
  simp [beVal]

/-! ## Checks of the hash function and of the header codec -/

/-- The SHA-256 test vector of FIPS 180-4 for the message `abc`. -/
theorem sha256_abc :
    toHex (sha256 [97, 98, 99])
      = "ba7816bf8f01cfea414140de5dae2223b00361a396177a9cb410ff61f20015ad".toList := by
  decide!

/-- The header of height 0 of `test/network.implementation.js` (the testnet genesis block) is
encoded on 80 bytes, decoded back to itself once its `null` previous hash is written as 64
zeros, and has the identity hash of the testnet genesis block. -/
theorem headerHash_testnet_genesis :
    (header2buffer ⟨1, some (List.replicate 64 (Char.ofNat 48)),
        "4a5e1e4baab89f3a32518a88c31bc87f618f76673e2cc77ab2127b7afdeda33b".toList,
        1296688602, 486604799, 414098458⟩).toOption.map
      (fun b => (b.length, toHex (headerHash b), (buffer2header b).toOption))
      = some (80, "000000000933ea01ad0ee984209779baaec3ced90fa3f408719526f8d77f4943".toList,
          some ⟨1, some (List.replicate 64 (Char.ofNat 48)),
            "4a5e1e4baab89f3a32518a88c31bc87f618f76673e2cc77ab2127b7afdeda33b".toList,
            1296688602, 486604799, 414098458⟩) := by
  decide!

/-! ## Lemmas on the proof of work comparison and the validator -/

theorem isGoodHashFrom_eq_true_iff (hash target : Buffer) (n : Nat) :
    ∀ i, isGoodHashFrom hash target n i = true ↔
      ∃ j, i ≤ j ∧ j < i + n ∧ jsLt (hash.get? j) (target.get? j) = true := by
  induction n with
  | zero =>
    intro i
    simp [isGoodHashFrom]
    intro j h1 h2
    omega
  | succ k ih =>
    intro i
    unfold isGoodHashFrom
    by_cases hc : jsLt (hash.get? i) (target.get? i) = true
    · simp only [hc, if_true, true_iff]
      exact ⟨i, le_refl i, by omega, hc⟩
    · rw [if_neg hc, ih (i + 1)]
      constructor
      · rintro ⟨j, h1, h2, h3⟩
        exact ⟨j, by omega, by omega, h3⟩
      · rintro ⟨j, h1, h2, h3⟩
        have hne : j ≠ i := by
          intro e
          subst e
          exact hc h3
        exact ⟨j, by omega, by omega, h3⟩

theorem exists_jsLt_of_beVal_lt :
    ∀ (hash target : Buffer), hash.length = target.length → beVal hash < beVal target →
      ∃ j, j < hash.length ∧ jsLt (hash.get? j) (target.get? j) = true := by
  intro hash
  induction hash with
  | nil =>
    intro target hl hlt
    cases target with
    | nil => simp [beVal] at hlt
    | cons b bs => simp at hl
  | cons a as ih =>
    intro target hl hlt
    cases target with
    | nil => simp at hl
    | cons b bs =>
      simp only [List.length_cons, Nat.add_right_cancel_iff] at hl
      by_cases hab : a.val < b.val
      · exact ⟨0, by simp, by simp [jsLt, hab]⟩
      · have hle : b.val * 256 ^ bs.length ≤ a.val * 256 ^ as.length := by
          rw [hl]
          exact Nat.mul_le_mul_right _ (by omega)
        have hlt2 : beVal as < beVal bs := by
          simp only [beVal] at hlt
          omega
        obtain ⟨j, hj, hjs⟩ := ih bs hl hlt2
        exact ⟨j + 1, by simp [hj], by simpa using hjs⟩

theorem isGoodHash_of_beVal_lt (hash target : Buffer) (hl : hash.length = 32)
    (tl : target.length = 32) (hlt : beVal hash < beVal target) :
    isGoodHash hash target = true := by
  unfold isGoodHash
  rw [isGoodHashFrom_eq_true_iff]
  obtain ⟨j, hj, hjs⟩ := exists_jsLt_of_beVal_lt hash target (by rw [hl, tl]) hlt
  exact ⟨j, Nat.zero_le j, by omega, hjs⟩

theorem verifyHeader_eq_tree (isTestnet : Bool) (currentHash : Buffer)
    (currentHeader : Header) (prevHash : Buffer) (prevHeader : Option Header) (target : Target) :
    verifyHeader isTestnet currentHash currentHeader prevHash prevHeader target =
      verifyHeaderTree (decide (some (toHex prevHash) = currentHeader.prevBlockHash))
        (decide (some (currentHeader.bits : Int) = target.bits))
        (isGoodHash currentHash target.target)
        (prevHeader.map fun p =>
          decide ((currentHeader.timestamp : Int) - (p.timestamp : Int) > 1200))
        isTestnet (decide (currentHeader.bits = maxBits)) (isGoodHash currentHash maxTarget) := by
  unfold verifyHeader verifyHeaderTree
  generalize decide (some (toHex prevHash) = currentHeader.prevBlockHash) = b1
  generalize decide (some (currentHeader.bits : Int) = target.bits) = b2
  generalize isGoodHash currentHash target.target = b3
  generalize decide (currentHeader.bits = maxBits) = b4
  generalize isGoodHash currentHash maxTarget = b5
  cases prevHeader with
  | none => cases b1 <;> cases b2 <;> cases b3 <;> rfl
  | some p =>
    simp only [Option.map]
    generalize decide ((currentHeader.timestamp : Int) - (p.timestamp : Int) > 1200) = b6
    cases b1 <;> cases b2 <;> cases b3 <;> cases b4 <;> cases b5 <;> cases b6 <;>
      cases isTestnet <;> rfl


/-! ## Lemmas on the run monad and on the look-ups -/

/-! ## The monad -/

theorem run_bind {α β : Type} (m : Run α) (f : α → Run β) (s : State) :
    (m >>= f) s =
      match m s with
      | (Except.ok a, s1) => f a s1
      | (Except.error e, s1) => (Except.error e, s1) := rfl

theorem run_pure {α : Type} (a : α) (s : State) : (pure a : Run α) s = (Except.ok a, s) := rfl

theorem run_throw {α : Type} (e : Err) (s : State) :
    (throw e : Run α) s = (Except.error e, s) := rfl

theorem run_tryCatch {α : Type} (m : Run α) (h : Err → Run α) (s : State) :
    (tryCatch m h) s =
      match m s with
      | (Except.ok a, s1) => (Except.ok a, s1)
      | (Except.error e, s1) => h e s1 := rfl

theorem bind_ok {α β : Type} {m : Run α} {f : α → Run β} {s s2 : State} {b : β}
    (h : (m >>= f) s = (Except.ok b, s2)) :
    ∃ a s1, m s = (Except.ok a, s1) ∧ f a s1 = (Except.ok b, s2) := by
  rw [run_bind] at h
  split at h
  · rename_i a s1 heq
    exact ⟨a, s1, heq, h⟩
  · simp at h

theorem bind_error {α β : Type} {m : Run α} {f : α → Run β} {s s2 : State} {e : Err}
    (h : (m >>= f) s = (Except.error e, s2)) :
    m s = (Except.error e, s2) ∨ ∃ a s1, m s = (Except.ok a, s1) ∧ f a s1 = (Except.error e, s2) := by
  rw [run_bind] at h
  split at h
  · rename_i a s1 heq
    exact Or.inr ⟨a, s1, heq, h⟩
  · rename_i e1 s1 heq
    left
    simp only [Prod.mk.injEq, Except.error.injEq] at h
    rw [heq, h.1, h.2]

theorem SameCore.refl (s : State) : SameCore s s := ⟨rfl, rfl, rfl, rfl, rfl⟩

theorem SameCore.trans {s s1 s2 : State} (h1 : SameCore s s1) (h2 : SameCore s1 s2) :
    SameCore s s2 := by
  obtain ⟨a1, a2, a3, a4, a5⟩ := h1
  obtain ⟨b1, b2, b3, b4, b5⟩ := h2
  exact ⟨b1.trans a1, b2.trans a2, b3.trans a3, b4.trans a4, b5.trans a5⟩

theorem frame_pure {α : Type} (a : α) : Frame (pure a : Run α) :=
  fun s => ⟨SameCore.refl s, rfl⟩

theorem frame_throw {α : Type} (e : Err) : Frame (throw e : Run α) :=
  fun s => ⟨SameCore.refl s, rfl⟩

theorem frame_liftExcept {α : Type} (x : Except Err α) : Frame (liftExcept x) :=
  fun s => ⟨SameCore.refl s, rfl⟩

theorem frame_getState : Frame getState := fun s => ⟨SameCore.refl s, rfl⟩

theorem frame_bind {α β : Type} {m : Run α} {f : α → Run β} (hm : Frame m)
    (hf : ∀ a, Frame (f a)) : Frame (m >>= f) := by
  intro s
  rw [run_bind]
  have h1 := hm s
  split
  · rename_i a s1 heq
    rw [heq] at h1
    have h2 := hf a s1
    exact ⟨h1.1.trans h2.1, h2.2.trans h1.2⟩
  · rename_i e s1 heq
    rw [heq] at h1
    exact h1

theorem frame_tryCatch {α : Type} {m : Run α} {h : Err → Run α} (hm : Frame m)
    (hh : ∀ e, Frame (h e)) : Frame (tryCatch m h) := by
  intro s
  rw [run_tryCatch]
  have h1 := hm s
  split
  · rename_i a s1 heq
    rw [heq] at h1
    exact h1
  · rename_i e s1 heq
    rw [heq] at h1
    have h2 := hh e s1
    exact ⟨h1.1.trans h2.1, h2.2.trans h1.2⟩

theorem frame_newBuffer (hex : List Char) : Frame (newBuffer hex) := by
  unfold newBuffer
  split
  · exact frame_throw _
  · exact frame_pure _

theorem frame_networkGetChunk (env : Env) (index : Int) : Frame (networkGetChunk env index) :=
  fun s => ⟨SameCore.refl s, rfl⟩

theorem frame_getHeader (env : Env) (height : Int) : Frame (_getHeader env height) :=
  fun s => ⟨SameCore.refl s, rfl⟩

theorem frame_modifyCache (f : State → LRU) :
    Frame (modifyState fun s => { s with headerCache := f s }) :=
  fun s => ⟨SameCore.refl s, rfl⟩

theorem frame_waitHeight (height : Int) : Frame (_waitHeight height) := by
  unfold _waitHeight
  refine frame_bind frame_getState (fun s => ?_)
  split
  · exact frame_pure _
  · exact frame_throw _

theorem frame_getVerifiedChunk (env : Env) (chunkIndex : Int) :
    Frame (_getVerifiedChunk env chunkIndex) := by
  unfold _getVerifiedChunk
  refine frame_bind (frame_networkGetChunk _ _) (fun chunkHex => ?_)
  refine frame_bind (frame_newBuffer _) (fun chunk => ?_)
  refine frame_bind frame_getState (fun s => ?_)
  split
  · exact frame_throw _
  · refine frame_bind (frame_modifyCache _) (fun _ => ?_)
    exact frame_pure _

theorem frame_getVerifiedHeader (env : Env) (height : Int) :
    Frame (_getVerifiedHeader env height) := by
  unfold _getVerifiedHeader
  refine frame_bind frame_getState (fun s => ?_)
  refine frame_bind (frame_modifyCache _) (fun _ => ?_)
  split
  · exact frame_pure _
  · refine frame_bind frame_getState (fun s => ?_)
    refine frame_bind ?_ (fun _ => ?_)
    · split
      · exact frame_waitHeight _
      · exact frame_pure _
    · refine frame_bind frame_getState (fun s => ?_)
      split
      · split
        · exact frame_throw _
        · split
          · exact frame_throw _
          · exact frame_newBuffer _
      · refine frame_bind (frame_getVerifiedChunk _ _) (fun _ => ?_)
        exact frame_pure _

theorem frame_getTargetAt (env : Env) (index : Int) (chain : List ChainItem) :
    Frame (getTargetAt env index chain) := by
  unfold getTargetAt
  split
  · exact frame_pure _
  · refine frame_bind (frame_getVerifiedHeader _ _) (fun _ => ?_)
    refine frame_bind (frame_liftExcept _) (fun _ => ?_)
    refine frame_bind (frame_tryCatch ?_ ?_) (fun _ => ?_)
    · refine frame_bind (frame_getVerifiedHeader _ _) (fun _ => ?_)
      refine frame_bind (frame_liftExcept _) (fun _ => ?_)
      exact frame_pure _
    · intro e
      split
      · exact frame_throw _
      · exact frame_pure _
    · exact frame_liftExcept _

theorem frame_fetchChain (env : Env) (networkHeight : Int) (n : Nat) :
    ∀ chain, Frame (fetchChain env networkHeight n chain) := by
  induction n with
  | zero =>
    intro chain
    unfold fetchChain
    exact frame_throw _
  | succ k ih =>
    intro chain
    unfold fetchChain
    refine frame_bind frame_getState (fun s => ?_)
    by_cases hle : nextHeight chain s.currentHeight ≤ networkHeight
    · rw [if_pos hle]
      refine frame_bind (frame_tryCatch (frame_getHeader _ _) (fun _ => frame_throw _))
        (fun _ => ?_)
      exact ih _
    · rw [if_neg hle]
      exact frame_pure _

theorem frame_verifyChain (env : Env) (chain : List ChainItem) (rest : List ChainItem) :
    ∀ prevHash prevHeader, Frame (verifyChain env chain rest prevHash prevHeader) := by
  induction rest with
  | nil =>
    intro prevHash prevHeader
    unfold verifyChain
    exact frame_pure _
  | cons data rest ih =>
    intro prevHash prevHeader
    unfold verifyChain
    refine frame_bind (frame_getTargetAt _ _ _) (fun _ => ?_)
    refine frame_bind (frame_liftExcept _) (fun _ => ?_)
    refine frame_bind (frame_liftExcept _) (fun _ => ?_)
    exact ih _ _

/-! ## Lemmas on the commit of a chunk -/

theorem getLastHash_setLastHash (st : Storage) (b : Buffer) :
    (st.setLastHash (toHex b)).getLastHash = b := by
  simp only [Storage.getLastHash, Storage.setLastHash, bufferFromHex_toHex, Option.getD]

theorem foldl_pushHeader_lastHash (l : List Buffer) :
    ∀ st : Storage, (l.foldl (fun st raw => st.pushHeader (toHex raw)) st).lastHash = st.lastHash := by
  induction l with
  | nil => intro st; rfl
  | cons x xs ih => intro st; rw [List.foldl_cons, ih]; rfl

theorem foldl_pushHeader_chunkHashes (l : List Buffer) :
    ∀ st : Storage,
      (l.foldl (fun st raw => st.pushHeader (toHex raw)) st).chunkHashes = st.chunkHashes := by
  induction l with
  | nil => intro st; rfl
  | cons x xs ih => intro st; rw [List.foldl_cons, ih]; rfl

theorem foldl_pushHeader_headers (l : List Buffer) :
    ∀ st : Storage,
      (l.foldl (fun st raw => st.pushHeader (toHex raw)) st).headers.length
        = st.headers.length + l.length := by
  induction l with
  | nil => intro st; rfl
  | cons x xs ih =>
    intro st
    rw [List.foldl_cons, ih]
    simp only [Storage.pushHeader, List.length_append, List.length_cons, List.length_nil]
    omega

theorem commitChunk_eq (chunk : Buffer) (s : State) :
    commitChunk chunk s = (Except.ok (),
      { s with
        storage := commitChunkStorage chunk s.syncIndex s.storage
        currentBlockHash := (commitChunkStorage chunk s.syncIndex s.storage).getLastHash
        currentHeight := s.syncIndex * 2016 + (chunk.length : Int) / 80 - 1
        newHeightEvents := s.newHeightEvents + 1
        txCache := newHeightListener s.txCache
        lastCommitted := some (slice chunk (-80) (chunk.length : Int))
        syncIndex := s.syncIndex + 1 }) := by
  unfold commitChunk commitChunkStorage
  by_cases h : chunk.length = 2016 * 80
  · simp only [if_pos h]
    rfl
  · simp only [if_neg h]
    rfl

theorem commitChunkStorage_lastHash (chunk : Buffer) (index : Int) (st : Storage) :
    (commitChunkStorage chunk index st).getLastHash
      = headerHash (slice chunk (-80) (chunk.length : Int)) := by
  unfold commitChunkStorage
  by_cases h : chunk.length = 2016 * 80
  · simp only [if_pos h, Storage.getLastHash, Storage.pushChunkHash, Storage.truncateChunks,
      Storage.truncateHeaders, Storage.setLastHash, bufferFromHex_toHex, Option.getD]
  · simp only [if_neg h, Storage.getLastHash, foldl_pushHeader_lastHash,
      Storage.truncateHeaders, Storage.setLastHash, bufferFromHex_toHex, Option.getD]

theorem chunkSlices_flatten (n : Nat) :
    ∀ chunk : Buffer, chunk.length ≤ n → (chunkSlices n chunk).flatten = chunk := by
  induction n with
  | zero =>
    intro chunk h
    have : chunk = [] := List.length_eq_zero.mp (by omega)
    subst this
    rfl
  | succ k ih =>
    intro chunk h
    unfold chunkSlices
    by_cases hc : chunk = []
    · rw [if_pos hc, hc]
      rfl
    · rw [if_neg hc, List.flatten_cons, ih]
      · exact List.take_append_drop 80 chunk
      · have : 0 < chunk.length := List.length_pos.mpr hc
        rw [List.length_drop]
        omega

theorem length_eq_of_all_80 (l : List Buffer) (h : ∀ raw ∈ l, raw.length = 80) :
    l.flatten.length = 80 * l.length := by
  induction l with
  | nil => rfl
  | cons x xs ih =>
    rw [List.flatten_cons, List.length_append, h x (List.mem_cons_self _ _),
      ih (fun raw hr => h raw (List.mem_cons_of_mem _ hr)), List.length_cons]
    omega

theorem verifyChunk_ok_lengths (isTestnet : Bool) (target : Target) (l : List Buffer) :
    ∀ (prevHash : Buffer) (prevHeader : Option Header),
      verifyChunk isTestnet target l prevHash prevHeader = Except.ok () →
        ∀ raw ∈ l, raw.length = 80 := by
  induction l with
  | nil => intro _ _ _ raw hr; cases hr
  | cons x xs ih =>
    intro prevHash prevHeader h raw hr
    unfold verifyChunk at h
    have hx : x.length = 80 := by
      by_contra hne
      simp [buffer2header, hne, bind, Except.bind, throw, throwThe, MonadExceptOf.throw] at h
    rcases List.mem_cons.mp hr with rfl | hr
    · exact hx
    · cases hb : buffer2header x with
      | error e => simp [hb, bind, Except.bind] at h
      | ok hdr =>
        simp only [hb, bind, Except.bind] at h
        cases hv : verifyHeader isTestnet (headerHash x) hdr prevHash prevHeader target with
        | error e => simp [hv] at h
        | ok u =>
          simp only [hv] at h
          exact ih _ _ h raw hr

theorem chunk_length_of_verifyChunk (isTestnet : Bool) (target : Target) (chunk : Buffer)
    (prevHash : Buffer) (prevHeader : Option Header)
    (h : verifyChunk isTestnet target (chunkSlices chunk.length chunk) prevHash prevHeader
      = Except.ok ()) :
    chunk.length = 80 * (chunkSlices chunk.length chunk).length := by
  have h1 := length_eq_of_all_80 _ (verifyChunk_ok_lengths isTestnet target _ _ _ h)
  rw [chunkSlices_flatten _ _ (le_refl _)] at h1
  exact h1

/-! ## Lemmas on catch-up mode -/

theorem Inv_of_SameCore {s s1 : State} (h : SameCore s s1) (hi : Inv s) : Inv s1 := by
  obtain ⟨h1, h2, h3, _, h5⟩ := h
  unfold Inv at hi ⊢
  rw [h1, h2, h3, h5]
  exact hi

theorem frame_run {α : Type} {m : Run α} (hm : Frame m) {s s1 : State} {r : Except Err α}
    (h : m s = (r, s1)) : SameCore s s1 ∧ s1.syncIndex = s.syncIndex := by
  have := hm s
  rw [h] at this
  exact this

/-- One step through a bind whose first computation is a look-up. -/
theorem bind_frame {α β : Type} {m : Run α} {f : α → Run β} (hm : Frame m) {s s2 : State}
    {r : Except Err β} (h : (m >>= f) s = (r, s2)) :
    (∃ e, r = Except.error e ∧ SameCore s s2 ∧ s2.syncIndex = s.syncIndex) ∨
    (∃ a s1, m s = (Except.ok a, s1) ∧ SameCore s s1 ∧ s1.syncIndex = s.syncIndex ∧
      f a s1 = (r, s2)) := by
  rw [run_bind] at h
  split at h
  · rename_i a s1 heq
    exact Or.inr ⟨a, s1, heq, (frame_run hm heq).1, (frame_run hm heq).2, h⟩
  · rename_i e s1 heq
    simp only [Prod.mk.injEq] at h
    have hf := frame_run hm heq
    rw [h.2] at hf
    exact Or.inl ⟨e, h.1.symm, hf.1, hf.2⟩

theorem commitChunk_inv (chunk : Buffer) (s s1 : State) (k : Nat)
    (hlen : chunk.length = 80 * k) (hk : (chunkSlices chunk.length chunk).length = k)
    (hidx : 0 ≤ s.syncIndex)
    (hcase : (chunk.length = 2016 * 80 ∧ s.syncIndex ≤ s.storage.getChunksCount) ∨
      (chunk.length ≠ 2016 * 80 ∧ s.syncIndex = s.storage.getChunksCount))
    (h : commitChunk chunk s = (Except.ok (), s1)) :
    Inv s1 ∧ s1.syncIndex = s.syncIndex + 1 ∧
      (chunk.length = 2016 * 80 → s1.storage.getChunksCount = s.syncIndex + 1) ∧
      (chunk.length ≠ 2016 * 80 → s1.storage.getChunksCount = s.storage.getChunksCount) := by
  rw [commitChunk_eq] at h
  simp only [Prod.mk.injEq, true_and] at h
  subst h
  have hdiv : ((chunk.length : Int)) / 80 = k := by
    rw [hlen]
    push_cast
    omega
  refine ⟨⟨?_, ?_⟩, rfl, ?_, ?_⟩
  · simp only [hdiv]
    rcases hcase with ⟨hfull, hle⟩ | ⟨hpart, heq⟩
    · have hk2 : k = 2016 := by omega
      simp only [commitChunkStorage, if_pos hfull, Storage.getChunksCount,
        Storage.getHeadersCount, Storage.pushChunkHash, Storage.truncateChunks,
        Storage.truncateHeaders, Storage.setLastHash, List.length_append, List.length_take,
        List.length_cons, List.length_nil, hk2]
      simp only [Storage.getChunksCount] at hle
      push_cast
      omega
    · simp only [commitChunkStorage, if_neg hpart, Storage.getChunksCount,
        Storage.getHeadersCount, foldl_pushHeader_chunkHashes, foldl_pushHeader_headers, hk,
        Storage.truncateHeaders, Storage.setLastHash, List.length_take]
      simp only [Storage.getChunksCount] at heq
      push_cast
      omega
  · intro b hb
    simp only [Option.some.injEq] at hb
    subst hb
    exact commitChunkStorage_lastHash _ _ _
  · intro hfull
    rcases hcase with ⟨_, hle⟩ | ⟨hpart, _⟩
    · simp only [commitChunkStorage, if_pos hfull, Storage.getChunksCount,
        Storage.pushChunkHash, Storage.truncateChunks,
        Storage.truncateHeaders, Storage.setLastHash, List.length_append, List.length_take,
        List.length_cons, List.length_nil]
      simp only [Storage.getChunksCount] at hle
      push_cast
      omega
    · exact absurd hfull hpart
  · intro hpart
    simp only [commitChunkStorage, if_neg hpart, Storage.getChunksCount,
      foldl_pushHeader_chunkHashes, Storage.truncateHeaders, Storage.setLastHash]

theorem networkGetChunk_ok {env : Env} {index : Int} {s s1 : State} {hex : List Char}
    (h : networkGetChunk env index s = (Except.ok hex, s1)) :
    env.network.getChunk s.tick index = Except.ok hex := by
  unfold networkGetChunk at h
  simp only [Prod.mk.injEq] at h
  cases hg : env.network.getChunk s.tick index with
  | error e => rw [hg] at h; simp [Except.mapError] at h
  | ok v =>
    rw [hg] at h
    simp only [Except.mapError, Except.ok.injEq] at h
    rw [h.1]

theorem newBuffer_ok {hex : List Char} {s s1 : State} {b : Buffer}
    (h : newBuffer hex s = (Except.ok b, s1)) : bufferFromHex hex = some b := by
  unfold newBuffer at h
  cases hb : bufferFromHex hex with
  | none =>
    rw [hb] at h
    simp [run_throw] at h
  | some b1 =>
    rw [hb] at h
    simp only [run_pure, Prod.mk.injEq, Except.ok.injEq] at h
    rw [h.1]

theorem liftExcept_ok {α : Type} {x : Except Err α} {s s1 : State} {a : α}
    (h : liftExcept x s = (Except.ok a, s1)) : x = Except.ok a := by
  unfold liftExcept at h
  simp only [Prod.mk.injEq] at h
  exact h.1

/-- What a pass of `chunkStep` does. -/
theorem chunkStep_spec (env : Env) (s s2 : State) (r : Except Err Unit)
    (h : chunkStep env s = (r, s2)) :
    (∃ e, r = Except.error e ∧ SameCore s s2 ∧
      (s2.syncIndex = s.syncIndex ∨ s2.syncIndex = s.syncIndex - 1)) ∨
    (r = Except.ok () ∧ ∃ (s1 : State) (t : Nat) (hex : List Char) (chunk prevHash : Buffer)
      (prevHeader : Option Header) (target : Target),
      SameCore s s1 ∧ s1.syncIndex = s.syncIndex ∧
      env.network.getChunk t s.syncIndex = Except.ok hex ∧ bufferFromHex hex = some chunk ∧
      verifyChunk env.isTestnet target (chunkSlices chunk.length chunk) prevHash prevHeader
        = Except.ok () ∧
      commitChunk chunk s1 = (Except.ok (), s2)) := by
  unfold chunkStep at h
  -- the state
  rcases bind_frame frame_getState h with ⟨e, he, hc, hi⟩ | ⟨st, s1, h1, c1, i1, h⟩
  · exact Or.inl ⟨e, he, hc, Or.inl hi⟩
  have hst : st = s ∧ s1 = s := by
    simp only [getState, Prod.mk.injEq, Except.ok.injEq] at h1
    exact ⟨h1.1.symm, h1.2.symm⟩
  obtain ⟨hst1, hst2⟩ := hst
  subst hst1
  subst hst2
  try dsimp only at h
  -- the chunk
  rcases bind_frame (frame_networkGetChunk _ _) h with ⟨e, he, hc, hi⟩ | ⟨hex, s3, h3, c3, i3, h⟩
  · exact Or.inl ⟨e, he, c1.trans hc, Or.inl (hi.trans i1)⟩
  have hget := networkGetChunk_ok h3
  rcases bind_frame (frame_newBuffer _) h with ⟨e, he, hc, hi⟩ | ⟨chunk, s4, h4, c4, i4, h⟩
  · exact Or.inl ⟨e, he, (c1.trans c3).trans hc, Or.inl (hi.trans (i3.trans i1))⟩
  have hbuf := newBuffer_ok h4
  -- the previous header
  have hF5 : Frame (if s1.syncIndex > 0 then (do
      let b ← _getVerifiedHeader env (s1.syncIndex * 2016 - 1)
      pure (some b)) else (pure none : Run (Option Buffer))) := by
    split
    · exact frame_bind (frame_getVerifiedHeader _ _) (fun _ => frame_pure _)
    · exact frame_pure _
  rcases bind_frame hF5 h with ⟨e, he, hc, hi⟩ | ⟨buffer, s5, h5, c5, i5, h⟩
  · exact Or.inl ⟨e, he, ((c1.trans c3).trans c4).trans hc,
      Or.inl (hi.trans (i4.trans (i3.trans i1)))⟩
  try dsimp only at h
  have hF6 : Frame (match buffer with
      | some b =>
        if b.length = 80 then (do
          let header ← liftExcept (buffer2header b)
          pure (some (headerHash b), some header))
        else pure (if s1.syncIndex > 0 then none else some zeroHash, none)
      | none => (pure (if s1.syncIndex > 0 then none else some zeroHash, none) :
          Run (Option Buffer × Option Header))) := by
    split
    · split
      · exact frame_bind (frame_liftExcept _) (fun _ => frame_pure _)
      · exact frame_pure _
    · exact frame_pure _
  rcases bind_frame hF6 h with ⟨e, he, hc, hi⟩ | ⟨prev, s6, h6, c6, i6, h⟩
  · exact Or.inl ⟨e, he, (((c1.trans c3).trans c4).trans c5).trans hc,
      Or.inl (hi.trans (i5.trans (i4.trans (i3.trans i1))))⟩
  try dsimp only at h
  rcases bind_frame (frame_liftExcept _) h with ⟨e, he, hc, hi⟩ | ⟨first, s7, h7, c7, i7, h⟩
  · exact Or.inl ⟨e, he, ((((c1.trans c3).trans c4).trans c5).trans c6).trans hc,
      Or.inl (hi.trans (i6.trans (i5.trans (i4.trans (i3.trans i1)))))⟩
  have hF8 : Frame (match prev.1 with
      | none => (throw Err.TypeError : Run Buffer)
      | some h => pure h) := by
    split
    · exact frame_throw _
    · exact frame_pure _
  rcases bind_frame hF8 h with ⟨e, he, hc, hi⟩ | ⟨prevHash, s8, h8, c8, i8, h⟩
  · exact Or.inl ⟨e, he, (((((c1.trans c3).trans c4).trans c5).trans c6).trans c7).trans hc,
      Or.inl (hi.trans (i7.trans (i6.trans (i5.trans (i4.trans (i3.trans i1))))))⟩
  have c08 := (((((c1.trans c3).trans c4).trans c5).trans c6).trans c7).trans c8
  have i08 := i8.trans (i7.trans (i6.trans (i5.trans (i4.trans (i3.trans i1)))))
  split at h
  · -- linked: target, validation, commit
    rcases bind_frame (frame_getTargetAt _ _ _) h with ⟨e, he, hc, hi⟩ | ⟨target, s9, h9, c9, i9, h⟩
    · exact Or.inl ⟨e, he, c08.trans hc, Or.inl (hi.trans i08)⟩
    rcases bind_frame (frame_liftExcept _) h with ⟨e, he, hc, hi⟩ | ⟨u, s10, h10, c10, i10, h⟩
    · exact Or.inl ⟨e, he, (c08.trans c9).trans hc, Or.inl (hi.trans (i9.trans i08))⟩
    have hver := liftExcept_ok h10
    have hr : r = Except.ok () := by
      rw [commitChunk_eq] at h
      simp only [Prod.mk.injEq] at h
      exact h.1.symm
    subst hr
    exact Or.inr ⟨rfl, s10, s1.tick, hex, chunk, prevHash, prev.2, target,
      (c08.trans c9).trans c10, i10.trans (i9.trans i08), hget, hbuf, hver, h⟩
  · -- not linked
    rw [run_bind] at h
    simp only [modifyState, run_throw, Prod.mk.injEq] at h
    obtain ⟨hr, hs⟩ := h
    subst hs
    refine Or.inl ⟨Err.LoopInterrupt, hr.symm, ?_, Or.inr ?_⟩
    · obtain ⟨a1, a2, a3, a4, a5⟩ := c08
      exact ⟨a1, a2, a3, a4, a5⟩
    · show s8.syncIndex - 1 = s1.syncIndex - 1
      rw [i08]

theorem runChunkLoopOnce_inv (env : Env) (networkHeight : Int)
    (hnet : ServesFullChunks env.network networkHeight) :
    ∀ (fuel : Nat) (s s2 : State), Inv s →
      (s.syncIndex ≤ s.storage.getChunksCount ∧
          s.storage.getChunksCount ≤ max (networkHeight / 2016) 0 ∨
        s.syncIndex > max (networkHeight / 2016) 0) →
      runChunkLoopOnce env (max (networkHeight / 2016) 0) fuel s = (Except.ok (), s2) →
      Inv s2 := by
  intro fuel
  induction fuel with
  | zero =>
    intro s s2 _ _ h
    unfold runChunkLoopOnce at h
    simp [run_throw] at h
  | succ k ih =>
    intro s s2 hinv hpos h
    unfold runChunkLoopOnce at h
    rw [run_bind] at h
    simp only [getState] at h
    by_cases hgt : s.syncIndex > max (networkHeight / 2016) 0
    · rw [if_pos hgt] at h
      simp only [run_pure, Prod.mk.injEq, true_and] at h
      rw [← h]
      exact hinv
    · rw [if_neg hgt] at h
      obtain ⟨u, s1, h1, h2⟩ := bind_ok h
      rcases hpos with ⟨hle, hcI⟩ | hgt2
      swap
      · exact absurd hgt2 hgt
      rw [run_tryCatch] at h1
      cases hstep : chunkStep env s with
      | mk r s3 =>
        rw [hstep] at h1
        rcases chunkStep_spec env s s3 r hstep with
          ⟨e, he, hc, hi⟩ | ⟨hr, s4, t, hex, chunk, prevHash, prevHeader, target, hc, hi, hget,
            hbuf, hver, hcommit⟩
        · -- the pass failed: only `LoopInterrupt` lets the loop go on
          subst he
          simp only at h1
          by_cases hel : e = Err.LoopInterrupt
          · rw [if_pos hel] at h1
            simp only [run_pure, Prod.mk.injEq, true_and] at h1
            subst h1
            refine ih s3 s2 (Inv_of_SameCore hc hinv) ?_ h2
            left
            rw [hc.2.2.1]
            constructor
            · rcases hi with hi | hi <;> omega
            · exact hcI
          · rw [if_neg hel] at h1
            simp [run_throw] at h1
        · -- the pass committed a chunk
          subst hr
          simp only [Prod.mk.injEq, true_and] at h1
          subst h1
          obtain ⟨hnonneg, hfull⟩ := hnet t s.syncIndex hex chunk hget hbuf
          have hlen := chunk_length_of_verifyChunk _ _ _ _ _ hver
          have hinv4 : Inv s4 := Inv_of_SameCore hc hinv
          have hst4 : s4.storage = s.storage := hc.2.2.1
          by_cases hf : chunk.length = 2016 * 80
          · obtain ⟨hI, hidx, hcnt, _⟩ := commitChunk_inv chunk s4 s3 _ hlen rfl
              (by rw [hi]; exact hnonneg) (Or.inl ⟨hf, by rw [hi, hst4]; exact hle⟩) hcommit
            refine ih s3 s2 hI ?_ h2
            rw [hidx, hcnt hf, hi]
            by_cases hlt : s.syncIndex < max (networkHeight / 2016) 0
            · left
              constructor <;> omega
            · right
              omega
          · have hidxI : s.syncIndex = max (networkHeight / 2016) 0 := by
              have : ¬ s.syncIndex < networkHeight / 2016 := fun hlt => hf (hfull hlt)
              omega
            obtain ⟨hI, hidx, _, _⟩ := commitChunk_inv chunk s4 s3 _ hlen rfl
              (by rw [hi]; exact hnonneg)
              (Or.inr ⟨hf, by rw [hi, hst4]; omega⟩) hcommit
            refine ih s3 s2 hI ?_ h2
            right
            rw [hidx, hi]
            omega

theorem startChunkLoop_inv (env : Env) (networkHeight : Int) (fuel : Nat) (s s2 : State)
    (hnet : ServesFullChunks env.network networkHeight) (hinv : Inv s)
    (hb : PendingBounded s) (hgt : s.currentHeight < networkHeight)
    (h : startChunkLoop env networkHeight fuel s = (Except.ok (), s2)) : Inv s2 := by
  unfold startChunkLoop at h
  rw [run_bind] at h
  simp only [getState] at h
  rw [run_bind] at h
  simp only [modifyState] at h
  refine runChunkLoopOnce_inv env networkHeight hnet fuel _ s2 ?_ ?_ h
  · exact Inv_of_SameCore ⟨rfl, rfl, rfl, rfl, rfl⟩ hinv
  · left
    have h1 := hinv.1
    unfold PendingBounded at hb
    have h0 : 0 ≤ s.storage.getChunksCount := by
      unfold Storage.getChunksCount
      exact Int.ofNat_nonneg _
    have h00 : 0 ≤ s.storage.getHeadersCount := by
      unfold Storage.getHeadersCount
      exact Int.ofNat_nonneg _
    show min (max (s.currentHeight / 2016) 0) (max (networkHeight / 2016) 0)
        ≤ s.storage.getChunksCount ∧ s.storage.getChunksCount ≤ max (networkHeight / 2016) 0
    constructor <;> omega

/-! ## Lemmas on incremental mode -/

theorem chainFrom_getLast (chain : List ChainItem) :
    ∀ (current : Int) (data : ChainItem), ChainFrom current chain →
      chain.getLast? = some data → data.height = current + chain.length := by
  induction chain with
  | nil => intro current data _ h; simp at h
  | cons x rest ih =>
    intro current data hc h
    obtain ⟨hx, hrest⟩ := hc
    cases rest with
    | nil =>
      simp only [List.getLast?_singleton, Option.some.injEq] at h
      subst h
      simp [hx]
    | cons y ys =>
      rw [List.getLast?_cons_cons] at h
      have := ih (current + 1) data hrest h
      rw [this]
      simp only [List.length_cons]
      push_cast
      omega

theorem nextHeight_of_chainFrom (chain : List ChainItem) (current : Int)
    (hc : ChainFrom current chain) : nextHeight chain current = current + chain.length + 1 := by
  unfold nextHeight
  cases hl : chain.getLast? with
  | none =>
    have : chain = [] := List.getLast?_eq_none_iff.mp hl
    subst this
    simp
  | some data =>
    simp only
    rw [chainFrom_getLast chain current data hc hl]

theorem chainFrom_append (chain : List ChainItem) :
    ∀ (current : Int) (header : Header), ChainFrom current chain →
      ChainFrom current (chain ++ [{ height := current + chain.length + 1, header := header }]) := by
  induction chain with
  | nil =>
    intro current header _
    simp [ChainFrom]
  | cons x rest ih =>
    intro current header hc
    obtain ⟨hx, hrest⟩ := hc
    refine ⟨hx, ?_⟩
    have := ih (current + 1) header hrest
    have he : current + 1 + (rest.length : Int) + 1 = current + ((x :: rest).length : Int) + 1 := by
      simp only [List.length_cons]
      push_cast
      omega
    rw [he] at this
    exact this

theorem chainFrom_filter_all (start : Int) (chain : List ChainItem) :
    ∀ current, ChainFrom current chain → start ≤ current + 1 →
      chain.filter (fun obj => decide (obj.height ≥ start)) = chain := by
  induction chain with
  | nil => intro _ _ _; rfl
  | cons x rest ih =>
    intro current hc hs
    obtain ⟨hx, hrest⟩ := hc
    have hk : decide (x.height ≥ start) = true := decide_eq_true (by omega)
    simp only [List.filter_cons]
    rw [if_pos hk, ih (current + 1) hrest (by omega)]

theorem chainFrom_filter_count (start : Int) (chain : List ChainItem) :
    ∀ current, ChainFrom current chain → current + 1 ≤ start →
      start ≤ current + chain.length →
      ((chain.filter (fun obj => decide (obj.height ≥ start))).length : Int)
        = current + chain.length - start + 1 := by
  induction chain with
  | nil =>
    intro current _ h1 h2
    simp only [List.length_nil] at h2
    push_cast at h2
    omega
  | cons x rest ih =>
    intro current hc h1 h2
    obtain ⟨hx, hrest⟩ := hc
    simp only [List.length_cons] at h2 ⊢
    push_cast at h2 ⊢
    by_cases hk : x.height ≥ start
    · have hk2 : decide (x.height ≥ start) = true := decide_eq_true hk
      simp only [List.filter_cons]
      rw [if_pos hk2, chainFrom_filter_all start rest (current + 1) hrest (by omega)]
      simp only [List.length_cons]
      push_cast
      omega
    · have hk2 : ¬ (decide (x.height ≥ start) = true) := by simpa using hk
      simp only [List.filter_cons]
      rw [if_neg hk2, ih (current + 1) hrest (by omega) (by omega)]
      omega

theorem fetchChain_spec (env : Env) (networkHeight : Int) (n : Nat) :
    ∀ (chain chain2 : List ChainItem) (s s2 : State),
      ChainFrom s.currentHeight chain →
      (chain ≠ [] → s.currentHeight < networkHeight) →
      fetchChain env networkHeight n chain s = (Except.ok chain2, s2) →
      ChainFrom s.currentHeight chain2 ∧ (chain2 ≠ [] → s.currentHeight < networkHeight) ∧
        SameCore s s2 := by
  induction n with
  | zero =>
    intro chain chain2 s s2 _ _ h
    unfold fetchChain at h
    simp [run_throw] at h
  | succ k ih =>
    intro chain chain2 s s2 hc hne h
    unfold fetchChain at h
    rw [run_bind] at h
    simp only [getState] at h
    by_cases hle : nextHeight chain s.currentHeight ≤ networkHeight
    · rw [if_pos hle] at h
      obtain ⟨header, s1, h1, h2⟩ := bind_ok h
      have hf := frame_run (frame_tryCatch (frame_getHeader env _)
        (fun _ => frame_throw Err.Unsettled)) h1
      have hcur : s1.currentHeight = s.currentHeight := hf.1.1
      have hnh := nextHeight_of_chainFrom chain s.currentHeight hc
      rw [hnh] at h2 hle
      have := ih _ chain2 s1 s2 (by rw [hcur]; exact chainFrom_append chain _ header hc)
        (by intro _; rw [hcur]; have : (0 : Int) ≤ chain.length := Int.ofNat_nonneg _; omega) h2
      rw [hcur] at this
      exact ⟨this.1, this.2.1, hf.1.trans this.2.2⟩
    · rw [if_neg hle] at h
      simp only [run_pure, Prod.mk.injEq, Except.ok.injEq] at h
      rw [← h.1, ← h.2]
      exact ⟨hc, hne, SameCore.refl s⟩

theorem modifyStorage_run (f : Storage → Storage) (s : State) :
    modifyStorage f s = (Except.ok (), { s with storage := f s.storage }) := rfl

theorem pushHeaders_ok (keep : ChainItem → Bool) (l : List ChainItem) :
    ∀ (s s2 : State), pushHeaders keep l s = (Except.ok (), s2) →
      ∃ extra : List (List Char), extra.length = (l.filter keep).length ∧
        s2 = { s with storage := { s.storage with headers := s.storage.headers ++ extra } } := by
  induction l with
  | nil =>
    intro s s2 h
    unfold pushHeaders at h
    simp only [run_pure, Prod.mk.injEq, true_and] at h
    exact ⟨[], rfl, by rw [← h]; simp⟩
  | cons obj rest ih =>
    intro s s2 h
    unfold pushHeaders at h
    obtain ⟨u, s1, h1, h2⟩ := bind_ok h
    obtain ⟨extra, he, hs⟩ := ih s1 s2 h2
    by_cases hk : keep obj = true
    · rw [if_pos hk] at h1
      obtain ⟨buffer, s0, h0, h3⟩ := bind_ok h1
      have hs0 : s0 = s := by
        unfold liftExcept at h0
        simp only [Prod.mk.injEq] at h0
        exact h0.2.symm
      subst hs0
      rw [modifyStorage_run] at h3
      simp only [Prod.mk.injEq, true_and] at h3
      subst h3
      refine ⟨toHex buffer :: extra, ?_, ?_⟩
      · simp only [List.filter_cons]
        rw [if_pos hk]
        simp [he]
      · rw [hs]
        simp [Storage.pushHeader]
    · rw [if_neg hk] at h1
      simp only [run_pure, Prod.mk.injEq, true_and] at h1
      subst h1
      refine ⟨extra, ?_, hs⟩
      simp only [List.filter_cons]
      rw [if_neg hk]
      exact he

theorem frame_appendChainHex (startHeight : Int) (l : List ChainItem) :
    ∀ chunkHex, Frame (appendChainHex startHeight l chunkHex) := by
  induction l with
  | nil =>
    intro chunkHex
    unfold appendChainHex
    exact frame_pure _
  | cons obj rest ih =>
    intro chunkHex
    unfold appendChainHex
    split
    · exact frame_bind (frame_liftExcept _) (fun _ => ih _)
    · exact ih _

theorem state_eq_of_frame {α : Type} {m : Run α} {s s1 : State} {r : Except Err α}
    (hm : Frame m) (h : m s = (r, s1)) :
    s1.storage = s.storage ∧ s1.currentHeight = s.currentHeight ∧
      s1.currentBlockHash = s.currentBlockHash ∧ s1.lastCommitted = s.lastCommitted := by
  obtain ⟨⟨h1, h2, h3, _, h5⟩, _⟩ := frame_run hm h
  exact ⟨h3, h1, h2, h5⟩

theorem commitChain_inv (chain : List ChainItem) (s s2 : State) (hinv : Inv s)
    (hb : PendingBounded s) (hc : ChainFrom s.currentHeight chain)
    (h : commitChain chain s = (Except.ok (), s2)) : Inv s2 := by
  unfold commitChain at h
  obtain ⟨last, s1, h1, g1⟩ := bind_ok h
  clear h
  cases hl : chain.getLast? with
  | none =>
    rw [hl] at h1
    simp [run_throw] at h1
  | some d =>
    rw [hl] at h1
    simp only [run_pure, Prod.mk.injEq, Except.ok.injEq] at h1
    obtain ⟨hd, hs1⟩ := h1
    subst hd
    subst hs1
    have hlast := chainFrom_getLast chain s.currentHeight d hc hl
    have hL : 1 ≤ (chain.length : Int) := by
      have : chain ≠ [] := by
        intro he
        rw [he] at hl
        simp at hl
      have := List.length_pos.mpr this
      omega
    obtain ⟨lastBlock, s3, h3, g2⟩ := bind_ok g1
    clear g1
    have hs3 : s3 = s := by
      unfold liftExcept at h3
      simp only [Prod.mk.injEq] at h3
      exact h3.2.symm
    subst hs3
    try dsimp only at g2
    rw [run_bind, modifyStorage_run] at g2
    try dsimp only at g2
    rw [run_bind] at g2
    simp only [getState] at g2
    obtain ⟨u, s5, h5, g3⟩ := bind_ok g2
    clear g2
    simp only [modifyState, Prod.mk.injEq, true_and] at g3
    subst g3
    obtain ⟨hheight, hhash⟩ := hinv
    unfold PendingBounded at hb
    have hcnt0 : (0 : Int) ≤ s3.storage.getHeadersCount := Int.ofNat_nonneg _
    have hcc0 : (0 : Int) ≤ s3.storage.getChunksCount := Int.ofNat_nonneg _
    have hsetc : (s3.storage.setLastHash (toHex (headerHash lastBlock))).getChunksCount
        = s3.storage.getChunksCount := rfl
    rw [hsetc] at h5
    have hd0 : 0 ≤ d.height := by omega
    -- the storage after the branch: counts and last hash
    have key : s5.storage.lastHash = toHex (headerHash lastBlock) ∧
        d.height = s5.storage.getChunksCount * 2016 + s5.storage.getHeadersCount - 1 := by
      by_cases hci : d.height / 2016 = s3.storage.getChunksCount
      · rw [if_pos hci] at h5
        rw [run_bind, modifyStorage_run] at h5
        try dsimp only at h5
        obtain ⟨extra, he, hs5⟩ := pushHeaders_ok _ _ _ _ h5
        subst hs5
        have hfl : (chain.filter (fun _ => true)).length = chain.length := by
          rw [List.filter_true]
        rw [hfl] at he
        have htm : Int.tmod d.height 2016 = d.height % 2016 :=
          Int.tmod_eq_emod hd0 (by decide)
        refine ⟨rfl, ?_⟩
        simp only [Storage.getChunksCount, Storage.getHeadersCount, Storage.truncateHeaders,
          Storage.setLastHash, List.length_append, List.length_take, he, htm] at hheight hci hb ⊢
        push_cast
        omega
      · rw [if_neg hci] at h5
        obtain ⟨u1, s6, h6, g5⟩ := bind_ok h5
        clear h5
        have hassert := liftExcept_ok h6
        have f6 := state_eq_of_frame (frame_liftExcept _) h6
        try dsimp only at g5
        have hci2 : d.height / 2016 - 1 = s3.storage.getChunksCount := by
          unfold assertEqual at hassert
          by_contra hne
          rw [decide_eq_false hne] at hassert
          simp [throw, throwThe, MonadExceptOf.throw] at hassert
        obtain ⟨chunkHex, s7, h7, g6⟩ := bind_ok g5
        clear g5
        have f7 := state_eq_of_frame (frame_appendChainHex _ _ _) h7
        obtain ⟨u2, s8, h8, g7⟩ := bind_ok g6
        clear g6
        have f8 := state_eq_of_frame (frame_liftExcept _) h8
        obtain ⟨chunk, s9, h9, g8⟩ := bind_ok g7
        clear g7
        have f9 := state_eq_of_frame (frame_newBuffer _) h9
        try dsimp only at g8
        rw [run_bind, modifyStorage_run] at g8
        try dsimp only at g8
        rw [run_bind, modifyStorage_run] at g8
        try dsimp only at g8
        obtain ⟨extra, he, hs5⟩ := pushHeaders_ok _ _ _ _ g8
        subst hs5
        have hst9 : s9.storage = s3.storage.setLastHash (toHex (headerHash lastBlock)) := by
          rw [f9.1, f8.1, f7.1, f6.1]
        have hcount := chainFrom_filter_count (d.height / 2016 * 2016) chain s3.currentHeight hc
          (by
            simp only [Storage.getChunksCount, Storage.getHeadersCount] at hheight hci2 hb ⊢
            omega)
          (by omega)
        refine ⟨?_, ?_⟩
        · simp only [Storage.truncateHeaders, Storage.pushChunkHash, hst9, Storage.setLastHash]
        · simp only [Storage.getChunksCount, Storage.getHeadersCount, Storage.truncateHeaders,
            Storage.pushChunkHash, hst9, Storage.setLastHash, List.length_append,
            List.length_take, List.length_cons, List.length_nil, he] at hheight hci2 hb ⊢
          push_cast
          omega
    refine ⟨key.2, ?_⟩
    intro b hbq
    simp only [Option.some.injEq] at hbq
    subst hbq
    simp only [Storage.getLastHash, key.1, bufferFromHex_toHex, Option.getD]

theorem writeUInt32LE_error (v : Nat) (e : Err) (h : writeUInt32LE v = Except.error e) :
    e = Err.TypeError := by
  unfold writeUInt32LE at h
  split at h
  · cases h
  · cases h
    rfl

theorem except_bind_error {α β : Type} {x : Except Err α} {f : α → Except Err β} {e : Err}
    (h : (x >>= f) = Except.error e) :
    x = Except.error e ∨ ∃ a, x = Except.ok a ∧ f a = Except.error e := by
  cases x with
  | error e1 =>
    left
    have h2 : (Except.error e1 : Except Err β) = Except.error e := h
    cases h2
    rfl
  | ok a =>
    right
    exact ⟨a, rfl, h⟩

theorem header2buffer_error (header : Header) (e : Err)
    (h : header2buffer header = Except.error e) : e = Err.TypeError := by
  unfold header2buffer at h
  split at h
  · cases h
    rfl
  · split at h
    · cases h
      rfl
    · split at h
      · cases h
        rfl
      · rcases except_bind_error h with h1 | ⟨a1, _, h⟩
        · exact writeUInt32LE_error _ _ h1
        rcases except_bind_error h with h1 | ⟨a2, _, h⟩
        · split at h1
          · cases h1
            rfl
          · cases h1
        rcases except_bind_error h with h1 | ⟨a3, _, h⟩
        · split at h1
          · cases h1
            rfl
          · cases h1
        rcases except_bind_error h with h1 | ⟨a4, _, h⟩
        · exact writeUInt32LE_error _ _ h1
        rcases except_bind_error h with h1 | ⟨a5, _, h⟩
        · exact writeUInt32LE_error _ _ h1
        rcases except_bind_error h with h1 | ⟨a6, _, h⟩
        · exact writeUInt32LE_error _ _ h1
        cases h

theorem buffer2header_error (buffer : Buffer) (e : Err)
    (h : buffer2header buffer = Except.error e) : e = Err.TypeError := by
  unfold buffer2header at h
  split at h
  · cases h
    rfl
  · cases h

theorem assertEqual_error (c : Bool) (e : Err) (h : assertEqual c = Except.error e) :
    e = Err.AssertionError := by
  unfold assertEqual at h
  split at h
  · cases h
  · cases h
    rfl

theorem noint_pure {α : Type} (a : α) : NoInterrupt (pure a : Run α) := by
  intro s h
  cases h

theorem noint_throw {α : Type} {e : Err} (he : e ≠ Err.LoopInterrupt) :
    NoInterrupt (throw e : Run α) := by
  intro s h
  simp only [run_throw, Except.error.injEq] at h
  exact he h

theorem noint_liftExcept {α : Type} {x : Except Err α}
    (hx : x ≠ Except.error Err.LoopInterrupt) : NoInterrupt (liftExcept x) := by
  intro s h
  exact hx h

theorem noint_getState : NoInterrupt getState := by
  intro s h
  cases h

theorem noint_modifyState (f : State → State) : NoInterrupt (modifyState f) := by
  intro s h
  cases h

theorem noint_modifyStorage (f : Storage → Storage) : NoInterrupt (modifyStorage f) := by
  intro s h
  cases h

theorem noint_bind {α β : Type} {m : Run α} {f : α → Run β} (hm : NoInterrupt m)
    (hf : ∀ a, NoInterrupt (f a)) : NoInterrupt (m >>= f) := by
  intro s h
  rw [run_bind] at h
  split at h
  · rename_i a s1 heq
    exact hf a s1 h
  · rename_i e s1 heq
    have := hm s
    rw [heq] at this
    simp only [Except.error.injEq] at h
    subst h
    exact this rfl

theorem noint_newBuffer (hex : List Char) : NoInterrupt (newBuffer hex) := by
  unfold newBuffer
  split
  · exact noint_throw (by decide)
  · exact noint_pure _

theorem noint_networkGetChunk (env : Env) (index : Int) :
    NoInterrupt (networkGetChunk env index) := by
  intro s h
  unfold networkGetChunk at h
  simp only at h
  cases hg : env.network.getChunk s.tick index with
  | ok v => rw [hg] at h; cases h
  | error e =>
    rw [hg] at h
    cases e <;> cases h

theorem noint_waitHeight (height : Int) : NoInterrupt (_waitHeight height) := by
  unfold _waitHeight
  refine noint_bind noint_getState (fun s => ?_)
  split
  · exact noint_pure _
  · exact noint_throw (by decide)

theorem noint_getVerifiedChunk (env : Env) (chunkIndex : Int) :
    NoInterrupt (_getVerifiedChunk env chunkIndex) := by
  unfold _getVerifiedChunk
  refine noint_bind (noint_networkGetChunk _ _) (fun chunkHex => ?_)
  refine noint_bind (noint_newBuffer _) (fun chunk => ?_)
  refine noint_bind noint_getState (fun s => ?_)
  split
  · exact noint_throw (by decide)
  · refine noint_bind (noint_modifyState _) (fun _ => ?_)
    exact noint_pure _

theorem noint_getVerifiedHeader (env : Env) (height : Int) :
    NoInterrupt (_getVerifiedHeader env height) := by
  unfold _getVerifiedHeader
  refine noint_bind noint_getState (fun s => ?_)
  refine noint_bind (noint_modifyState _) (fun _ => ?_)
  split
  · exact noint_pure _
  · refine noint_bind noint_getState (fun s => ?_)
    refine noint_bind ?_ (fun _ => ?_)
    · split
      · exact noint_waitHeight _
      · exact noint_pure _
    · refine noint_bind noint_getState (fun s => ?_)
      split
      · split
        · exact noint_throw (by decide)
        · split
          · exact noint_throw (by decide)
          · exact noint_newBuffer _
      · refine noint_bind (noint_getVerifiedChunk _ _) (fun _ => ?_)
        exact noint_pure _

theorem noint_header2buffer (header : Header) : NoInterrupt (liftExcept (header2buffer header)) :=
  noint_liftExcept (fun h => by have := header2buffer_error _ _ h; cases this)

theorem noint_buffer2header (buffer : Buffer) :
    NoInterrupt (liftExcept (buffer2header buffer)) :=
  noint_liftExcept (fun h => by have := buffer2header_error _ _ h; cases this)

theorem noint_assertEqual (c : Bool) : NoInterrupt (liftExcept (assertEqual c)) :=
  noint_liftExcept (fun h => by have := assertEqual_error _ _ h; cases this)

theorem noint_pushHeaders (keep : ChainItem → Bool) (l : List ChainItem) :
    NoInterrupt (pushHeaders keep l) := by
  induction l with
  | nil =>
    unfold pushHeaders
    exact noint_pure _
  | cons obj rest ih =>
    unfold pushHeaders
    refine noint_bind ?_ (fun _ => ih)
    split
    · exact noint_bind (noint_header2buffer _) (fun _ => noint_modifyStorage _)
    · exact noint_pure _

theorem noint_appendChainHex (startHeight : Int) (l : List ChainItem) :
    ∀ chunkHex, NoInterrupt (appendChainHex startHeight l chunkHex) := by
  induction l with
  | nil =>
    intro chunkHex
    unfold appendChainHex
    exact noint_pure _
  | cons obj rest ih =>
    intro chunkHex
    unfold appendChainHex
    split
    · exact noint_bind (noint_header2buffer _) (fun _ => ih _)
    · exact ih _

theorem noint_commitChain (chain : List ChainItem) : NoInterrupt (commitChain chain) := by
  unfold commitChain
  refine noint_bind ?_ (fun last => ?_)
  · split
    · exact noint_throw (by decide)
    · exact noint_pure _
  refine noint_bind (noint_header2buffer _) (fun lastBlock => ?_)
  refine noint_bind (noint_modifyStorage _) (fun _ => ?_)
  refine noint_bind noint_getState (fun s => ?_)
  refine noint_bind ?_ (fun _ => noint_modifyState _)
  split
  · exact noint_bind (noint_modifyStorage _) (fun _ => noint_pushHeaders _ _)
  · refine noint_bind (noint_assertEqual _) (fun _ => ?_)
    refine noint_bind (noint_appendChainHex _ _ _) (fun _ => ?_)
    refine noint_bind (noint_assertEqual _) (fun _ => ?_)
    refine noint_bind (noint_newBuffer _) (fun _ => ?_)
    refine noint_bind (noint_modifyStorage _) (fun _ => ?_)
    refine noint_bind (noint_modifyStorage _) (fun _ => ?_)
    exact noint_pushHeaders _ _

theorem PendingBounded_of_SameCore {s s1 : State} (h : SameCore s s1) (hb : PendingBounded s) :
    PendingBounded s1 := by
  unfold PendingBounded at hb ⊢
  rw [h.2.2.1]
  exact hb

theorem noint_run {α : Type} {m : Run α} (hm : NoInterrupt m) {s s1 : State} {e : Err}
    (h : m s = (Except.error e, s1)) : e ≠ Err.LoopInterrupt := by
  intro he
  have := hm s
  rw [h, he] at this
  exact this rfl

/-- The body of `runChainLoopOnce` under its last handler. -/
theorem chainBody_spec (env : Env) (networkHeight : Int) (chain : List ChainItem)
    (s s2 : State) (r : Except Err Unit) (hinv : Inv s) (hb : PendingBounded s)
    (hc : ChainFrom s.currentHeight chain)
    (hne : chain ≠ [] → s.currentHeight < networkHeight)
    (h : replayChain env chain s = (r, s2)) :
    (r = Except.ok () ∧ Inv s2) ∨
    (r = Except.error Err.LoopInterrupt ∧ SameCore s s2 ∧ s.currentHeight < networkHeight) ∨
    (∃ e, r = Except.error e ∧ e ≠ Err.LoopInterrupt) := by
  unfold replayChain at h
  rw [run_bind] at h
  simp only [getState] at h
  -- the previous header
  rw [run_bind] at h
  cases h1 : _getVerifiedHeader env s.currentHeight s with
  | mk r1 s1 =>
    rw [h1] at h
    have f1 := frame_run (frame_getVerifiedHeader env s.currentHeight) h1
    cases r1 with
    | error e =>
      simp only [Prod.mk.injEq] at h
      exact Or.inr (Or.inr ⟨e, h.1.symm, noint_run (noint_getVerifiedHeader _ _) h1⟩)
    | ok buffer =>
      simp only at h
      rw [run_bind] at h
      cases h2 : liftExcept (buffer2header buffer) s1 with
      | mk r2 s3 =>
        rw [h2] at h
        have f2 := frame_run (frame_liftExcept (buffer2header buffer)) h2
        cases r2 with
        | error e =>
          simp only [Prod.mk.injEq] at h
          exact Or.inr (Or.inr ⟨e, h.1.symm, noint_run (noint_buffer2header _) h2⟩)
        | ok prevHeader =>
          simp only at h
          rw [run_bind] at h
          cases hhead : chain.head? with
          | none =>
            rw [hhead] at h
            simp only [run_throw, Prod.mk.injEq] at h
            exact Or.inr (Or.inr ⟨Err.TypeError, h.1.symm, by decide⟩)
          | some first =>
            rw [hhead] at h
            simp only [run_pure] at h
            have hchain : chain ≠ [] := by
              intro he
              rw [he] at hhead
              simp at hhead
            have c03 : SameCore s s3 := f1.1.trans f2.1
            by_cases hlink : some (toHex (headerHash buffer)) ≠ first.header.prevBlockHash
            · rw [if_pos hlink] at h
              simp only [run_throw, Prod.mk.injEq] at h
              rw [← h.2]
              exact Or.inr (Or.inl ⟨h.1.symm, c03, hne hchain⟩)
            · rw [if_neg hlink] at h
              rw [run_bind] at h
              cases h4 : verifyChain env chain chain (headerHash buffer) prevHeader s3 with
              | mk r4 s4 =>
                rw [h4] at h
                have f4 := frame_run (frame_verifyChain env chain chain _ _) h4
                cases r4 with
                | error e =>
                  simp only [Prod.mk.injEq] at h
                  by_cases hel : e = Err.LoopInterrupt
                  · subst hel
                    rw [← h.2]
                    exact Or.inr (Or.inl ⟨h.1.symm, c03.trans f4.1, hne hchain⟩)
                  · exact Or.inr (Or.inr ⟨e, h.1.symm, hel⟩)
                | ok u =>
                  simp only at h
                  have c04 : SameCore s s4 := c03.trans f4.1
                  cases r with
                  | ok u2 =>
                    left
                    refine ⟨rfl, commitChain_inv chain s4 s2 (Inv_of_SameCore c04 hinv)
                      (PendingBounded_of_SameCore c04 hb) ?_ h⟩
                    rw [c04.1]
                    exact hc
                  | error e =>
                    exact Or.inr (Or.inr ⟨e, rfl, noint_run (noint_commitChain chain) h⟩)

theorem runChainLoopOnce_inv (env : Env) (networkHeight : Int) (fuel : Nat) (s s2 : State)
    (hnet : ServesFullChunks env.network networkHeight) (hinv : Inv s) (hb : PendingBounded s)
    (h : runChainLoopOnce env networkHeight (startChunkLoop env networkHeight fuel) s
      = (Except.ok (), s2)) : Inv s2 := by
  unfold runChainLoopOnce at h
  rw [run_bind] at h
  simp only [getState] at h
  obtain ⟨chain, s1, h1, g1⟩ := bind_ok h
  clear h
  obtain ⟨hc, hne, c1⟩ := fetchChain_spec env networkHeight _ [] chain s s1 trivial
    (fun hx => absurd rfl hx) h1
  rw [run_tryCatch] at g1
  cases hbody : replayChain env chain s1 with
  | mk r s3 =>
    rw [hbody] at g1
    have hinv1 := Inv_of_SameCore c1 hinv
    have hb1 := PendingBounded_of_SameCore c1 hb
    rcases chainBody_spec env networkHeight chain s1 s3 r hinv1 hb1
        (by rw [c1.1]; exact hc) (by rw [c1.1]; exact hne) hbody with
      ⟨hr, hi⟩ | ⟨hr, c3, hlt⟩ | ⟨e, hr, hel⟩
    · subst hr
      simp only [Prod.mk.injEq, true_and] at g1
      rw [← g1]
      exact hi
    · subst hr
      simp only [if_true] at g1
      exact startChunkLoop_inv env networkHeight fuel s3 s2 hnet (Inv_of_SameCore c3 hinv1)
        (PendingBounded_of_SameCore c3 hb1) (by rw [c3.1]; exact hlt) g1
    · subst hr
      simp only [if_neg hel, run_throw, Prod.mk.injEq] at g1
      cases g1.1

/-! ## Lemmas on the difficulty model and on the constructor -/

theorem retarget_eq (firstHeader lastHeader : Header) :
    retarget firstHeader lastHeader = Except.ok
      { bits := encodeBits (newTarget firstHeader lastHeader),
        target := toByteArrayUnsigned (newTarget firstHeader lastHeader) } := by
  unfold retarget
  simp only [bigToHex, bufferFromHex_toHex]
  rfl

theorem actualTimestamp_bounds (firstHeader lastHeader : Header) :
    302400 ≤ actualTimestamp firstHeader lastHeader ∧
      actualTimestamp firstHeader lastHeader ≤ 4838400 := by
  simp only [actualTimestamp, nTargetTimestamp]
  omega

theorem actualTimestamp_inside (firstHeader lastHeader : Header)
    (h1 : 302400 ≤ (lastHeader.timestamp : Int) - (firstHeader.timestamp : Int))
    (h2 : (lastHeader.timestamp : Int) - (firstHeader.timestamp : Int) ≤ 4838400) :
    actualTimestamp firstHeader lastHeader
      = (lastHeader.timestamp : Int) - (firstHeader.timestamp : Int) := by
  simp only [actualTimestamp, nTargetTimestamp]
  omega

/-- The height and the hash that the constructor sets: with a non-empty storage the height is
`chunks * 2016 + headers`, with an empty one it is -1 and the hash is 32 zero bytes. -/
theorem construct_height (storage : Storage) (headerCacheSize : Nat) :
    (storage.getChunksCount > 0 ∨ storage.getHeadersCount > 0 →
      (construct storage headerCacheSize).currentHeight
        = storage.getChunksCount * 2016 + storage.getHeadersCount) ∧
    (¬ (storage.getChunksCount > 0 ∨ storage.getHeadersCount > 0) →
      (construct storage headerCacheSize).currentHeight = -1 ∧
      (construct storage headerCacheSize).currentBlockHash = List.replicate 32 0) := by
  constructor
  · intro h
    simp only [construct, if_pos h]
  · intro h
    constructor
    · simp only [construct, if_neg h]
    · simp only [construct, if_neg h]
      decide

/-! ## Lemmas on hexadecimal strings and on the header codec -/

theorem hexVal_lt {c : Char} {v : Nat} (h : hexVal c = some v) : v < 16 := by
  unfold hexVal at h
  split at h
  · simp only [Option.some.injEq] at h; omega
  · split at h
    · simp only [Option.some.injEq] at h; omega
    · split at h
      · simp only [Option.some.injEq] at h; omega
      · cases h

theorem hexDigit_hexVal {c : Char} {v : Nat} (h : hexVal c = some v) :
    hexDigit v = lowerHexChar c := by
  unfold hexVal at h
  unfold hexDigit lowerHexChar
  split at h
  · rename_i h1
    simp only [Option.some.injEq] at h
    subst h
    rw [if_pos (by omega), if_neg (by omega)]
    have : 48 + (c.toNat - 48) = c.toNat := by omega
    rw [this, Char.ofNat_toNat]
  · split at h
    · rename_i h1 h2
      simp only [Option.some.injEq] at h
      subst h
      rw [if_neg (by omega), if_neg (by omega)]
      have : 87 + (c.toNat - 87) = c.toNat := by omega
      rw [this, Char.ofNat_toNat]
    · split at h
      · rename_i h1 h2 h3
        simp only [Option.some.injEq] at h
        subst h
        rw [if_neg (by omega), if_pos h3]
        have : 87 + (c.toNat - 55) = c.toNat + 32 := by omega
        rw [this]
      · cases h

theorem bufferFromHex_cons_cons {h l : Char} {rest : List Char} {b : Buffer}
    (hb : bufferFromHex (h :: l :: rest) = some b) :
    ∃ x y bs, hexVal h = some x ∧ hexVal l = some y ∧ bufferFromHex rest = some bs ∧
      b = Fin.ofNat (16 * x + y) :: bs := by
  unfold bufferFromHex at hb
  cases hx : hexVal h with
  | none => rw [hx] at hb; simp at hb
  | some x =>
    cases hy : hexVal l with
    | none => rw [hx, hy] at hb; simp at hb
    | some y =>
      cases hr : bufferFromHex rest with
      | none => rw [hx, hy, hr] at hb; simp at hb
      | some bs =>
        rw [hx, hy, hr] at hb
        simp only [Option.some.injEq] at hb
        exact ⟨x, y, bs, rfl, rfl, rfl, hb.symm⟩

theorem byteToHex_ofNat {x y : Nat} (hx : x < 16) (hy : y < 16) :
    byteToHex (Fin.ofNat (16 * x + y)) = [hexDigit x, hexDigit y] := by
  have hv : ((Fin.ofNat (16 * x + y) : Byte)).val = 16 * x + y := by
    simp only [Fin.ofNat]
    omega
  unfold byteToHex
  rw [hv]
  have h1 : (16 * x + y) / 16 = x := by omega
  have h2 : (16 * x + y) % 16 = y := by omega
  rw [h1, h2]

theorem toHex_bufferFromHex : ∀ (n : Nat) (s : List Char) (b : Buffer), s.length ≤ n →
    bufferFromHex s = some b →
      toHex b = lowerHex s ∧ 2 * b.length = s.length ∧ ∀ c ∈ s, (hexVal c).isSome = true := by
  intro n
  induction n with
  | zero =>
    intro s b hn hb
    have : s = [] := List.eq_nil_of_length_eq_zero (by omega)
    subst this
    simp only [bufferFromHex, Option.some.injEq] at hb
    subst hb
    simp [toHex, lowerHex]
  | succ k ih =>
    intro s b hn hb
    match s, hb with
    | [], hb =>
      simp only [bufferFromHex, Option.some.injEq] at hb
      subst hb
      simp [toHex, lowerHex]
    | [_], hb => simp [bufferFromHex] at hb
    | h :: l :: rest, hb =>
      obtain ⟨x, y, bs, hx, hy, hr, rfl⟩ := bufferFromHex_cons_cons hb
      simp only [List.length_cons] at hn
      obtain ⟨i1, i2, i3⟩ := ih rest bs (by omega) hr
      refine ⟨?_, ?_, ?_⟩
      · simp only [toHex, byteToHex_ofNat (hexVal_lt hx) (hexVal_lt hy), i1, lowerHex,
          List.map_cons, hexDigit_hexVal hx, hexDigit_hexVal hy, List.cons_append,
          List.nil_append]
      · simp only [List.length_cons]
        omega
      · intro c hc
        simp only [List.mem_cons] at hc
        rcases hc with rfl | rfl | hc
        · rw [hx]; rfl
        · rw [hy]; rfl
        · exact i3 c hc

theorem bufferFromHex_of_hex : ∀ (n : Nat) (s : List Char), s.length ≤ n → s.length % 2 = 0 →
    (∀ c ∈ s, (hexVal c).isSome = true) → ∃ b, bufferFromHex s = some b := by
  intro n
  induction n with
  | zero =>
    intro s hn _ _
    have : s = [] := List.eq_nil_of_length_eq_zero (by omega)
    subst this
    exact ⟨[], rfl⟩
  | succ k ih =>
    intro s hn he hc
    match s, he, hc with
    | [], _, _ => exact ⟨[], rfl⟩
    | [_], he, _ => simp at he
    | h :: l :: rest, he, hc =>
      simp only [List.length_cons] at hn he
      obtain ⟨bs, hbs⟩ := ih rest (by omega) (by omega)
        (fun c hm => hc c (List.mem_cons_of_mem _ (List.mem_cons_of_mem _ hm)))
      have h1 := hc h (List.mem_cons_self _ _)
      have h2 := hc l (List.mem_cons_of_mem _ (List.mem_cons_self _ _))
      obtain ⟨x, hx⟩ := Option.isSome_iff_exists.mp h1
      obtain ⟨y, hy⟩ := Option.isSome_iff_exists.mp h2
      refine ⟨Fin.ofNat (16 * x + y) :: bs, ?_⟩
      unfold bufferFromHex
      rw [hx, hy, hbs]

theorem slice_append_mid (x y z : Buffer) (i j : Int) (hi : i = (x.length : Int))
    (hj : j = (x.length : Int) + (y.length : Int)) : slice (x ++ (y ++ z)) i j = y := by
  unfold slice
  simp only [List.length_append, Nat.cast_add]
  have h1 : ¬ i < 0 := by omega
  have h2 : ¬ j < 0 := by omega
  rw [if_neg h1, if_neg h2]
  have h3 : (min i ((x.length : Int) + ((y.length : Int) + (z.length : Int)))).toNat = x.length := by
    rw [min_eq_left (by omega), hi]
    simp
  have h4 : (min j ((x.length : Int) + ((y.length : Int) + (z.length : Int)))).toNat
      = x.length + y.length := by
    rw [min_eq_left (by omega), hj]
    omega
  rw [h3, h4]
  rw [List.take_append_eq_append_take, List.take_of_length_le (by omega)]
  simp

theorem writeUInt32LE_ok (v : Nat) (h : v ≤ 0xffffffff) :
    ∃ b, writeUInt32LE v = Except.ok b ∧ b.length = 4 ∧ readUInt32LE b = v := by
  unfold writeUInt32LE
  rw [if_pos h]
  refine ⟨_, rfl, rfl, ?_⟩
  simp only [readUInt32LE, Fin.ofNat]
  omega

theorem buffer2header_concat (v p m t b n : Buffer) (hv : v.length = 4) (hp : p.length = 32)
    (hm : m.length = 32) (ht : t.length = 4) (hb : b.length = 4) (hn : n.length = 4) :
    (v ++ p ++ m ++ t ++ b ++ n).length = 80 ∧
    buffer2header (v ++ p ++ m ++ t ++ b ++ n) = Except.ok
      { version := readUInt32LE v
        prevBlockHash := some (toHex p.reverse)
        merkleRoot := toHex m.reverse
        timestamp := readUInt32LE t
        bits := readUInt32LE b
        nonce := readUInt32LE n } := by
  have hl : (v ++ p ++ m ++ t ++ b ++ n).length = 80 := by
    simp only [List.length_append]
    omega
  refine ⟨hl, ?_⟩
  unfold buffer2header
  rw [if_neg (by omega)]
  have s1 : slice (v ++ p ++ m ++ t ++ b ++ n) 0 4 = v := by
    have := slice_append_mid [] v (p ++ m ++ t ++ b ++ n) 0 4 (by simp) (by simp [hv])
    simpa [List.append_assoc] using this
  have s2 : slice (v ++ p ++ m ++ t ++ b ++ n) 4 36 = p := by
    have := slice_append_mid v p (m ++ t ++ b ++ n) 4 36 (by simp [hv]) (by simp [hv, hp])
    simpa [List.append_assoc] using this
  have s3 : slice (v ++ p ++ m ++ t ++ b ++ n) 36 68 = m := by
    have := slice_append_mid (v ++ p) m (t ++ b ++ n) 36 68 (by simp [hv, hp])
      (by simp [hv, hp, hm])
    simpa [List.append_assoc] using this
  have s4 : slice (v ++ p ++ m ++ t ++ b ++ n) 68 72 = t := by
    have := slice_append_mid (v ++ p ++ m) t (b ++ n) 68 72 (by simp [hv, hp, hm])
      (by simp [hv, hp, hm, ht])
    simpa [List.append_assoc] using this
  have s5 : slice (v ++ p ++ m ++ t ++ b ++ n) 72 76 = b := by
    have := slice_append_mid (v ++ p ++ m ++ t) b n 72 76 (by simp [hv, hp, hm, ht])
      (by simp [hv, hp, hm, ht, hb])
    simpa [List.append_assoc] using this
  have s6 : slice (v ++ p ++ m ++ t ++ b ++ n) 76 80 = n := by
    have := slice_append_mid (v ++ p ++ m ++ t ++ b) n [] 76 80 (by simp [hv, hp, hm, ht, hb])
      (by simp [hv, hp, hm, ht, hb, hn])
    simpa [List.append_assoc] using this
  rw [s1, s2, s3, s4, s5, s6]
  rfl

theorem isHex64_decode {s : List Char} (h : IsHex64 s) :
    ∃ b, bufferFromHex s = some b ∧ b.length = 32 ∧ toHex b = lowerHex s := by
  obtain ⟨hl, hc⟩ := h
  obtain ⟨b, hb⟩ := bufferFromHex_of_hex s.length s (le_refl _) (by omega) hc
  obtain ⟨h1, h2, _⟩ := toHex_bufferFromHex s.length s b (le_refl _) hb
  exact ⟨b, hb, by omega, h1⟩

/-- The encoding of a valid header and its decoding. -/
theorem header2buffer_valid (h : Header) (hv : ValidHeader h) :
    ∃ buffer, header2buffer h = Except.ok buffer ∧ buffer.length = 80 ∧
      buffer2header buffer = Except.ok (lowerCaseHashes h) := by
  obtain ⟨h1, h2, h3, h4, ⟨p, hp, hp64⟩, hm64⟩ := hv
  obtain ⟨pb, hpb, hpl, hpx⟩ := isHex64_decode hp64
  obtain ⟨mb, hmb, hml, hmx⟩ := isHex64_decode hm64
  obtain ⟨v, ev, lv, rv⟩ := writeUInt32LE_ok h.version h1
  obtain ⟨t, et, lt, rt⟩ := writeUInt32LE_ok h.timestamp h2
  obtain ⟨b, eb, lb, rb⟩ := writeUInt32LE_ok h.bits h3
  obtain ⟨n, en, ln, rn⟩ := writeUInt32LE_ok h.nonce h4
  have e : header2buffer h
      = Except.ok (v ++ pb.reverse ++ mb.reverse ++ t ++ b ++ n) := by
    unfold header2buffer
    rw [hp]
    simp only
    rw [if_neg (by rw [hp64.1]; simp), if_neg (by rw [hm64.1]; simp), ev, hpb, hmb, et, eb, en]
    rfl
  obtain ⟨hl, hd⟩ := buffer2header_concat v pb.reverse mb.reverse t b n lv (by simpa using hpl)
    (by simpa using hml) lt lb ln
  refine ⟨_, e, hl, ?_⟩
  rw [hd, List.reverse_reverse, List.reverse_reverse, hpx, hmx, rv, rt, rb, rn]
  unfold lowerCaseHashes
  rw [hp]
  rfl

theorem header2buffer_ok_valid (h : Header) (buffer : Buffer)
    (e : header2buffer h = Except.ok buffer) : ValidHeader h := by
  unfold header2buffer at e
  cases hp : h.prevBlockHash with
  | none => rw [hp] at e; cases e
  | some p =>
    rw [hp] at e
    simp only at e
    by_cases c1 : p.length ≠ 64
    · rw [if_pos c1] at e; cases e
    rw [if_neg c1] at e
    by_cases c2 : h.merkleRoot.length ≠ 64
    · rw [if_pos c2] at e; cases e
    rw [if_neg c2] at e
    have w : ∀ x : Nat, ¬ x ≤ 0xffffffff → writeUInt32LE x = Except.error Err.TypeError := by
      intro x hx
      unfold writeUInt32LE
      rw [if_neg hx]
      rfl
    by_cases r1 : h.version ≤ 0xffffffff
    swap
    · rw [w _ r1] at e; cases e
    obtain ⟨v, ev, _, _⟩ := writeUInt32LE_ok _ r1
    rw [ev] at e
    cases hpb : bufferFromHex p with
    | none => rw [hpb] at e; cases e
    | some pb =>
      rw [hpb] at e
      cases hmb : bufferFromHex h.merkleRoot with
      | none => rw [hmb] at e; cases e
      | some mb =>
        rw [hmb] at e
        by_cases r2 : h.timestamp ≤ 0xffffffff
        swap
        · rw [w _ r2] at e; cases e
        obtain ⟨t, et, _, _⟩ := writeUInt32LE_ok _ r2
        rw [et] at e
        by_cases r3 : h.bits ≤ 0xffffffff
        swap
        · rw [w _ r3] at e; cases e
        obtain ⟨b, eb, _, _⟩ := writeUInt32LE_ok _ r3
        rw [eb] at e
        by_cases r4 : h.nonce ≤ 0xffffffff
        swap
        · rw [w _ r4] at e; cases e
        have q1 := (toHex_bufferFromHex p.length p pb (le_refl _) hpb).2.2
        have q2 := (toHex_bufferFromHex _ h.merkleRoot mb (le_refl _) hmb).2.2
        exact ⟨r1, r2, r3, r4, ⟨p, hp, not_not.mp c1, q1⟩, not_not.mp c2, q2⟩

/-! ## Lemmas on the Merkle fold -/

theorem ldiff_one (a : Nat) : Nat.ldiff 1 a = if a % 2 = 0 then 1 else 0 := by
  apply Nat.eq_of_testBit_eq
  intro i
  rw [Nat.testBit_ldiff]
  cases i with
  | zero =>
    simp only [Nat.testBit_zero]
    rcases Nat.mod_two_eq_zero_or_one a with h | h <;> simp [h]
  | succ k =>
    have h1 : Nat.testBit 1 (k + 1) = false := by
      simp [Nat.testBit_succ]
    rw [h1]
    split <;> simp [Nat.testBit_succ]

theorem land_one (x : Int) : Int.land x 1 = x % 2 := by
  cases x with
  | ofNat n =>
    show ((n &&& 1 : Nat) : Int) = _
    rw [Nat.and_one_is_mod]
    rfl
  | negSucc n =>
    show ((Nat.ldiff 1 n : Nat) : Int) = _
    rw [ldiff_one]
    rcases Nat.mod_two_eq_zero_or_one n with h | h
    · rw [if_pos h]
      simp only [Int.negSucc_eq]
      omega
    · rw [if_neg (by omega)]
      simp only [Int.negSucc_eq]
      omega

theorem toInt32_one : toInt32 1 = 1 := by decide

theorem toInt32_mod_two (x : Int) : toInt32 x % 2 = x % 2 := by
  unfold toInt32
  simp only
  split <;> omega

theorem jsBit_eq (index i : Nat) :
    (jsAnd (jsShiftRight (index : Int) i) 1 ≠ 0) ↔ index.testBit (i % 32) = true := by
  unfold jsAnd jsShiftRight
  rw [toInt32_one, land_one, toInt32_mod_two, Int.shiftRight_eq_div_pow,
    Nat.testBit_to_div_mod, decide_eq_true_iff]
  have hk : i % 32 < 32 := Nat.mod_lt _ (by decide)
  generalize i % 32 = k at hk
  unfold toInt32
  simp only
  interval_cases k <;> norm_num <;> split <;> omega

theorem merkleStep_eq (index i : Nat) (hi : i < 32) (hash sibling : Buffer) (txId : List Char)
    (h : hashDecode txId = some sibling) :
    merkleStep (index : Int) hash txId i
      = Except.ok (if index.testBit i then hash256 (sibling ++ hash)
          else hash256 (hash ++ sibling)) := by
  unfold merkleStep
  rw [h]
  have hb := jsBit_eq index i
  rw [Nat.mod_eq_of_lt hi] at hb
  dsimp only
  by_cases ht : index.testBit i = true
  · rw [if_pos (hb.mpr ht), if_pos ht]
    simp [pure, Except.pure]
  · rw [if_neg (fun hc => ht (hb.mp hc)), if_neg ht]
    simp [pure, Except.pure]

theorem merkleFold_eq_spec (index : Nat) :
    ∀ (branch : List (List Char)) (siblings : List Buffer) (i : Nat) (hash : Buffer),
      branch.map hashDecode = siblings.map some → i + branch.length ≤ 32 →
        merkleFold (index : Int) branch i hash
          = Except.ok (merkleFoldSpec index siblings i hash) := by
  intro branch
  induction branch with
  | nil =>
    intro siblings i hash h _
    cases siblings with
    | nil => rfl
    | cons a l => simp at h
  | cons txId rest ih =>
    intro siblings i hash h hlen
    cases siblings with
    | nil => simp at h
    | cons sibling l =>
      simp only [List.map_cons, List.cons.injEq] at h
      simp only [List.length_cons] at hlen
      unfold merkleFold merkleFoldSpec
      rw [merkleStep_eq index i (by omega) hash sibling txId h.1]
      exact ih l (i + 1) _ h.2 (by omega)

theorem merkleFoldSpec_append (index : Nat) (a b : List Buffer) :
    ∀ (i : Nat) (hash : Buffer),
      merkleFoldSpec index (a ++ b) i hash
        = merkleFoldSpec index b (i + a.length) (merkleFoldSpec index a i hash) := by
  induction a with
  | nil =>
    intro i hash
    simp [merkleFoldSpec]
  | cons x rest ih =>
    intro i hash
    simp only [List.cons_append, merkleFoldSpec, List.length_cons]
    show merkleFoldSpec index (rest ++ b) (i + 1) _ = _
    rw [ih]
    congr 1
    omega

theorem merkleFold_append (index : Int) (a b : List (List Char)) :
    ∀ (i : Nat) (hash : Buffer),
      merkleFold index (a ++ b) i hash
        = (merkleFold index a i hash >>= merkleFold index b (i + a.length)) := by
  induction a with
  | nil =>
    intro i hash
    simp only [List.nil_append, merkleFold, List.length_nil, Nat.add_zero]
    rfl
  | cons x rest ih =>
    intro i hash
    simp only [List.cons_append, merkleFold, List.length_cons]
    cases hs : merkleStep index hash x i with
    | error e => rfl
    | ok h2 =>
      show merkleFold index (rest ++ b) (i + 1) h2 = (merkleFold index rest (i + 1) h2 >>= _)
      rw [ih]
      have : i + 1 + rest.length = i + (rest.length + 1) := by omega
      rw [this]

theorem hashEncode_injective {a b : Buffer} (h : hashEncode a = hashEncode b) : a = b := by
  unfold hashEncode at h
  have := congrArg bufferFromHex h
  rw [bufferFromHex_toHex, bufferFromHex_toHex] at this
  exact List.reverse_injective (Option.some.inj this)

theorem referenceFold_4 :
    merkleFoldSpec 1 (List.replicate 4 (List.replicate 32 17)) 0 (List.replicate 32 0)
      = (bufferFromHex
          "f6361e220ab57d650e8905b685904275ea340e29543e2ec4ae5cac51c82bbd9b".toList).getD [] := by
  decide!

theorem referenceFold_8 :
    merkleFoldSpec 1 (List.replicate 4 (List.replicate 32 17)) 4
        ((bufferFromHex
          "f6361e220ab57d650e8905b685904275ea340e29543e2ec4ae5cac51c82bbd9b".toList).getD [])
      = (bufferFromHex
          "5dfc09b462116642357503df307154883bb8db0ead8b7373e8207b25006dec72".toList).getD [] := by
  decide!

theorem referenceFold_12 :
    merkleFoldSpec 1 (List.replicate 4 (List.replicate 32 17)) 8
        ((bufferFromHex
          "5dfc09b462116642357503df307154883bb8db0ead8b7373e8207b25006dec72".toList).getD [])
      = (bufferFromHex
          "6c15eae76c8865023172712a69e861c04269b1b803bb1271b615024268dc5a6b".toList).getD [] := by
  decide!

theorem referenceFold_16 :
    merkleFoldSpec 1 (List.replicate 4 (List.replicate 32 17)) 12
        ((bufferFromHex
          "6c15eae76c8865023172712a69e861c04269b1b803bb1271b615024268dc5a6b".toList).getD [])
      = (bufferFromHex
          "775cb5a60ff84bd28dd581631d327f4efcb84af42a51ffa7751528cb86d45bce".toList).getD [] := by
  decide!

theorem referenceFold_20 :
    merkleFoldSpec 1 (List.replicate 4 (List.replicate 32 17)) 16
        ((bufferFromHex
          "775cb5a60ff84bd28dd581631d327f4efcb84af42a51ffa7751528cb86d45bce".toList).getD [])
      = (bufferFromHex
          "a81d247cc7c686257cfb3cadb04cd19929e9773be769c86952586a03587c34c9".toList).getD [] := by
  decide!

theorem referenceFold_24 :
    merkleFoldSpec 1 (List.replicate 4 (List.replicate 32 17)) 20
        ((bufferFromHex
          "a81d247cc7c686257cfb3cadb04cd19929e9773be769c86952586a03587c34c9".toList).getD [])
      = (bufferFromHex
          "046ea6ad764432ea9e0f7e7728270b4b6b45fae78968c6f0a4442eb7fe043a2f".toList).getD [] := by
  decide!

theorem referenceFold_28 :
    merkleFoldSpec 1 (List.replicate 4 (List.replicate 32 17)) 24
        ((bufferFromHex
          "046ea6ad764432ea9e0f7e7728270b4b6b45fae78968c6f0a4442eb7fe043a2f".toList).getD [])
      = (bufferFromHex
          "aa6f9eb5b67323df8b27433c07da48dbb67c04bdd09cd5e19c4ca1a244006e3e".toList).getD [] := by
  decide!

theorem referenceFold_32 :
    merkleFoldSpec 1 (List.replicate 4 (List.replicate 32 17)) 28
        ((bufferFromHex
          "aa6f9eb5b67323df8b27433c07da48dbb67c04bdd09cd5e19c4ca1a244006e3e".toList).getD [])
      = (bufferFromHex
          "7bd37e553d0a273fadc2bb945738635a4ff34e7a2722b303de7a94a98bc5dae2".toList).getD [] := by
  decide!

theorem referenceFold_first_32 :
    merkleFoldSpec 1 (List.replicate 32 (List.replicate 32 17)) 0 (List.replicate 32 0)
      = (bufferFromHex
          "7bd37e553d0a273fadc2bb945738635a4ff34e7a2722b303de7a94a98bc5dae2".toList).getD [] := by
  have e : List.replicate 32 (List.replicate 32 (17 : Byte))
      = List.replicate 4 (List.replicate 32 17) ++
        (List.replicate 4 (List.replicate 32 17) ++
        (List.replicate 4 (List.replicate 32 17) ++
        (List.replicate 4 (List.replicate 32 17) ++
        (List.replicate 4 (List.replicate 32 17) ++
        (List.replicate 4 (List.replicate 32 17) ++
        (List.replicate 4 (List.replicate 32 17) ++
        (List.replicate 4 (List.replicate 32 17)))))))) :=
    rfl
  rw [e, merkleFoldSpec_append, merkleFoldSpec_append, merkleFoldSpec_append, merkleFoldSpec_append, merkleFoldSpec_append, merkleFoldSpec_append, merkleFoldSpec_append, referenceFold_4]
  simp only [List.length_replicate, Nat.zero_add]
  rw [referenceFold_8, referenceFold_12, referenceFold_16, referenceFold_20, referenceFold_24, referenceFold_28, referenceFold_32]

theorem last_step_differs :
    hash256 (List.replicate 32 17 ++ (bufferFromHex
        "7bd37e553d0a273fadc2bb945738635a4ff34e7a2722b303de7a94a98bc5dae2".toList).getD [])
      ≠ hash256 ((bufferFromHex
        "7bd37e553d0a273fadc2bb945738635a4ff34e7a2722b303de7a94a98bc5dae2".toList).getD []
          ++ List.replicate 32 17) := by
  decide!

/-! ## Lemmas on the verification of a transaction -/

theorem keepsTx_pure {α : Type} (a : α) : KeepsTx (pure a : Run α) := fun _ => ⟨rfl, rfl⟩

theorem keepsTx_throw {α : Type} (e : Err) : KeepsTx (throw e : Run α) := fun _ => ⟨rfl, rfl⟩

theorem keepsTx_liftExcept {α : Type} (x : Except Err α) : KeepsTx (liftExcept x) :=
  fun _ => ⟨rfl, rfl⟩

theorem keepsTx_getState : KeepsTx getState := fun _ => ⟨rfl, rfl⟩

theorem keepsTx_bind {α β : Type} {m : Run α} {f : α → Run β} (hm : KeepsTx m)
    (hf : ∀ a, KeepsTx (f a)) : KeepsTx (m >>= f) := by
  intro s
  rw [run_bind]
  have h1 := hm s
  split
  · rename_i a s1 heq
    rw [heq] at h1
    have h2 := hf a s1
    exact ⟨h2.1.trans h1.1, h2.2.trans h1.2⟩
  · rename_i e s1 heq
    rw [heq] at h1
    exact h1

theorem keepsTx_newBuffer (hex : List Char) : KeepsTx (newBuffer hex) := by
  unfold newBuffer
  split
  · exact keepsTx_throw _
  · exact keepsTx_pure _

theorem keepsTx_networkGetChunk (env : Env) (index : Int) :
    KeepsTx (networkGetChunk env index) := fun _ => ⟨rfl, rfl⟩

theorem keepsTx_modifyCache (f : State → LRU) :
    KeepsTx (modifyState fun s => { s with headerCache := f s }) := fun _ => ⟨rfl, rfl⟩

theorem keepsTx_waitHeight (height : Int) : KeepsTx (_waitHeight height) := by
  unfold _waitHeight
  refine keepsTx_bind keepsTx_getState (fun s => ?_)
  split
  · exact keepsTx_pure _
  · exact keepsTx_throw _

theorem keepsTx_getVerifiedChunk (env : Env) (chunkIndex : Int) :
    KeepsTx (_getVerifiedChunk env chunkIndex) := by
  unfold _getVerifiedChunk
  refine keepsTx_bind (keepsTx_networkGetChunk _ _) (fun chunkHex => ?_)
  refine keepsTx_bind (keepsTx_newBuffer _) (fun chunk => ?_)
  refine keepsTx_bind keepsTx_getState (fun s => ?_)
  split
  · exact keepsTx_throw _
  · refine keepsTx_bind (keepsTx_modifyCache _) (fun _ => ?_)
    exact keepsTx_pure _

theorem keepsTx_getVerifiedHeader (env : Env) (height : Int) :
    KeepsTx (_getVerifiedHeader env height) := by
  unfold _getVerifiedHeader
  refine keepsTx_bind keepsTx_getState (fun s => ?_)
  refine keepsTx_bind (keepsTx_modifyCache _) (fun _ => ?_)
  split
  · exact keepsTx_pure _
  · refine keepsTx_bind keepsTx_getState (fun s => ?_)
    refine keepsTx_bind ?_ (fun _ => ?_)
    · split
      · exact keepsTx_waitHeight _
      · exact keepsTx_pure _
    · refine keepsTx_bind keepsTx_getState (fun s => ?_)
      split
      · split
        · exact keepsTx_throw _
        · split
          · exact keepsTx_throw _
          · exact keepsTx_newBuffer _
      · refine keepsTx_bind (keepsTx_getVerifiedChunk _ _) (fun _ => ?_)
        exact keepsTx_pure _

theorem run_liftExcept {α : Type} (x : Except Err α) (s : State) : liftExcept x s = (x, s) :=
  rfl

theorem run_getState (s : State) : getState s = (Except.ok s, s) := rfl

theorem run_modifyState (f : State → State) (s : State) :
    modifyState f s = (Except.ok (), f s) := rfl

theorem txCache_get_none {c : TxCache} {key : List Char} (h : (c.get key).1 = none) :
    (c.get key).2 = c := by
  unfold TxCache.get at h ⊢
  cases hf : c.items.find? (fun e => decide (e.1 = key)) with
  | none => rfl
  | some e => rw [hf] at h; cases h

theorem find_filter_ne (l : List (List Char × Except Err TxResult)) (txId : List Char) :
    (l.filter (fun e => decide (e.1 ≠ txId))).find? (fun e => decide (e.1 = txId)) = none := by
  rw [List.find?_eq_none]
  intro x hx
  simp only [List.mem_filter, decide_eq_true_eq] at hx
  simp only [decide_eq_true_eq]
  exact hx.2

/-! ## Lemmas on the validation of the candidates -/

theorem noint_tryCatch {α : Type} {m : Run α} {h : Err → Run α} (hm : NoInterrupt m)
    (hh : ∀ e, e ≠ Err.LoopInterrupt → NoInterrupt (h e)) : NoInterrupt (tryCatch m h) := by
  intro s
  rw [run_tryCatch]
  have h1 := hm s
  split
  · rename_i a s1 heq
    intro hc
    cases hc
  · rename_i e s1 heq
    rw [heq] at h1
    exact hh e (fun he => h1 (by rw [he])) s1

theorem getTarget_error (index : Int) (firstHeader : Header) (lastHeader : Option Header)
    (e : Err) (h : getTarget index firstHeader lastHeader = Except.error e) :
    e = Err.TypeError := by
  unfold getTarget at h
  split at h
  · cases h
  · cases lastHeader with
    | none =>
      simp only [throw, throwThe, MonadExceptOf.throw, Except.error.injEq] at h
      exact h.symm
    | some l =>
      simp only [retarget] at h
      split at h
      · simp only [throw, throwThe, MonadExceptOf.throw, Except.error.injEq] at h
        exact h.symm
      · cases h

theorem verifyHeader_error (isTestnet : Bool) (currentHash : Buffer) (currentHeader : Header)
    (prevHash : Buffer) (prevHeader : Option Header) (target : Target) (e : Err)
    (h : verifyHeader isTestnet currentHash currentHeader prevHash prevHeader target
      = Except.error e) : e = Err.VerifyError ∨ e = Err.TypeError := by
  rw [verifyHeader_eq_tree] at h
  unfold verifyHeaderTree at h
  split at h
  · split at h
    · cases h
    · split at h
      · simp only [Except.error.injEq] at h
        exact Or.inr h.symm
      · split at h
        · split at h
          · cases h
          · simp only [Except.error.injEq] at h
            exact Or.inl h.symm
        · simp only [Except.error.injEq] at h
          exact Or.inl h.symm
  · simp only [Except.error.injEq] at h
    exact Or.inl h.symm

theorem noint_getTargetAt (env : Env) (index : Int) (chain : List ChainItem) :
    NoInterrupt (getTargetAt env index chain) := by
  unfold getTargetAt
  split
  · exact noint_pure _
  · refine noint_bind (noint_getVerifiedHeader _ _) (fun _ => ?_)
    refine noint_bind (noint_buffer2header _) (fun _ => ?_)
    refine noint_bind (noint_tryCatch ?_ ?_) (fun _ => ?_)
    · refine noint_bind (noint_getVerifiedHeader _ _) (fun _ => ?_)
      refine noint_bind (noint_buffer2header _) (fun _ => ?_)
      exact noint_pure _
    · intro e he
      split
      · exact noint_throw he
      · exact noint_pure _
    · exact noint_liftExcept (fun h => by have := getTarget_error _ _ _ _ h; cases this)

theorem noint_verifyChain (env : Env) (chain : List ChainItem) (rest : List ChainItem) :
    ∀ prevHash prevHeader, NoInterrupt (verifyChain env chain rest prevHash prevHeader) := by
  induction rest with
  | nil =>
    intro prevHash prevHeader
    unfold verifyChain
    exact noint_pure _
  | cons data rest ih =>
    intro prevHash prevHeader
    unfold verifyChain
    refine noint_bind (noint_getTargetAt _ _ _) (fun _ => ?_)
    refine noint_bind (noint_header2buffer _) (fun _ => ?_)
    refine noint_bind (noint_liftExcept (fun h => ?_)) (fun _ => ?_)
    · rcases verifyHeader_error _ _ _ _ _ _ _ h with h1 | h1 <;> cases h1
    · exact ih _ _

/-! ## Lemmas on the listener of `newHeight` -/

theorem listener_fold (l : List (List Char × TxEntry)) :
    ∀ acc : TxCache,
      (l.foldl (fun cache e => if e.2.height = 0 then cache.del e.1 else cache) acc).items
        = acc.items.filter
            (fun x => decide (∀ e ∈ l, e.2.height = 0 → x.1 ≠ e.1)) ∧
      (l.foldl (fun cache e => if e.2.height = 0 then cache.del e.1 else cache) acc).max
        = acc.max := by
  induction l with
  | nil =>
    intro acc
    simp
  | cons e rest ih =>
    intro acc
    simp only [List.foldl_cons]
    by_cases h0 : e.2.height = 0
    · rw [if_pos h0]
      obtain ⟨i1, i2⟩ := ih (acc.del e.1)
      refine ⟨?_, by rw [i2]; rfl⟩
      rw [i1]
      simp only [TxCache.del, List.filter_filter]
      apply List.filter_congr
      intro x _
      simp only [List.mem_cons, forall_eq_or_imp, h0, true_implies, Bool.decide_and,
        ne_eq, decide_not]
      rw [Bool.and_comm]
    · rw [if_neg h0]
      obtain ⟨i1, i2⟩ := ih acc
      refine ⟨?_, i2⟩
      rw [i1]
      apply List.filter_congr
      intro x _
      simp only [List.mem_cons, forall_eq_or_imp, h0, false_implies, true_and]

theorem eq_of_nodup_keys {l : List (List Char × TxEntry)} (hn : (l.map Prod.fst).Nodup)
    {x y : List Char × TxEntry} (hx : x ∈ l) (hy : y ∈ l) (hk : x.1 = y.1) : x = y := by
  induction l with
  | nil => cases hx
  | cons a rest ih =>
    simp only [List.map_cons, List.nodup_cons, List.mem_map, not_exists, not_and] at hn
    simp only [List.mem_cons] at hx hy
    rcases hx with rfl | hx
    · rcases hy with rfl | hy
      · rfl
      · exact absurd hk.symm (hn.1 y hy)
    · rcases hy with rfl | hy
      · exact absurd hk (hn.1 x hx)
      · exact ih hn.2 hx hy

theorem newHeightListener_items (cache : TxCache) (hw : cache.WellFormed) :
    (newHeightListener cache).items = cache.items.filter (fun x => decide (x.2.height ≠ 0)) ∧
      (newHeightListener cache).max = cache.max := by
  unfold newHeightListener TxCache.forEach
  obtain ⟨i1, i2⟩ := listener_fold cache.items cache
  refine ⟨?_, i2⟩
  rw [i1]
  apply List.filter_congr
  intro x hx
  simp only [decide_eq_decide]
  constructor
  · intro h h0
    exact h x hx h0 rfl
  · intro h e he h0 hk
    have := eq_of_nodup_keys hw hx he hk
    subst this
    exact h h0

/-! ## Lemmas on the look-up of a header and on the chunk requests -/

theorem headerCache_get_none {c : LRU} {key : Int} (h : (c.get key).1 = none) :
    (c.get key).2 = c := by
  unfold LRU.get at h ⊢
  cases hf : c.items.find? (fun e => decide (e.1 = key)) with
  | none => rfl
  | some e => rw [hf] at h; cases h

theorem requestVerifiedChunk_running (chunkIndex : Int) (p : Nat) (t : ChunkRequests)
    (h : t.running.find? (fun e => decide (e.1 = chunkIndex)) = some (chunkIndex, p)) :
    requestVerifiedChunk chunkIndex t = (p, t) := by
  unfold requestVerifiedChunk
  rw [h]

theorem requestVerifiedChunkTimes_running (chunkIndex : Int) (p : Nat) (n : Nat) :
    ∀ t : ChunkRequests,
      t.running.find? (fun e => decide (e.1 = chunkIndex)) = some (chunkIndex, p) →
        requestVerifiedChunkTimes chunkIndex n t = (List.replicate n p, t) := by
  induction n with
  | zero =>
    intro t _
    rfl
  | succ k ih =>
    intro t h
    unfold requestVerifiedChunkTimes
    simp only [requestVerifiedChunk_running chunkIndex p t h, ih t h, List.replicate_succ]

theorem find_filter_ne_chunk (l : List (Int × Nat)) (chunkIndex : Int) :
    (l.filter (fun e => decide (e.1 ≠ chunkIndex))).find? (fun e => decide (e.1 = chunkIndex))
      = none := by
  rw [List.find?_eq_none]
  intro x hx
  simp only [List.mem_filter, decide_eq_true_eq] at hx
  simp only [decide_eq_true_eq]
  exact hx.2

/-! ## Lemmas on the decoding and encoding of a buffer -/

theorem toHex_length (b : Buffer) : (toHex b).length = 2 * b.length := by
  induction b with
  | nil => rfl
  | cons x xs ih =>
    simp only [toHex, byteToHex, List.length_append, List.length_cons, List.length_nil, ih]
    omega

theorem writeUInt32LE_readUInt32LE (v : Buffer) (h : v.length = 4) :
    writeUInt32LE (readUInt32LE v) = Except.ok v := by
  match v, h with
  | [a, b, c, d], _ =>
    have ha := a.isLt
    have hb := b.isLt
    have hc := c.isLt
    have hd := d.isLt
    have hr : readUInt32LE [a, b, c, d]
        = a.val + 256 * b.val + 65536 * c.val + 16777216 * d.val := rfl
    rw [hr]
    unfold writeUInt32LE
    rw [if_pos (by omega)]
    have e1 : (a.val + 256 * b.val + 65536 * c.val + 16777216 * d.val) % 256 = a.val := by omega
    have e2 : (a.val + 256 * b.val + 65536 * c.val + 16777216 * d.val) / 256 % 256 = b.val := by
      omega
    have e3 : (a.val + 256 * b.val + 65536 * c.val + 16777216 * d.val) / 65536 % 256 = c.val := by
      omega
    have e4 : (a.val + 256 * b.val + 65536 * c.val + 16777216 * d.val) / 16777216 % 256
        = d.val := by omega
    have f : ∀ x : Byte, (Fin.ofNat x.val : Byte) = x := by
      intro x
      apply Fin.ext
      simp only [Fin.ofNat]
      have := x.isLt
      omega
    rw [e1, e2, e3, e4, f, f, f, f]
    rfl

theorem split_80 (b : Buffer) (h : b.length = 80) :
    ∃ v p m t bi n : Buffer, b = v ++ p ++ m ++ t ++ bi ++ n ∧ v.length = 4 ∧ p.length = 32 ∧
      m.length = 32 ∧ t.length = 4 ∧ bi.length = 4 ∧ n.length = 4 := by
  refine ⟨b.take 4, (b.drop 4).take 32, (b.drop 36).take 32, (b.drop 68).take 4,
    (b.drop 72).take 4, b.drop 76, ?_, ?_, ?_, ?_, ?_, ?_, ?_⟩
  · have e1 : b.drop 76 = (b.drop 72).drop 4 := by rw [List.drop_drop]
    have e2 : b.drop 72 = (b.drop 68).drop 4 := by rw [List.drop_drop]
    have e3 : b.drop 68 = (b.drop 36).drop 32 := by rw [List.drop_drop]
    have e4 : b.drop 36 = (b.drop 4).drop 32 := by rw [List.drop_drop]
    simp only [List.append_assoc]
    rw [e1, List.take_append_drop, e2, List.take_append_drop, e3, List.take_append_drop, e4,
      List.take_append_drop, List.take_append_drop]
  all_goals simp only [List.length_take, List.length_drop, h]
  all_goals omega

/-! ## Lemmas on the compact encoding of a target -/

theorem toByteArrayUnsignedAux_acc (fuel : Nat) :
    ∀ (n : Nat) (acc : Buffer),
      toByteArrayUnsignedAux fuel n acc = toByteArrayUnsignedAux fuel n [] ++ acc := by
  induction fuel with
  | zero =>
    intro n acc
    simp [toByteArrayUnsignedAux]
  | succ k ih =>
    intro n acc
    unfold toByteArrayUnsignedAux
    by_cases hn : n = 0
    · simp [hn]
    · rw [if_neg hn, if_neg hn, ih (n / 256) (_ :: acc), ih (n / 256) [_]]
      simp

theorem toByteArrayUnsignedAux_fuel (f1 : Nat) :
    ∀ (f2 n : Nat) (acc : Buffer), n ≤ f1 → n ≤ f2 →
      toByteArrayUnsignedAux f1 n acc = toByteArrayUnsignedAux f2 n acc := by
  induction f1 with
  | zero =>
    intro f2 n acc h1 _
    have : n = 0 := by omega
    subst this
    cases f2 <;> simp [toByteArrayUnsignedAux]
  | succ k ih =>
    intro f2 n acc h1 h2
    cases f2 with
    | zero =>
      have : n = 0 := by omega
      subst this
      simp [toByteArrayUnsignedAux]
    | succ j =>
      unfold toByteArrayUnsignedAux
      by_cases hn : n = 0
      · simp [hn]
      · rw [if_neg hn, if_neg hn]
        have : n / 256 < n := Nat.div_lt_self (by omega) (by decide)
        exact ih j (n / 256) _ (by omega) (by omega)

theorem toByteArrayUnsigned_pos (n : Nat) (hn : 0 < n) :
    toByteArrayUnsigned n = toByteArrayUnsigned (n / 256) ++ [Fin.ofNat (n % 256)] := by
  unfold toByteArrayUnsigned
  obtain ⟨m, rfl⟩ : ∃ m, n = m + 1 := ⟨n - 1, by omega⟩
  rw [toByteArrayUnsignedAux]
  rw [if_neg (by omega), toByteArrayUnsignedAux_acc]
  have : (m + 1) / 256 < m + 1 := Nat.div_lt_self (by omega) (by decide)
  rw [toByteArrayUnsignedAux_fuel m ((m + 1) / 256) ((m + 1) / 256) [] (by omega) (le_refl _)]

theorem toByteArrayUnsigned_zero : toByteArrayUnsigned 0 = [] := rfl

theorem toByteArrayUnsigned_mul_pow (n : Nat) (hn : 0 < n) (k : Nat) :
    toByteArrayUnsigned (n * 256 ^ k) = toByteArrayUnsigned n ++ List.replicate k 0 := by
  induction k with
  | zero => simp
  | succ j ih =>
    have hpos : 0 < n * 256 ^ (j + 1) := Nat.mul_pos hn (Nat.pow_pos (by decide))
    rw [toByteArrayUnsigned_pos _ hpos]
    have e1 : n * 256 ^ (j + 1) / 256 = n * 256 ^ j := by
      rw [pow_succ, ← Nat.mul_assoc, Nat.mul_div_cancel _ (by decide)]
    have e2 : n * 256 ^ (j + 1) % 256 = 0 := by
      rw [pow_succ, ← Nat.mul_assoc, Nat.mul_mod_left]
    rw [e1, e2, ih, List.append_assoc]
    congr 1
    rw [List.replicate_succ']
    rfl

theorem toHex_append (x y : Buffer) : toHex (x ++ y) = toHex x ++ toHex y := by
  induction x with
  | nil => rfl
  | cons a as ih =>
    show byteToHex a ++ toHex (as ++ y) = (byteToHex a ++ toHex as) ++ toHex y
    rw [ih, List.append_assoc]

theorem toHex_replicate_zero (k : Nat) :
    toHex (List.replicate k (0 : Byte)) = List.replicate (2 * k) '0' := by
  induction k with
  | zero => rfl
  | succ j ih =>
    rw [List.replicate_succ, toHex, ih]
    have : 2 * (j + 1) = (2 * j + 1) + 1 := by omega
    rw [this, List.replicate_succ, List.replicate_succ]
    rfl

theorem stripZeroBytes_zeros (m : Nat) :
    ∀ (s : List Char) (i : Int),
      stripZeroBytes (List.replicate (2 * m) '0' ++ s) i = stripZeroBytes s (i - m) := by
  induction m with
  | zero =>
    intro s i
    simp
  | succ j ih =>
    intro s i
    have : 2 * (j + 1) = (2 * j + 1) + 1 := by omega
    rw [this, List.replicate_succ, List.replicate_succ]
    simp only [List.cons_append]
    rw [stripZeroBytes]
    rw [if_pos ⟨rfl, rfl⟩, ih]
    congr 1
    push_cast
    omega

theorem hexDigit_ne_zero {x : Nat} (hx : x < 16) (h0 : x ≠ 0) : hexDigit x ≠ '0' := by
  intro h
  have := hexVal_hexDigit ⟨x, hx⟩
  simp only at this
  rw [h] at this
  have h2 : hexVal '0' = some 0 := by decide
  rw [h2] at this
  simp only [Option.some.injEq] at this
  exact h0 this.symm

theorem stripZeroBytes_toHex (b : Byte) (bs : Buffer) (s : List Char) (i : Int)
    (hb : b.val ≠ 0) :
    stripZeroBytes (toHex (b :: bs) ++ s) i = (toHex (b :: bs) ++ s, i) := by
  have hl := b.isLt
  simp only [toHex, byteToHex, List.cons_append, List.nil_append]
  rw [stripZeroBytes]
  rw [if_neg]
  intro ⟨h1, h2⟩
  by_cases hq : b.val / 16 = 0
  · exact hexDigit_ne_zero (Nat.mod_lt _ (by decide)) (by omega) h2
  · exact hexDigit_ne_zero (by omega) hq h1

theorem parseIntHex_three (x y z : Byte) :
    parseIntHex (toHex [x, y, z]) = some ((x.val * 65536 + y.val * 256 + z.val : Nat) : Int) := by
  have hx := x.isLt
  have hy := y.isLt
  have hz := z.isLt
  have d : ∀ n : Nat, n < 16 → hexVal (hexDigit n) = some n :=
    fun n hn => hexVal_hexDigit ⟨n, hn⟩
  simp only [toHex, byteToHex, List.cons_append, List.nil_append, List.append_nil, parseIntHex,
    parseIntHexAux, d (x.val / 16) (by omega), d (x.val % 16) (by omega),
    d (y.val / 16) (by omega), d (y.val % 16) (by omega), d (z.val / 16) (by omega),
    d (z.val % 16) (by omega), Option.getD_none, Option.getD_some]
  congr 1
  push_cast
  omega

theorem bytes_of_three (a : Nat) (h1 : 0x10000 ≤ a) (h2 : a < 0x1000000) :
    toByteArrayUnsigned a
      = [Fin.ofNat (a / 65536), Fin.ofNat (a / 256 % 256), Fin.ofNat (a % 256)] := by
  rw [toByteArrayUnsigned_pos a (by omega), toByteArrayUnsigned_pos (a / 256) (by omega),
    toByteArrayUnsigned_pos (a / 256 / 256) (by omega)]
  have e1 : a / 256 / 256 / 256 = 0 := by omega
  have e2 : a / 256 / 256 % 256 = a / 65536 := by omega
  rw [e1, e2, toByteArrayUnsigned_zero]
  rfl

theorem bytes_of_two (a : Nat) (h1 : 0x100 ≤ a) (h2 : a < 0x10000) :
    toByteArrayUnsigned a = [Fin.ofNat (a / 256), Fin.ofNat (a % 256)] := by
  rw [toByteArrayUnsigned_pos a (by omega), toByteArrayUnsigned_pos (a / 256) (by omega)]
  have e1 : a / 256 / 256 = 0 := by omega
  have e2 : a / 256 % 256 = a / 256 := by omega
  rw [e1, e2, toByteArrayUnsigned_zero]
  rfl

/-- The steps of `encodeBits` on a target whose bytes are `x, y, z` followed by `k` others. -/
theorem encodeBits_of_bytes (target : Nat) (x y z : Byte) (rest : Buffer) (hx : x.val ≠ 0)
    (hb : toByteArrayUnsigned target = x :: y :: z :: rest) (hl : rest.length ≤ 29) :
    encodeBits target =
      (if ((x.val * 65536 + y.val * 256 + z.val : Nat) : Int) > 0x800000 then
        some (((x.val * 65536 + y.val * 256 + z.val : Nat) : Int) / 256
          + (MM : Int) * ((rest.length : Int) + 3 + 1))
      else
        some (((x.val * 65536 + y.val * 256 + z.val : Nat) : Int)
          + (MM : Int) * ((rest.length : Int) + 3))) := by
  have hhex : bigToHex target = toHex (x :: ([y, z] ++ rest)) := by
    unfold bigToHex
    rw [hb]
    rfl
  have hlen : (bigToHex target).length = 2 * (rest.length + 3) := by
    rw [hhex, toHex_length]
    simp
  have hz : zfill (bigToHex target) 64
      = List.replicate (2 * (29 - rest.length)) '0' ++ (toHex (x :: ([y, z] ++ rest)) ++ []) := by
    unfold zfill
    rw [hlen, ← hhex, List.append_nil]
    congr 2
    omega
  have hs : stripZeroBytes (zfill (bigToHex target) 64) 32
      = (toHex (x :: ([y, z] ++ rest)) ++ [], (rest.length : Int) + 3) := by
    rw [hz, stripZeroBytes_zeros, stripZeroBytes_toHex x _ _ _ hx]
    congr 1
    omega
  have ht : (toHex (x :: ([y, z] ++ rest)) ++ []).take 6 = toHex [x, y, z] := by
    have e : toHex (x :: ([y, z] ++ rest)) = toHex [x, y, z] ++ toHex rest :=
      toHex_append [x, y, z] rest
    rw [List.append_nil, e]
    exact List.take_left' (by rw [toHex_length]; rfl)
  unfold encodeBits
  simp only [hs, ht, parseIntHex_three]
  split <;> simp

theorem fin_ofNat_val (n : Nat) (h : n < 256) : (Fin.ofNat n : Byte).val = n := by
  show n % 256 = n
  omega

/-- A target `a * 256 ^ k` with a mantissa of two or three bytes, the top bit of three bytes
clear, is encoded as the mantissa and the exponent `k + 3`. -/
theorem encodeBits_stable (a k : Nat) (hk1 : 1 ≤ k) (hk2 : k ≤ 26) (ha1 : 0x8000 < a)
    (ha2 : a < 0x800000) :
    encodeBits (a * 256 ^ k) = some ((a : Int) + (MM : Int) * ((k : Int) + 3)) := by
  by_cases h3 : 0x10000 ≤ a
  · have hb : toByteArrayUnsigned (a * 256 ^ k)
        = Fin.ofNat (a / 65536) :: Fin.ofNat (a / 256 % 256) :: Fin.ofNat (a % 256)
            :: List.replicate k 0 := by
      rw [toByteArrayUnsigned_mul_pow a (by omega) k, bytes_of_three a h3 (by omega)]
      rfl
    have hx : (Fin.ofNat (a / 65536) : Byte).val ≠ 0 := by
      rw [fin_ofNat_val _ (by omega)]
      omega
    rw [encodeBits_of_bytes _ _ _ _ _ hx hb (by simp; omega)]
    rw [fin_ofNat_val _ (by omega), fin_ofNat_val _ (by omega), fin_ofNat_val _ (by omega)]
    have hv : a / 65536 * 65536 + a / 256 % 256 * 256 + a % 256 = a := by omega
    rw [hv, if_neg (by omega)]
    simp
  · obtain ⟨j, rfl⟩ : ∃ j, k = j + 1 := ⟨k - 1, by omega⟩
    have hb : toByteArrayUnsigned (a * 256 ^ (j + 1))
        = Fin.ofNat (a / 256) :: Fin.ofNat (a % 256) :: 0 :: List.replicate j 0 := by
      rw [toByteArrayUnsigned_mul_pow a (by omega) (j + 1), bytes_of_two a (by omega) (by omega)]
      rfl
    have hx : (Fin.ofNat (a / 256) : Byte).val ≠ 0 := by
      rw [fin_ofNat_val _ (by omega)]
      omega
    rw [encodeBits_of_bytes _ _ _ _ _ hx hb (by simp; omega)]
    rw [fin_ofNat_val _ (by omega), fin_ofNat_val _ (by omega)]
    have hv : a / 256 * 65536 + a % 256 * 256 + (0 : Byte).val = a * 256 := by
      show a / 256 * 65536 + a % 256 * 256 + 0 = a * 256
      omega
    rw [hv, if_pos (by push_cast; omega)]
    simp only [List.length_replicate, Option.some.injEq]
    push_cast
    have : (a : Int) * 256 / 256 = a := by omega
    rw [this]
    ring

theorem decodeBits_stable (bits : Nat) (h1 : 3 ≤ bits / 16777216)
    (hm : 0x8000 ≤ bits % 16777216) :
    decodeBits bits = bits % 16777216 * 256 ^ (bits / 16777216 - 3) := by
  have hMM : MM = 16777216 := rfl
  unfold decodeBits
  simp only [hMM]
  rw [if_neg (by omega)]
  unfold bigPow
  by_cases h : bits / 16777216 = 3
  · rw [h]
    simp
  · rw [if_neg (by omega)]
    have : (8 * (((bits / 16777216 : Nat) : Int) - 3)).toNat = 8 * (bits / 16777216 - 3) := by
      omega
    rw [this, pow_mul]
    rfl

/-! ## Lemmas on the clamped span, on the spelling of ids and on header objects -/

/-- The span that the code uses is the difference of the two timestamps clamped into
`[302400, 4838400]`. -/
theorem actualTimestamp_clamped (firstHeader lastHeader : Header) :
    actualTimestamp firstHeader lastHeader
      = (if (lastHeader.timestamp : Int) - (firstHeader.timestamp : Int) < 302400 then 302400
        else if (lastHeader.timestamp : Int) - (firstHeader.timestamp : Int) > 4838400 then
          4838400
        else (lastHeader.timestamp : Int) - (firstHeader.timestamp : Int)) := by
  simp only [actualTimestamp, nTargetTimestamp]
  split
  · omega
  · split <;> omega

/-- The `merkleRoot` of a decoded header is the hexadecimal form of a buffer. -/
theorem buffer2header_merkleRoot (buffer : Buffer) (header : Header)
    (h : buffer2header buffer = Except.ok header) :
    header.merkleRoot = toHex (slice buffer 36 68).reverse := by
  unfold buffer2header at h
  split at h
  · cases h
  · cases h
    rfl

/-- A hexadecimal string that decodes denotes the same bytes as the hexadecimal form of a
buffer exactly when its lower-case form is that hexadecimal form. -/
theorem hashDecode_eq_iff (s : List Char) (hash m : Buffer) (hs : hashDecode s = some hash) :
    hashDecode s = hashDecode (toHex m) ↔ lowerHex s = toHex m := by
  unfold hashDecode at hs ⊢
  rw [bufferFromHex_toHex]
  cases hb : bufferFromHex s with
  | none => rw [hb] at hs; cases hs
  | some b =>
    have hl := (toHex_bufferFromHex s.length s b (le_refl _) hb).1
    rw [← hl]
    simp only [Option.map_some', Option.some.injEq, List.reverse_inj]
    constructor
    · intro e
      rw [e]
    · intro e
      have h1 := bufferFromHex_toHex b
      rw [e, bufferFromHex_toHex] at h1
      exact (Option.some.inj h1).symm

/-- The id written `AA…A` (64 upper-case digits), with an empty branch and the index 0,
verifies against the header encoded from `upperCaseHeader`, whose decoded `merkleRoot` is
`aa…a`: the two strings differ and are two spellings of one 32-byte id. -/
theorem empty_branch_verifies_other_spelling :
    ∃ buffer header, header2buffer upperCaseHeader = Except.ok buffer ∧
      buffer2header buffer = Except.ok header ∧
      (computeMerkleRoot txIdUpper { height := 0, merkle := [], index := 0 }
        >>= checkMerkleRoot buffer) = Except.ok () ∧
      txIdUpper ≠ header.merkleRoot := by
  refine ⟨(header2buffer upperCaseHeader).toOption.getD [],
    lowerCaseHashes upperCaseHeader, by decide, by decide, by decide, by decide⟩

theorem writeUInt32LENumber_integer (n : Nat) :
    writeUInt32LENumber (JsNumber.integer (n : Int)) = writeUInt32LE n := by
  unfold writeUInt32LENumber
  simp

theorem writeUInt32LENumber_ok (value : JsNumber) (b : Buffer)
    (h : writeUInt32LENumber value = Except.ok b) :
    ∃ n : Nat, value = JsNumber.integer (n : Int) := by
  cases value with
  | integer v =>
    unfold writeUInt32LENumber at h
    simp only at h
    by_cases hv : 0 ≤ v
    · exact ⟨v.toNat, by rw [Int.toNat_of_nonneg hv]⟩
    · rw [if_neg hv] at h
      cases h
  | fractional _ => cases h
  | nan => cases h
  | infinity _ => cases h

theorem except_bind_ok {α β : Type} {x : Except Err α} {f : α → Except Err β} {b : β}
    (h : (x >>= f) = Except.ok b) : ∃ a, x = Except.ok a ∧ f a = Except.ok b := by
  cases x with
  | error e => cases h
  | ok a => exact ⟨a, rfl, h⟩

theorem header2bufferObject_toObject (x : Header) :
    header2bufferObject x.toObject = header2buffer x := by
  unfold header2bufferObject header2buffer Header.toObject
  simp only [writeUInt32LENumber_integer]

theorem header2bufferObject_ok (h : HeaderObject) (buffer : Buffer)
    (e : header2bufferObject h = Except.ok buffer) : ∃ x : Header, h = x.toObject := by
  obtain ⟨version, prev, merkle, timestamp, bits, nonce⟩ := h
  unfold header2bufferObject at e
  simp only at e
  cases prev with
  | none => cases e
  | some p =>
    simp only at e
    split at e
    · cases e
    · cases merkle with
      | none => cases e
      | some m =>
        simp only at e
        split at e
        · cases e
        · obtain ⟨v, e1, e⟩ := except_bind_ok e
          obtain ⟨_, _, e⟩ := except_bind_ok e
          obtain ⟨_, _, e⟩ := except_bind_ok e
          obtain ⟨t, e2, e⟩ := except_bind_ok e
          obtain ⟨b, e3, e⟩ := except_bind_ok e
          obtain ⟨n, e4, e⟩ := except_bind_ok e
          obtain ⟨nv, rfl⟩ := writeUInt32LENumber_ok _ _ e1
          obtain ⟨nt, rfl⟩ := writeUInt32LENumber_ok _ _ e2
          obtain ⟨nb, rfl⟩ := writeUInt32LENumber_ok _ _ e3
          obtain ⟨nn, rfl⟩ := writeUInt32LENumber_ok _ _ e4
          exact ⟨⟨nv, some p, m, nt, nb, nn⟩, rfl⟩

theorem validHeaderObject_toObject (x : Header) :
    ValidHeaderObject x.toObject ↔ ValidHeader x := by
  unfold ValidHeaderObject ValidHeader Header.toObject JsNumber.IsUInt32
  simp only [Option.some.injEq, exists_eq_left']
  constructor
  · rintro ⟨⟨_, h1⟩, ⟨_, h2⟩, ⟨_, h3⟩, ⟨_, h4⟩, h5, h6⟩
    exact ⟨by omega, by omega, by omega, by omega, h5, h6⟩
  · rintro ⟨h1, h2, h3, h4, h5, h6⟩
    exact ⟨⟨by omega, by omega⟩, ⟨by omega, by omega⟩, ⟨by omega, by omega⟩,
      ⟨by omega, by omega⟩, h5, h6⟩

theorem validHeaderObject_header (h : HeaderObject) (hv : ValidHeaderObject h) :
    ∃ x : Header, h = x.toObject := by
  obtain ⟨version, prev, merkle, timestamp, bits, nonce⟩ := h
  obtain ⟨h1, h2, h3, h4, ⟨p, hp, _⟩, ⟨m, hm, _⟩⟩ := hv
  simp only at h1 h2 h3 h4 hp hm
  subst hp hm
  cases version <;> simp only [JsNumber.IsUInt32] at h1
  cases timestamp <;> simp only [JsNumber.IsUInt32] at h2
  cases bits <;> simp only [JsNumber.IsUInt32] at h3
  cases nonce <;> simp only [JsNumber.IsUInt32] at h4
  rename_i v t b n
  refine ⟨⟨v.toNat, some p, m, t.toNat, b.toNat, n.toNat⟩, ?_⟩
  simp only [Header.toObject, Int.toNat_of_nonneg h1.1, Int.toNat_of_nonneg h2.1,
    Int.toNat_of_nonneg h3.1, Int.toNat_of_nonneg h4.1]

/-! # The claims -/

/-- C1 (fails on the code): `isGoodHash` is to answer true exactly when the 32-byte hash,
read as a big-endian integer, is below the 32-byte target. On the hash `01 00 … 00` and the
target `00 01 00 … 00`, both of 32 bytes, it answers true although the hash is not below the
target: the loop goes on after a byte of the hash that is above the byte of the target. -/
theorem isGoodHash_accepts_larger_hash :
    ((1 : Byte) :: List.replicate 31 0).length = 32 ∧
    ((0 : Byte) :: 1 :: List.replicate 30 0).length = 32 ∧
    isGoodHash (1 :: List.replicate 31 0) (0 :: 1 :: List.replicate 30 0) = true ∧
    ¬ (beVal (1 :: List.replicate 31 0) < beVal (0 :: 1 :: List.replicate 30 0)) := by
  decide

/-- C2, as stated, fails: the state `staleCacheState` satisfies the sync commit invariant,
the run of `_sync` against `shortChunkNetwork` is successful, and it ends with local height
2016, no closed chunk and one pending header, so that the invariant does not hold. The run
commits the one-header chunk served for index 0, finds the header of height 2015 in the
header cache, and commits the one-header chunk served for index 1 while the storage has no
closed chunk. -/
theorem sync_breaks_invariant_after_short_chunk :
    Inv staleCacheState ∧
    (_sync ⟨false, shortChunkNetwork⟩ 3 staleCacheState).1 = Except.ok () ∧
    (_sync ⟨false, shortChunkNetwork⟩ 3 staleCacheState).2.currentHeight = 2016 ∧
    (_sync ⟨false, shortChunkNetwork⟩ 3 staleCacheState).2.storage.getChunksCount = 0 ∧
    (_sync ⟨false, shortChunkNetwork⟩ 3 staleCacheState).2.storage.getHeadersCount = 1 ∧
    ¬ Inv (_sync ⟨false, shortChunkNetwork⟩ 3 staleCacheState).2 := by
  have h1 : (_sync ⟨false, shortChunkNetwork⟩ 3 staleCacheState).1 = Except.ok () ∧
    (_sync ⟨false, shortChunkNetwork⟩ 3 staleCacheState).2.currentHeight = 2016 ∧
    (_sync ⟨false, shortChunkNetwork⟩ 3 staleCacheState).2.storage.getChunksCount = 0 ∧
    (_sync ⟨false, shortChunkNetwork⟩ 3 staleCacheState).2.storage.getHeadersCount = 1 := by
    decide!
  refine ⟨⟨by decide, fun b hb => by cases hb⟩, h1.1, h1.2.1, h1.2.2.1, h1.2.2.2, ?_⟩
  intro hinv
  have h2 := hinv.1
  rw [h1.2.1, h1.2.2.1, h1.2.2.2] at h2
  exact absurd h2 (by decide)

/-- C2, amended: sync commit invariant. For every starting state that satisfies the invariant
and holds at most 2016 pending headers, and every sequence of Network responses in which no
chunk is served for a negative index and every chunk served for an index below
`floor(networkHeight / 2016)` has exactly 2016 headers, after any successful run of `_sync`
(no-op, incremental or catch-up, whatever the fuel of the loop) the local height is
`getChunksCount() * 2016 + getHeadersCount() - 1` and the local hash is the `headerHash` of
the last committed header. -/
theorem sync_commit_invariant (env : Env) (fuel : Nat) (s s2 : State) (hinv : Inv s)
    (hb : PendingBounded s)
    (hnet : ServesFullChunks env.network (env.network.getCurrentHeight s.tick))
    (h : _sync env fuel s = (Except.ok (), s2)) : Inv s2 := by
  unfold _sync at h
  rw [run_bind] at h
  simp only [getState] at h
  split at h
  · simp only [run_pure, Prod.mk.injEq, true_and] at h
    rw [← h]
    exact hinv
  · split at h
    · exact runChainLoopOnce_inv env _ fuel s s2 hnet hinv hb h
    · rename_i hge
      exact startChunkLoop_inv env _ fuel s s2 hnet hinv hb (by omega) h

/-- Witness of C2, amended: from the empty blockchain, the run of `_sync` against
`smallNetwork` is successful, commits one header and ends with local height 0 and the
invariant. -/
theorem sync_commit_invariant_witness :
    (_sync ⟨false, smallNetwork⟩ 3 (construct ⟨[], [], []⟩ 5000)).2.currentHeight = 0 ∧
    Inv (_sync ⟨false, smallNetwork⟩ 3 (construct ⟨[], [], []⟩ 5000)).2 := by
  have h1 : (_sync ⟨false, smallNetwork⟩ 3 (construct ⟨[], [], []⟩ 5000)).1 = Except.ok () ∧
      (_sync ⟨false, smallNetwork⟩ 3 (construct ⟨[], [], []⟩ 5000)).2.currentHeight = 0 := by
    decide!
  refine ⟨h1.2, sync_commit_invariant ⟨false, smallNetwork⟩ 3 (construct ⟨[], [], []⟩ 5000) _
    ⟨by decide, fun b hb => by cases hb⟩ (by unfold PendingBounded; decide) ?_
    (Prod.ext h1.1 rfl)⟩
  intro t index hex chunk hget hbuf
  by_cases h0 : index = 0
  · subst h0
    exact ⟨le_refl _, fun hlt => absurd hlt (by decide)⟩
  · simp [smallNetwork, h0] at hget

/-- C3 (fails on the code): the initial local height is to be
`closedChunkCount * 2016 + pendingHeaderCount - 1`. With a reloaded storage of no closed chunk
and one pending header the constructor sets the local height to 1, where the formula gives
0. -/
theorem construct_height_off_by_one :
    (construct { chunkHashes := [], headers := [rawHeaderA], lastHash := [] } 5000).currentHeight
      = 1 ∧
    (Storage.getChunksCount { chunkHashes := [], headers := [rawHeaderA], lastHash := [] }) * 2016
      + (Storage.getHeadersCount { chunkHashes := [], headers := [rawHeaderA], lastHash := [] })
      - 1 = 0 := by
  decide

/-- C4: for every current header, previous id, previous header (present or not), expected
target and testnet setting, a header whose `prevBlockHash` is not the hexadecimal form of the
previous id is rejected by `verifyHeader` with `VerifyError`. -/
theorem verifyHeader_linkage_mismatch (isTestnet : Bool) (currentHash : Buffer)
    (currentHeader : Header) (prevHash : Buffer) (prevHeader : Option Header) (target : Target)
    (h : currentHeader.prevBlockHash ≠ some (toHex prevHash)) :
    verifyHeader isTestnet currentHash currentHeader prevHash prevHeader target
      = Except.error Err.VerifyError := by
  have h2 : decide (some (toHex prevHash) = currentHeader.prevBlockHash) = false :=
    decide_eq_false (fun e => h e.symm)
  rw [verifyHeader_eq_tree, h2]
  rfl

/-- Witness of C4: on testnet, a header with a `null` previous hash, a gap of 2000 seconds,
the bits `0x1d00ffff` and an all-zero id is rejected with `VerifyError`. -/
theorem verifyHeader_linkage_mismatch_witness :
    verifyHeader true (List.replicate 32 0) ⟨1, none, [], 2000, 0x1d00ffff, 0⟩ []
      (some ⟨1, none, [], 0, 0x1d00ffff, 0⟩) ⟨some 0x1d00ffff, maxTarget⟩
      = Except.error Err.VerifyError :=
  verifyHeader_linkage_mismatch true (List.replicate 32 0) ⟨1, none, [], 2000, 0x1d00ffff, 0⟩ []
    (some ⟨1, none, [], 0, 0x1d00ffff, 0⟩) ⟨some 0x1d00ffff, maxTarget⟩ (by decide)

/-- C5: testnet exception. For every header with correct linkage that fails the check against
the computed target (its bits differ from the expected bits, or `isGoodHash` rejects its id),
whose bits are `0x1d00ffff` and whose 32-byte id is below the maximum target: when its
timestamp exceeds the timestamp of the previous header by more than 1200 seconds,
`verifyHeader` accepts it if and only if the chain is configured as testnet; when the gap is
1200 seconds or less, `verifyHeader` rejects it with `VerifyError`. -/
theorem verifyHeader_testnet_exception (isTestnet : Bool) (currentHash : Buffer)
    (currentHeader : Header) (prevHash : Buffer) (prevHeader : Header) (target : Target)
    (hlen : currentHash.length = 32)
    (hlink : currentHeader.prevBlockHash = some (toHex prevHash))
    (hfail : ¬ (some (currentHeader.bits : Int) = target.bits ∧
      isGoodHash currentHash target.target = true))
    (hbits : currentHeader.bits = 0x1d00ffff)
    (hid : beVal currentHash < beVal maxTarget) :
    ((currentHeader.timestamp : Int) - (prevHeader.timestamp : Int) > 1200 →
      (verifyHeader isTestnet currentHash currentHeader prevHash (some prevHeader) target
        = Except.ok () ↔ isTestnet = true)) ∧
    ((currentHeader.timestamp : Int) - (prevHeader.timestamp : Int) ≤ 1200 →
      verifyHeader isTestnet currentHash currentHeader prevHash (some prevHeader) target
        = Except.error Err.VerifyError) := by
  have hgood : isGoodHash currentHash maxTarget = true :=
    isGoodHash_of_beVal_lt currentHash maxTarget hlen (by decide) hid
  have hmax : decide (currentHeader.bits = maxBits) = true := decide_eq_true hbits
  have h1 : decide (some (toHex prevHash) = currentHeader.prevBlockHash) = true :=
    decide_eq_true hlink.symm
  have h2 : (decide (some (currentHeader.bits : Int) = target.bits) &&
      isGoodHash currentHash target.target) = false := by
    rw [Bool.and_eq_false_iff]
    by_cases hb : some (currentHeader.bits : Int) = target.bits
    · right
      cases hg : isGoodHash currentHash target.target
      · rfl
      · exact absurd ⟨hb, hg⟩ hfail
    · left
      exact decide_eq_false hb
  rw [verifyHeader_eq_tree, h1, hmax, hgood]
  simp only [verifyHeaderTree, h2, Option.map, if_true]
  constructor
  · intro hgap
    rw [decide_eq_true hgap]
    cases isTestnet <;> simp
  · intro hgap
    have hgap2 : ¬ ((currentHeader.timestamp : Int) - (prevHeader.timestamp : Int) > 1200) := by
      omega
    rw [decide_eq_false hgap2]
    cases isTestnet <;> simp

/-- Witness of C5: on testnet, a linked header with the bits `0x1d00ffff`, an all-zero id and
a gap of 2000 seconds is accepted although the expected bits are `0x1c00ffff`. -/
theorem verifyHeader_testnet_exception_witness :
    verifyHeader true (List.replicate 32 0) ⟨1, some (toHex []), [], 2000, 0x1d00ffff, 0⟩ []
      (some ⟨1, none, [], 0, 0x1d00ffff, 0⟩) ⟨some 0x1c00ffff, []⟩ = Except.ok () :=
  ((verifyHeader_testnet_exception true (List.replicate 32 0)
    ⟨1, some (toHex []), [], 2000, 0x1d00ffff, 0⟩ [] ⟨1, none, [], 0, 0x1d00ffff, 0⟩
    ⟨some 0x1c00ffff, []⟩ (by decide) (by decide) (by decide) (by decide) (by decide)).1
    (by decide)).2 rfl

/-- C6 (fails on the code): the target returned by `getTarget` is to be exactly 32 bytes
long. For period 1, with boundary headers 14 days apart and the last bits `0x1d00ffff`,
`getTarget` returns the bits `0x1d00ffff` and a target buffer of 28 bytes, `ff ff` followed
by 26 zero bytes: the leading zero bytes are missing. -/
theorem getTarget_target_has_28_bytes :
    getTarget 1 ⟨1, none, [], 0, 0x1d00ffff, 0⟩ (some ⟨1, none, [], 1209600, 0x1d00ffff, 0⟩)
      = Except.ok ⟨some 0x1d00ffff, [255, 255] ++ List.replicate 26 0⟩ ∧
    ([255, 255] ++ List.replicate 26 (0 : Byte)).length = 28 := by
  decide

/-- C7, as stated, fails: `bits = 0x1d000001` has the mantissa 1 and the exponent 29, and the
target that `getTarget` decodes from it is not `1 * 256 ^ (29 - 3)`. -/
theorem decodeBits_not_standard :
    ¬ (decodeBits 0x1d000001 = (0x1d000001 % 2 ^ 24) * 256 ^ (0x1d000001 / 2 ^ 24 - 3)) := by
  decide

/-- C7, amended: for every compact bits value, with `exponent` its high byte and `mantissa`
its low 3 bytes, the target integer that `getTarget` decodes is
`mantissa * 256 ^ (exponent - 3)` when the mantissa is at least `0x8000`, and
`mantissa * 256 * 256 ^ (exponent - 3)` when it is below; the power is 1 when the exponent
is at most 3. -/
theorem decodeBits_eq (bits : Nat) :
    decodeBits bits =
      (if bits % 2 ^ 24 < 0x8000 then bits % 2 ^ 24 * 256 else bits % 2 ^ 24)
        * 256 ^ (bits / 2 ^ 24 - 3) := by
  have hMM : MM = 2 ^ 24 := by decide
  have hpow : bigPow 2 (8 * (((bits / 2 ^ 24 : Nat) : Int) - 3)) = 256 ^ (bits / 2 ^ 24 - 3) := by
    unfold bigPow
    by_cases h : bits / 2 ^ 24 ≤ 3
    · have h1 : (8 * (((bits / 2 ^ 24 : Nat) : Int) - 3)) < 1 := by omega
      have h2 : bits / 2 ^ 24 - 3 = 0 := by omega
      rw [if_pos h1, h2]
      rfl
    · have h1 : ¬ (8 * (((bits / 2 ^ 24 : Nat) : Int) - 3)) < 1 := by omega
      have h2 : (8 * (((bits / 2 ^ 24 : Nat) : Int) - 3)).toNat = 8 * (bits / 2 ^ 24 - 3) := by
        omega
      rw [if_neg h1, h2, pow_mul]
      rfl
  simp only [decodeBits, hMM, hpow]

/-- C8 (fails on the code): the compact bits returned by `getTarget` are to have a mantissa
of at most `0x7fffff`. For period 1, with boundary headers 14 days apart and the last bits
`0x1d008000`, `getTarget` returns the bits `0x1c800000`, whose mantissa is `0x800000`: the
test of line 408 is `c > 0x800000`. -/
theorem getTarget_bits_not_normalized :
    (getTarget 1 ⟨1, none, [], 0, 0x1d00ffff, 0⟩
      (some ⟨1, none, [], 1209600, 0x1d008000, 0⟩)).toOption.map (fun t => t.bits)
      = some (some 0x1c800000) ∧
    (0x1c800000 % 2 ^ 24 = 0x800000) ∧ ¬ (0x800000 ≤ 0x7fffff) := by
  decide

/-- C9: for every period `index > 0` and boundary headers `firstHeader` and `lastHeader`,
`getTarget` returns a target whose big-endian value is
`min(maxTarget, floor(T * s / 1209600))`, where `maxTarget` is `0xFFFF * 2 ^ 208`, `T` is the
target integer decoded from `lastHeader.bits` and `s` is
`lastHeader.timestamp - firstHeader.timestamp` clamped into `[302400, 4838400]`: 302400 when
the difference is below 302400, 4838400 when it is above 4838400, the difference itself
otherwise. This `s` is the span that the code uses; it lies in `[302400, 4838400]` and is the
actual span whenever that lies in this range. -/
theorem getTarget_value (index : Int) (firstHeader lastHeader : Header) (hp : 0 < index) :
    ∃ t, getTarget index firstHeader (some lastHeader) = Except.ok t ∧
      beVal t.target = min (0xFFFF * 2 ^ 208)
        (decodeBits lastHeader.bits *
          (if (lastHeader.timestamp : Int) - (firstHeader.timestamp : Int) < 302400 then
            (302400 : Int)
          else if (lastHeader.timestamp : Int) - (firstHeader.timestamp : Int) > 4838400 then
            4838400
          else (lastHeader.timestamp : Int) - (firstHeader.timestamp : Int)).toNat
          / 1209600) ∧
      actualTimestamp firstHeader lastHeader
        = (if (lastHeader.timestamp : Int) - (firstHeader.timestamp : Int) < 302400 then
            (302400 : Int)
          else if (lastHeader.timestamp : Int) - (firstHeader.timestamp : Int) > 4838400 then
            4838400
          else (lastHeader.timestamp : Int) - (firstHeader.timestamp : Int)) ∧
      302400 ≤ actualTimestamp firstHeader lastHeader ∧
      actualTimestamp firstHeader lastHeader ≤ 4838400 ∧
      (302400 ≤ (lastHeader.timestamp : Int) - (firstHeader.timestamp : Int) →
        (lastHeader.timestamp : Int) - (firstHeader.timestamp : Int) ≤ 4838400 →
        actualTimestamp firstHeader lastHeader
          = (lastHeader.timestamp : Int) - (firstHeader.timestamp : Int)) := by
  have hne : index ≠ 0 := by omega
  refine ⟨⟨encodeBits (newTarget firstHeader lastHeader),
      toByteArrayUnsigned (newTarget firstHeader lastHeader)⟩, ?_, ?_,
    actualTimestamp_clamped _ _,
    (actualTimestamp_bounds _ _).1, (actualTimestamp_bounds _ _).2,
    actualTimestamp_inside _ _⟩
  · unfold getTarget
    rw [if_neg hne]
    exact retarget_eq firstHeader lastHeader
  · have hmax : maxTargetBI = 0xFFFF * 2 ^ 208 := by decide
    rw [← actualTimestamp_clamped]
    simp only [beVal_toByteArrayUnsigned, newTarget, nTargetTimestamp, hmax]
    exact Nat.min_comm _ _

/-- Witness of C9: period 1 with boundary headers 2 days apart, a span below the range, and
the last bits `0x1c00ffff`. -/
theorem getTarget_value_witness :
    ∃ t, getTarget 1 ⟨1, none, [], 1000000, 0x1d00ffff, 0⟩
        (some ⟨1, none, [], 1172800, 0x1c00ffff, 0⟩) = Except.ok t ∧
      beVal t.target = min (0xFFFF * 2 ^ 208)
        (decodeBits 0x1c00ffff *
          (if ((1172800 : Nat) : Int) - ((1000000 : Nat) : Int) < 302400 then (302400 : Int)
          else if ((1172800 : Nat) : Int) - ((1000000 : Nat) : Int) > 4838400 then 4838400
          else ((1172800 : Nat) : Int) - ((1000000 : Nat) : Int)).toNat
          / 1209600) ∧
      actualTimestamp ⟨1, none, [], 1000000, 0x1d00ffff, 0⟩
          ⟨1, none, [], 1172800, 0x1c00ffff, 0⟩
        = (if ((1172800 : Nat) : Int) - ((1000000 : Nat) : Int) < 302400 then (302400 : Int)
          else if ((1172800 : Nat) : Int) - ((1000000 : Nat) : Int) > 4838400 then 4838400
          else ((1172800 : Nat) : Int) - ((1000000 : Nat) : Int)) ∧
      302400 ≤ actualTimestamp ⟨1, none, [], 1000000, 0x1d00ffff, 0⟩
        ⟨1, none, [], 1172800, 0x1c00ffff, 0⟩ ∧
      actualTimestamp ⟨1, none, [], 1000000, 0x1d00ffff, 0⟩
        ⟨1, none, [], 1172800, 0x1c00ffff, 0⟩ ≤ 4838400 ∧
      (302400 ≤ ((1172800 : Nat) : Int) - ((1000000 : Nat) : Int) →
        ((1172800 : Nat) : Int) - ((1000000 : Nat) : Int) ≤ 4838400 →
        actualTimestamp ⟨1, none, [], 1000000, 0x1d00ffff, 0⟩
          ⟨1, none, [], 1172800, 0x1c00ffff, 0⟩
          = ((1172800 : Nat) : Int) - ((1000000 : Nat) : Int)) :=
  getTarget_value 1 ⟨1, none, [], 1000000, 0x1d00ffff, 0⟩ ⟨1, none, [], 1172800, 0x1c00ffff, 0⟩
    (by decide)

/-- C10: for every period index and boundary headers, the target returned by `getTarget`
has a big-endian value of at most the maximum target `0xFFFF * 2 ^ 208`; for period 0
`getTarget` returns the bits `0x1d00ffff` and the 32-byte maximum target whatever the
headers, stored or candidate. -/
theorem getTarget_le_maxTarget (index : Int) (firstHeader lastHeader : Header)
    (candidate : Option Header) :
    (∃ t, getTarget index firstHeader (some lastHeader) = Except.ok t ∧
      beVal t.target ≤ beVal maxTarget) ∧
    getTarget 0 firstHeader candidate = Except.ok ⟨some 0x1d00ffff, maxTarget⟩ ∧
    beVal maxTarget = 0xFFFF * 2 ^ 208 ∧ maxTarget.length = 32 := by
  refine ⟨?_, rfl, by decide, by decide⟩
  by_cases h : index = 0
  · subst h
    exact ⟨_, rfl, le_refl _⟩
  · refine ⟨⟨encodeBits (newTarget firstHeader lastHeader),
        toByteArrayUnsigned (newTarget firstHeader lastHeader)⟩, ?_, ?_⟩
    · unfold getTarget
      rw [if_neg h]
      exact retarget_eq firstHeader lastHeader
    · simp only [beVal_toByteArrayUnsigned, newTarget]
      exact Nat.min_le_right _ _

/-- C11, counterexample: for the id of 64 zeros, a branch of 33 siblings (each 64 digits `1`) and
the index 1, the root that `_getVerifiedTx` computes is not the reference fold of the decoded
id and siblings: at position 32 the code reads `index >> 32`, which JavaScript evaluates as
`index >> 0`, hence bit 0 of the index, where the reference reads bit 32. -/
theorem computeMerkleRoot_differs_at_position_32 :
    computeMerkleRoot txIdZeros { height := 0, merkle := List.replicate 33 txIdOnes, index := 1 }
      ≠ Except.ok (hashEncode (merkleFoldSpec 1
          (List.replicate 33 (List.replicate 32 17)) 0 (List.replicate 32 0))) := by
  have e1 : List.replicate 33 (List.replicate 32 (17 : Byte))
      = List.replicate 32 (List.replicate 32 17) ++ [List.replicate 32 17] := rfl
  have e2 : List.replicate 33 txIdOnes = List.replicate 32 txIdOnes ++ [txIdOnes] := rfl
  have d0 : hashDecode txIdZeros = some (List.replicate 32 0) := by decide
  have d1 : hashDecode txIdOnes = some (List.replicate 32 17) := by decide
  have hfirst : merkleFold ((1 : Nat) : Int) (List.replicate 32 txIdOnes) 0 (List.replicate 32 0)
      = Except.ok (merkleFoldSpec 1 (List.replicate 32 (List.replicate 32 17)) 0
          (List.replicate 32 0)) :=
    merkleFold_eq_spec 1 _ _ 0 _ (by simp only [List.map_replicate, d1]) (by simp)
  have hbit : jsAnd (jsShiftRight 1 32) 1 ≠ 0 := by decide
  have hcode : computeMerkleRoot txIdZeros
        { height := 0, merkle := List.replicate 33 txIdOnes, index := 1 }
      = Except.ok (hashEncode (hash256 (List.replicate 32 17 ++ (bufferFromHex
          "7bd37e553d0a273fadc2bb945738635a4ff34e7a2722b303de7a94a98bc5dae2".toList).getD [])))
      := by
    unfold computeMerkleRoot
    rw [d0]
    simp only
    have hf := hfirst
    simp only [Nat.cast_one] at hf
    rw [e2, merkleFold_append, hf, referenceFold_first_32]
    simp only [List.length_replicate, Nat.zero_add, merkleFold, merkleStep, d1, bind,
      Except.bind, pure, Except.pure]
    rw [if_pos hbit]
    simp only [List.flatten, List.append_nil]
  rw [hcode, e1, merkleFoldSpec_append, referenceFold_first_32]
  simp only [List.length_replicate, Nat.zero_add, merkleFoldSpec]
  rw [if_neg (by decide)]
  intro h
  exact last_step_differs (hashEncode_injective (Except.ok.inj h))

/-- C11, amended: for every transaction id, every branch of at most 32 sibling ids (all of them
hexadecimal strings) and every non-negative integer index, the Merkle root computed in
`_getVerifiedTx` is the reference fold: start with the id in internal byte order; for the
sibling at position `i`, the hash becomes the double SHA-256 of `sibling ++ hash` when bit `i`
of the index is 1 and of `hash ++ sibling` otherwise; the result is the display form of the
final hash. -/
theorem computeMerkleRoot_eq_reference_fold (txId : List Char) (result : MerkleResult)
    (index : Nat) (hash : Buffer) (siblings : List Buffer)
    (hindex : result.index = (index : Int)) (htx : hashDecode txId = some hash)
    (hbranch : result.merkle.map hashDecode = siblings.map some)
    (hlen : result.merkle.length ≤ 32) :
    computeMerkleRoot txId result
      = Except.ok (hashEncode (merkleFoldSpec index siblings 0 hash)) := by
  unfold computeMerkleRoot
  rw [htx, hindex]
  simp only
  rw [merkleFold_eq_spec index result.merkle siblings 0 hash hbranch (by omega)]
  rfl

/-- C11, witness: the id of 64 zeros, the branch of one sibling and the index 1. -/
theorem computeMerkleRoot_eq_reference_fold_witness :
    computeMerkleRoot txIdZeros { height := 0, merkle := [txIdOnes], index := 1 }
      = Except.ok (hashEncode (merkleFoldSpec 1 [List.replicate 32 17] 0 (List.replicate 32 0))) :=
  computeMerkleRoot_eq_reference_fold txIdZeros { height := 0, merkle := [txIdOnes], index := 1 }
    1 (List.replicate 32 0) [List.replicate 32 17] rfl (by decide) (by decide) (by decide)

/-- C12: for every transaction id (a hexadecimal string) and every verified header, a Merkle
proof with an empty branch and index 0 verifies if and only if the id equals
`header.merkleRoot`, and fails with `VerifyTxError` otherwise. The two are equal as 32-byte
ids, the values that the two strings display; for an id written in lower case, as
`buffer2header` writes `merkleRoot`, this is the equality of the two strings, and for every
id it is the equality of `merkleRoot` and the lower-case form of the id. -/
theorem empty_branch_verifies_iff (txId : List Char) (height : Int) (buffer hash : Buffer)
    (header : Header) (htx : hashDecode txId = some hash)
    (hheader : buffer2header buffer = Except.ok header) :
    ((computeMerkleRoot txId { height := height, merkle := [], index := 0 }
        >>= checkMerkleRoot buffer) = Except.ok () ↔
      hashDecode txId = hashDecode header.merkleRoot) ∧
    ((computeMerkleRoot txId { height := height, merkle := [], index := 0 }
        >>= checkMerkleRoot buffer) = Except.error Err.VerifyTxError ↔
      hashDecode txId ≠ hashDecode header.merkleRoot) ∧
    (lowerHex txId = txId →
      ((computeMerkleRoot txId { height := height, merkle := [], index := 0 }
        >>= checkMerkleRoot buffer) = Except.ok () ↔ txId = header.merkleRoot)) ∧
    ((computeMerkleRoot txId { height := height, merkle := [], index := 0 }
        >>= checkMerkleRoot buffer) = Except.ok () ↔ lowerHex txId = header.merkleRoot) := by
  have hroot : computeMerkleRoot txId { height := height, merkle := [], index := 0 }
      = Except.ok (lowerHex txId) := by
    unfold computeMerkleRoot
    rw [htx]
    unfold hashDecode at htx
    cases hb : bufferFromHex txId with
    | none => rw [hb] at htx; cases htx
    | some b =>
      rw [hb] at htx
      simp only [Option.map_some', Option.some.injEq] at htx
      subst htx
      have := (toHex_bufferFromHex txId.length txId b (le_refl _) hb).1
      show Except.ok (toHex (b.reverse.reverse)) = _
      rw [List.reverse_reverse, this]
  rw [hroot]
  have hcheck : (Except.ok (lowerHex txId) >>= checkMerkleRoot buffer)
      = if header.merkleRoot ≠ lowerHex txId then Except.error Err.VerifyTxError
        else Except.ok () := by
    show checkMerkleRoot buffer (lowerHex txId) = _
    unfold checkMerkleRoot
    rw [hheader]
    rfl
  rw [hcheck]
  have hid : hashDecode txId = hashDecode header.merkleRoot
      ↔ lowerHex txId = header.merkleRoot := by
    rw [buffer2header_merkleRoot buffer header hheader]
    exact hashDecode_eq_iff txId hash _ htx
  by_cases h : header.merkleRoot = lowerHex txId
  · rw [if_neg (not_not.mpr h)]
    have h1 : lowerHex txId = header.merkleRoot := h.symm
    refine ⟨by simp [hid, h1], by simp [hid, h1], ?_, by simp [h1]⟩
    intro hl
    rw [hl] at h1
    simp [h1]
  · rw [if_pos h]
    have h2 : ¬ lowerHex txId = header.merkleRoot := fun e => h e.symm
    refine ⟨by simp [hid, h2], by simp [hid, h2], ?_, by simp [h2]⟩
    intro hl
    rw [hl] at h2
    simp [h2]

/-- C12, witness: the id of 64 zeros against the header of raw form `rawHeaderA`, whose
`merkleRoot` is the same string. -/
theorem empty_branch_verifies_iff_witness :
    ((computeMerkleRoot txIdZeros { height := 0, merkle := [], index := 0 }
        >>= checkMerkleRoot ((bufferFromHex rawHeaderA).getD [])) = Except.ok () ↔
      hashDecode txIdZeros = hashDecode txIdZeros) ∧
    ((computeMerkleRoot txIdZeros { height := 0, merkle := [], index := 0 }
        >>= checkMerkleRoot ((bufferFromHex rawHeaderA).getD []))
        = Except.error Err.VerifyTxError ↔ hashDecode txIdZeros ≠ hashDecode txIdZeros) ∧
    (lowerHex txIdZeros = txIdZeros →
      ((computeMerkleRoot txIdZeros { height := 0, merkle := [], index := 0 }
        >>= checkMerkleRoot ((bufferFromHex rawHeaderA).getD [])) = Except.ok () ↔
        txIdZeros = txIdZeros)) ∧
    ((computeMerkleRoot txIdZeros { height := 0, merkle := [], index := 0 }
        >>= checkMerkleRoot ((bufferFromHex rawHeaderA).getD [])) = Except.ok () ↔
      lowerHex txIdZeros = txIdZeros) :=
  empty_branch_verifies_iff txIdZeros 0 ((bufferFromHex rawHeaderA).getD [])
    (List.replicate 32 0)
    { version := 1, prevBlockHash := some txIdZeros, merkleRoot := txIdZeros,
      timestamp := 1000000, bits := 0x1d00ffff, nonce := 0 }
    (by decide) (by decide)

/-- C13: when the transaction is neither cached nor being verified, the network gives the
transaction and its Merkle branch, and the root recomputed from them differs from the
`merkleRoot` of the verified header at the reported height, `_getVerifiedTx` fails with
`VerifyTxError`, the transaction cache is as it was before the call, and the table of the
verifications in flight has no entry for the id. -/
theorem getVerifiedTx_root_mismatch (env : Env) (txId : List Char) (s : State)
    (tx : Transaction) (result : MerkleResult) (merkleRoot : List Char) (buffer : Buffer)
    (header : Header)
    (hid : verifyTxId txId = Except.ok ())
    (hcache : (s.txCache.get txId).1 = none)
    (hrun : s.getVerifiedTxRunning.find? (fun e => decide (e.1 = txId)) = none)
    (htx : env.network.getTx s.tick txId = Except.ok tx)
    (hmerkle : env.network.getMerkle (s.tick + 1) txId = Except.ok result)
    (hroot : computeMerkleRoot txId result = Except.ok merkleRoot)
    (hheader : (_getVerifiedHeader env result.height { s with tick := s.tick + 2 }).1
      = Except.ok buffer)
    (hdecode : buffer2header buffer = Except.ok header)
    (hne : header.merkleRoot ≠ merkleRoot) :
    (_getVerifiedTx env txId s).1 = Except.error Err.VerifyTxError ∧
      (_getVerifiedTx env txId s).2.txCache = s.txCache ∧
      (_getVerifiedTx env txId s).2.getVerifiedTxRunning.find? (fun e => decide (e.1 = txId))
        = none := by
  have hk := keepsTx_getVerifiedHeader env result.height { s with tick := s.tick + 2 }
  cases hh : _getVerifiedHeader env result.height { s with tick := s.tick + 2 } with
  | mk r2 s2 =>
    rw [hh] at hheader hk
    simp only at hheader hk
    subst hheader
    have hcheck : checkMerkleRoot buffer merkleRoot = Except.error Err.VerifyTxError := by
      unfold checkMerkleRoot
      rw [hdecode]
      show (if header.merkleRoot ≠ merkleRoot then _ else _) = _
      rw [if_pos hne]
      rfl
    have hchain : verifiedTxChain env txId s = (Except.error Err.VerifyTxError, s2) := by
      have hh2 : _getVerifiedHeader env result.height { s with tick := s.tick + 1 + 1 }
          = (Except.ok buffer, s2) := hh
      unfold verifiedTxChain
      rw [run_tryCatch, run_bind]
      simp only [_getTx, htx, Except.mapError]
      rw [run_bind, run_tryCatch, run_bind]
      simp only [networkGetMerkle, hmerkle, Except.mapError]
      rw [run_bind, run_liftExcept, hroot]
      simp only
      rw [run_bind, hh2]
      simp only
      rw [run_bind, run_liftExcept, hcheck]
      rfl
    have hget : _getVerifiedTx env txId s
        = (Except.error Err.VerifyTxError,
            { s2 with getVerifiedTxRunning :=
                s2.getVerifiedTxRunning.filter (fun e => decide (e.1 ≠ txId)) }) := by
      have hs : ({ s with txCache := (s.txCache.get txId).2 } : State) = s := by
        rw [txCache_get_none hcache]
      unfold _getVerifiedTx
      rw [run_bind, run_liftExcept, hid]
      simp only
      rw [run_bind, run_getState]
      simp only
      rw [run_bind, run_modifyState, hs, hcache]
      simp only
      rw [run_bind, run_getState]
      simp only
      rw [hrun]
      simp only
      rw [hchain]
      rfl
    rw [hget]
    exact ⟨rfl, hk.1, find_filter_ne _ _⟩

/-- C13, witness: the id of 64 ones on `txNetwork`, which reports the height 2015 with an empty
branch; the header cached under 2015 has the `merkleRoot` of 64 zeros. -/
theorem getVerifiedTx_root_mismatch_witness :
    (_getVerifiedTx ⟨false, txNetwork⟩ txIdOnes staleCacheState).1
        = Except.error Err.VerifyTxError ∧
      (_getVerifiedTx ⟨false, txNetwork⟩ txIdOnes staleCacheState).2.txCache
        = staleCacheState.txCache ∧
      (_getVerifiedTx ⟨false, txNetwork⟩ txIdOnes staleCacheState).2.getVerifiedTxRunning.find?
        (fun e => decide (e.1 = txIdOnes)) = none :=
  getVerifiedTx_root_mismatch ⟨false, txNetwork⟩ txIdOnes staleCacheState "01000000".toList
    { height := 2015, merkle := [], index := 0 } txIdOnes ((bufferFromHex rawHeaderB).getD [])
    { version := 1, prevBlockHash := some txIdOnes, merkleRoot := txIdZeros,
      timestamp := 2209600, bits := 0x1d00ffff, nonce := 0 }
    (by decide) (by decide) (by decide) (by decide) (by decide) (by decide) (by decide)
    (by decide) (by decide)

/-- C14, counterexample: `upperCaseHeader` is valid (its numbers are in the uint32 range, its
hashes are strings of 64 hexadecimal characters) and decoding its encoding does not give it
back: `merkleRoot` comes back in lower case. -/
theorem header_round_trip_changes_upper_case :
    ValidHeader upperCaseHeader ∧
      (header2buffer upperCaseHeader >>= buffer2header) ≠ Except.ok upperCaseHeader := by
  refine ⟨⟨by decide, by decide, by decide, by decide, ⟨txIdZeros, rfl, ?_⟩, ?_⟩, by decide⟩
  · unfold IsHex64
    decide
  · unfold IsHex64
    decide

/-- C14, amended: for every valid header `h` (version, timestamp, bits and nonce in the uint32
range; `prevBlockHash` and `merkleRoot` strings of 64 hexadecimal characters),
`buffer2header(header2buffer(h))` is `h` with the digits of its two hashes in lower case; it
is `h` itself exactly when `h` has no upper-case digit in them. -/
theorem header_round_trip (h : Header) (hv : ValidHeader h) :
    (header2buffer h >>= buffer2header) = Except.ok (lowerCaseHashes h) ∧
      ((header2buffer h >>= buffer2header) = Except.ok h ↔ lowerCaseHashes h = h) := by
  obtain ⟨buffer, e1, _, e2⟩ := header2buffer_valid h hv
  have e : (header2buffer h >>= buffer2header) = Except.ok (lowerCaseHashes h) := by
    rw [e1]
    exact e2
  refine ⟨e, ?_⟩
  rw [e]
  simp only [Except.ok.injEq]

/-- C14, witness: the header of height 300000 of the test file, which is in lower case. -/
theorem header_round_trip_witness :
    (header2buffer header300000 >>= buffer2header) = Except.ok (lowerCaseHashes header300000) ∧
      ((header2buffer header300000 >>= buffer2header) = Except.ok header300000 ↔
        lowerCaseHashes header300000 = header300000) :=
  header_round_trip header300000
    ⟨by decide, by decide, by decide, by decide,
      ⟨"00000000dfe970844d1bf983d0745f709368b5c66224837a17ed633f0dabd300".toList, rfl,
        by unfold IsHex64; decide⟩,
      by unfold IsHex64; decide⟩

/-- C15: on a header object whose four numbers are any JavaScript numbers and whose two hashes
are strings or `null`, `header2buffer` succeeds, with a buffer of 80 bytes, exactly when all
fields are valid, and fails on every other object: one whose version, timestamp, bits or
nonce is not an integer from 0 to `0xffffffff` (negative, above `0xffffffff`, with a
fractional component, `NaN` or infinite), or whose `prevBlockHash` or `merkleRoot` is not a
string of exactly 64 hexadecimal characters (`null` included). On the object of a `Header`,
whose numbers are non-negative integers, this is `header2buffer` on the `Header`. -/
theorem header2buffer_succeeds_iff_valid (h : HeaderObject) :
    ((∃ buffer, header2bufferObject h = Except.ok buffer ∧ buffer.length = 80)
        ↔ ValidHeaderObject h) ∧
      ((∃ e, header2bufferObject h = Except.error e) ↔ ¬ ValidHeaderObject h) ∧
      (∀ x : Header, header2buffer x = header2bufferObject x.toObject ∧
        (ValidHeader x ↔ ValidHeaderObject x.toObject)) := by
  have h1 : (∃ buffer, header2bufferObject h = Except.ok buffer ∧ buffer.length = 80)
      ↔ ValidHeaderObject h := by
    constructor
    · rintro ⟨buffer, e, _⟩
      obtain ⟨x, rfl⟩ := header2bufferObject_ok h buffer e
      rw [header2bufferObject_toObject] at e
      exact (validHeaderObject_toObject x).mpr (header2buffer_ok_valid x buffer e)
    · intro hv
      obtain ⟨x, rfl⟩ := validHeaderObject_header h hv
      obtain ⟨buffer, e1, e2, _⟩ :=
        header2buffer_valid x ((validHeaderObject_toObject x).mp hv)
      exact ⟨buffer, by rw [header2bufferObject_toObject]; exact e1, e2⟩
  refine ⟨h1, ?_, fun x => ⟨(header2bufferObject_toObject x).symm,
    (validHeaderObject_toObject x).symm⟩⟩
  constructor
  · rintro ⟨e, he⟩ hv
    obtain ⟨buffer, e1, _⟩ := h1.mpr hv
    rw [e1] at he
    cases he
  · intro hv
    cases he : header2bufferObject h with
    | error e => exact ⟨e, rfl⟩
    | ok buffer =>
      obtain ⟨x, rfl⟩ := header2bufferObject_ok h buffer he
      have he2 := he
      rw [header2bufferObject_toObject] at he2
      obtain ⟨b2, e1, e2, _⟩ := header2buffer_valid x (header2buffer_ok_valid x buffer he2)
      exact absurd (h1.mp ⟨b2, by rw [header2bufferObject_toObject]; exact e1, e2⟩) hv

/-- C16, counterexample: the blockchain is at height 0 with `rawHeaderA` stored and the network
is at height 1 with another chain. The run is in incremental mode, the candidate of height 1
is fetched and fails the first check of the validation, its declared previous id not being
the local hash; the run does not end in error: it goes on in catch-up mode, succeeds, replaces
the pending headers and the last hash of the storage, sets the height to 1 and emits
`newHeight`. -/
theorem incremental_link_failure_rewrites_storage :
    ¬ (oneHeaderState.currentBlockHash = reorgNetwork.getCurrentBlockHash 0 ∨
        reorgNetwork.getCurrentHeight 0 = -1) ∧
      reorgNetwork.getCurrentHeight 0 - oneHeaderState.currentHeight < 50 ∧
      (fetchChain ⟨false, reorgNetwork⟩ 1 2 [] oneHeaderState).1
        = Except.ok [⟨1, forkCandidate⟩] ∧
      forkCandidate.prevBlockHash ≠ some (toHex oneHeaderState.currentBlockHash) ∧
      (_sync ⟨false, reorgNetwork⟩ 2 oneHeaderState).1 = Except.ok () ∧
      (_sync ⟨false, reorgNetwork⟩ 2 oneHeaderState).2.storage
        = { chunkHashes := []
            headers := [rawHeaderD, rawHeaderE]
            lastHash :=
              "89ad082fb37b64b69f0847c773088ec13d22bbf39b3f178e394d9ea6324126ea".toList } ∧
      (_sync ⟨false, reorgNetwork⟩ 2 oneHeaderState).2.currentHeight = 1 ∧
      (_sync ⟨false, reorgNetwork⟩ 2 oneHeaderState).2.newHeightEvents
        = oneHeaderState.newHeightEvents + 1 := by
  decide!

/-- C16, amended: in incremental mode, when the candidates have been fetched, the first one
declares the identity hash of the local tip as its previous id and the validation of the
candidates fails on one of them with the error `e`, the run of `_sync` ends with that error,
the storage, the local height and the local hash are those of the start, and no `newHeight`
event has been emitted. -/
theorem incremental_validation_failure_leaves_storage (env : Env) (fuel : Nat)
    (s s1 s2 s3 : State) (chain : List ChainItem) (buffer : Buffer) (prevHeader : Header)
    (first : ChainItem) (e : Err)
    (hmode : ¬ (s.currentBlockHash = env.network.getCurrentBlockHash s.tick ∨
      env.network.getCurrentHeight s.tick = -1))
    (hgap : env.network.getCurrentHeight s.tick - s.currentHeight < 50)
    (hfetch : fetchChain env (env.network.getCurrentHeight s.tick)
      ((env.network.getCurrentHeight s.tick - s.currentHeight).toNat + 1) [] s
        = (Except.ok chain, s1))
    (hprev : _getVerifiedHeader env s1.currentHeight s1 = (Except.ok buffer, s2))
    (hdecode : buffer2header buffer = Except.ok prevHeader)
    (hfirst : chain.head? = some first)
    (hlink : first.header.prevBlockHash = some (toHex (headerHash buffer)))
    (hfail : verifyChain env chain chain (headerHash buffer) prevHeader s2
      = (Except.error e, s3)) :
    _sync env fuel s = (Except.error e, s3) ∧ s3.storage = s.storage ∧
      s3.currentHeight = s.currentHeight ∧ s3.currentBlockHash = s.currentBlockHash ∧
      s3.newHeightEvents = s.newHeightEvents := by
  have f1 := frame_run (frame_fetchChain env _ _ []) hfetch
  have f2 := frame_run (frame_getVerifiedHeader env _) hprev
  have f3 := frame_run (frame_verifyChain env chain chain _ _) hfail
  have hne := noint_run (noint_verifyChain env chain chain _ _) hfail
  have c := (f1.1.trans f2.1).trans f3.1
  refine ⟨?_, c.2.2.1, c.1, c.2.1, c.2.2.2.1⟩
  have hreplay : replayChain env chain s1 = (Except.error e, s3) := by
    unfold replayChain
    rw [run_bind, run_getState]
    simp only
    rw [run_bind, hprev]
    simp only
    rw [run_bind, run_liftExcept, hdecode]
    simp only
    rw [run_bind, hfirst]
    simp only [run_pure]
    rw [if_neg (by rw [hlink]; simp), run_bind, hfail]
  unfold _sync
  rw [run_bind, run_getState]
  simp only
  rw [if_neg hmode, if_pos hgap]
  unfold runChainLoopOnce
  rw [run_bind, run_getState]
  simp only
  rw [run_bind, hfetch]
  simp only
  rw [run_tryCatch, hreplay]
  simp only
  rw [if_neg hne]
  rfl

/-- C16, witness: from height 0, two candidates of which the second declares a previous block
that is not the first: the run ends with `VerifyError` and the storage is untouched. -/
theorem incremental_validation_failure_leaves_storage_witness :
    _sync ⟨false, forkNetwork⟩ 0 oneHeaderState
        = (Except.error Err.VerifyError, { oneHeaderState with tick := 2 }) ∧
      ({ oneHeaderState with tick := 2 } : State).storage = oneHeaderState.storage ∧
      ({ oneHeaderState with tick := 2 } : State).currentHeight = oneHeaderState.currentHeight ∧
      ({ oneHeaderState with tick := 2 } : State).currentBlockHash
        = oneHeaderState.currentBlockHash ∧
      ({ oneHeaderState with tick := 2 } : State).newHeightEvents
        = oneHeaderState.newHeightEvents :=
  incremental_validation_failure_leaves_storage ⟨false, forkNetwork⟩ 0 oneHeaderState
    { oneHeaderState with tick := 2 } { oneHeaderState with tick := 2 }
    { oneHeaderState with tick := 2 } [⟨1, candidateOne⟩, ⟨2, candidateTwo⟩]
    ((bufferFromHex rawHeaderA).getD [])
    { version := 1, prevBlockHash := some txIdZeros, merkleRoot := txIdZeros,
      timestamp := 1000000, bits := 0x1d00ffff, nonce := 0 }
    ⟨1, candidateOne⟩ Err.VerifyError
    (by decide) (by decide) (by decide) (by decide) (by decide) (by decide) (by decide!)
    (by decide!)

/-- C17 (fails on the code): a trigger that arrives while a run is active is to be deferred and
started once the run settles; in the code it is never started.
The constructor calls `onNewHeight`, the run starts, a second trigger arrives: its call of
`onNewHeight` pushes a deferred and raises a `TypeError` on `promise.then`; when the run
settles the deferred is popped and resolved, and nothing is left to start: one run for two
triggers. -/
theorem trigger_during_run_is_lost :
    ∃ t1 t2 t3 t4, onNewHeight TriggerState.initial = (Except.ok (), t1) ∧
      startRun t1 = some t2 ∧ onNewHeight t2 = (Except.error Err.TypeError, t3) ∧
      settleRun t3 = some t4 ∧ t4.started = 1 ∧ t4.scheduled = 0 ∧ t4.active = 0 ∧
      t4.queue = [] ∧ startRun t4 = none :=
  ⟨_, _, _, _, rfl, rfl, rfl, rfl, rfl, rfl, rfl, rfl, rfl⟩

/-- C18: after the listener of `newHeight` has run on a transaction cache, no entry with the
confirmation height 0 remains, every entry with another confirmation height is still there,
unchanged, and nothing else is: the entries are those of non-zero height, in their order. -/
theorem newHeightListener_drops_unconfirmed (cache : TxCache) (hw : cache.WellFormed) :
    (∀ key value, (key, value) ∈ (newHeightListener cache).items → value.height ≠ 0) ∧
      (∀ key value, (key, value) ∈ cache.items → value.height ≠ 0 →
        (key, value) ∈ (newHeightListener cache).items) ∧
      (newHeightListener cache).items = cache.items.filter (fun x => decide (x.2.height ≠ 0)) ∧
      (newHeightListener cache).WellFormed := by
  obtain ⟨i1, _⟩ := newHeightListener_items cache hw
  refine ⟨?_, ?_, i1, ?_⟩
  · intro key value hm
    rw [i1] at hm
    simp only [List.mem_filter, decide_eq_true_eq] at hm
    exact hm.2
  · intro key value hm h0
    rw [i1]
    simp only [List.mem_filter, decide_eq_true_eq]
    exact ⟨hm, h0⟩
  · unfold TxCache.WellFormed at hw ⊢
    rw [i1]
    exact List.Nodup.sublist (List.Sublist.map _ (List.filter_sublist _)) hw

/-- C18, witness: a cache with an unconfirmed entry and an entry confirmed at height 5. -/
theorem newHeightListener_drops_unconfirmed_witness :
    (∀ key value, (key, value) ∈ (newHeightListener twoEntryCache).items → value.height ≠ 0) ∧
      (∀ key value, (key, value) ∈ twoEntryCache.items → value.height ≠ 0 →
        (key, value) ∈ (newHeightListener twoEntryCache).items) ∧
      (newHeightListener twoEntryCache).items
        = twoEntryCache.items.filter (fun x => decide (x.2.height ≠ 0)) ∧
      (newHeightListener twoEntryCache).WellFormed :=
  newHeightListener_drops_unconfirmed twoEntryCache (by unfold TxCache.WellFormed; decide)

/-- C19 (fails on the code): `getMainCoinColorValue` is to fail exactly when more than one
result is non-null and to return the one non-null result; in the code a `null` that follows a
color value erases it, so that the results `[a, null]` give the uncolored value of the coin,
and the results `[a, null, b]` give `b` without any failure. -/
theorem getMainCoinColorValue_forgets_color_value (uncolored : Nat) (coinValue : Int)
    (a b : ColorValue) :
    getMainCoinColorValue uncolored coinValue [some a, none]
        = Except.ok { colorDefinition := uncolored, value := coinValue } ∧
      getMainCoinColorValue uncolored coinValue [some a, none, some b] = Except.ok b :=
  ⟨rfl, rfl⟩

/-- C20 (fails on the code): every validation failure is to be a `VerifyError`; for the first
header of chunk 0, where there is no previous header, `verifyHeader` reports a linkage
mismatch as `VerifyError` but a proof-of-work failure (wrong bits, or a hash that is not
good) as `TypeError`: the handler reads `prevHeader.timestamp` of `undefined`. -/
theorem verifyHeader_without_previous_header (isTestnet : Bool) (currentHash : Buffer)
    (currentHeader : Header) (prevHash : Buffer) (target : Target) :
    verifyHeader isTestnet currentHash currentHeader prevHash none target =
      if some (toHex prevHash) = currentHeader.prevBlockHash then
        if some (currentHeader.bits : Int) = target.bits ∧
            isGoodHash currentHash target.target = true then Except.ok ()
        else Except.error Err.TypeError
      else Except.error Err.VerifyError := by
  rw [verifyHeader_eq_tree]
  unfold verifyHeaderTree
  by_cases h1 : some (toHex prevHash) = currentHeader.prevBlockHash
  · by_cases h2 : some (currentHeader.bits : Int) = target.bits
    · by_cases h3 : isGoodHash currentHash target.target = true
      · simp [h1, h2, h3]
      · simp [h1, h2, h3]
    · simp [h1, h2]
  · simp [h1]

/-- C21, counterexample: with an empty storage and an empty header cache, the height 3000 is
not in the cache, is greater than the local height -1 and greater than the network height
2076, yet `_getVerifiedHeader` does not fail with `NotFoundError`: the height falls in the
chunk of index 1, which is requested from the network and fails the chunk check. -/
theorem getVerifiedHeader_other_period_not_NotFoundError :
    ((construct { chunkHashes := [], headers := [], lastHash := [] } 5000).headerCache.get
        3000).1 = none ∧
      (3000 : Int) > (construct { chunkHashes := [], headers := [], lastHash := [] }
        5000).currentHeight ∧
      (3000 : Int) > shortChunkNetwork.getCurrentHeight 0 ∧
      (_getVerifiedHeader ⟨false, shortChunkNetwork⟩ 3000
        (construct { chunkHashes := [], headers := [], lastHash := [] } 5000)).1
          = Except.error Err.VerifyChunkError := by
  decide!

/-- C21, amended: for every height that is not in the header cache and is not awaited (not both
greater than the local height and at most the network height): when the height falls in the
open period (`floor(height / 2016)` is the number of closed chunks), `_getVerifiedHeader`
fails with `NotFoundError` if `height % 2016` is at or beyond the pending count and otherwise
returns the buffer of the pending header stored at index `height % 2016` (a `TypeError` if
the stored string is not hexadecimal), and, when the local height is
`closedChunkCount * 2016 + pendingHeaderCount - 1`, the first case is the case of a height
greater than the local height; when the height falls in another chunk index, the outcome is
that of `_getVerifiedChunk` for that index: its error, or the slice of its chunk at
`height % 2016`. -/
theorem getVerifiedHeader_by_chunk_index (env : Env) (height : Int) (s : State)
    (hcache : (s.headerCache.get height).1 = none)
    (hwait : ¬ (height > s.currentHeight ∧ height ≤ env.network.getCurrentHeight s.tick)) :
    (height / 2016 = s.storage.getChunksCount →
      (_getVerifiedHeader env height s).1 =
          (if Int.tmod height 2016 ≥ s.storage.getHeadersCount then
            Except.error Err.NotFoundError
          else
            match (s.storage.getHeader (Int.tmod height 2016)).bind bufferFromHex with
            | some buffer => Except.ok buffer
            | none => Except.error Err.TypeError) ∧
        (s.currentHeight = s.storage.getChunksCount * 2016 + s.storage.getHeadersCount - 1 →
          (height > s.currentHeight ↔ Int.tmod height 2016 ≥ s.storage.getHeadersCount))) ∧
    (height / 2016 ≠ s.storage.getChunksCount →
      _getVerifiedHeader env height s =
        ((_getVerifiedChunk env (height / 2016) s).1.map
            (fun chunk =>
              slice chunk (Int.tmod height 2016 * 80) ((Int.tmod height 2016 + 1) * 80)),
          (_getVerifiedChunk env (height / 2016) s).2)) := by
  have hs : ({ s with headerCache := (s.headerCache.get height).2 } : State) = s := by
    rw [headerCache_get_none hcache]
  have hstart : _getVerifiedHeader env height s =
      (if height / 2016 = s.storage.getChunksCount then
        (if Int.tmod height 2016 ≥ s.storage.getHeadersCount then throw Err.NotFoundError
        else
          match s.storage.getHeader (Int.tmod height 2016) with
          | none => throw Err.TypeError
          | some hex => newBuffer hex : Run Buffer)
      else do
        let chunk ← _getVerifiedChunk env (height / 2016)
        pure (slice chunk (Int.tmod height 2016 * 80) ((Int.tmod height 2016 + 1) * 80))) s := by
    unfold _getVerifiedHeader
    rw [run_bind, run_getState]
    simp only
    rw [run_bind, run_modifyState, hs, hcache]
    simp only
    rw [run_bind, run_getState]
    simp only
    rw [run_bind, if_neg hwait, run_pure]
    simp only
    rw [run_bind, run_getState]
  constructor
  · intro hopen
    constructor
    · rw [hstart, if_pos hopen]
      by_cases hidx : Int.tmod height 2016 ≥ s.storage.getHeadersCount
      · rw [if_pos hidx, if_pos hidx]
        rfl
      · rw [if_neg hidx, if_neg hidx]
        cases hget : s.storage.getHeader (Int.tmod height 2016) with
        | none => rfl
        | some hex =>
          cases hb : bufferFromHex hex with
          | none =>
            simp only [newBuffer, Option.bind, hb]
            rfl
          | some b =>
            simp only [newBuffer, Option.bind, hb]
            rfl
    · intro hinv
      have h0 : (0 : Int) ≤ s.storage.getChunksCount := by
        simp only [Storage.getChunksCount]
        omega
      have hnn : 0 ≤ height := by
        by_contra hneg
        have : height / 2016 < 0 := Int.ediv_neg' (by omega) (by omega)
        omega
      have hm : Int.tmod height 2016 = height % 2016 := Int.tmod_eq_emod hnn (by omega)
      rw [hm, hinv]
      omega
  · intro hother
    rw [hstart, if_neg hother, run_bind]
    cases hc : _getVerifiedChunk env (height / 2016) s with
    | mk r s1 =>
      cases r with
      | error e => rfl
      | ok chunk => rfl

/-- C21, witness: the height 0 of the blockchain whose storage holds one pending header. -/
theorem getVerifiedHeader_by_chunk_index_witness :
    ((0 : Int) / 2016 = oneHeaderState.storage.getChunksCount →
      (_getVerifiedHeader ⟨false, sameHeightNetwork⟩ 0 oneHeaderState).1 =
          (if Int.tmod 0 2016 ≥ oneHeaderState.storage.getHeadersCount then
            Except.error Err.NotFoundError
          else
            match (oneHeaderState.storage.getHeader (Int.tmod 0 2016)).bind bufferFromHex with
            | some buffer => Except.ok buffer
            | none => Except.error Err.TypeError) ∧
        (oneHeaderState.currentHeight
            = oneHeaderState.storage.getChunksCount * 2016
              + oneHeaderState.storage.getHeadersCount - 1 →
          ((0 : Int) > oneHeaderState.currentHeight ↔
            Int.tmod 0 2016 ≥ oneHeaderState.storage.getHeadersCount))) ∧
    ((0 : Int) / 2016 ≠ oneHeaderState.storage.getChunksCount →
      _getVerifiedHeader ⟨false, sameHeightNetwork⟩ 0 oneHeaderState =
        ((_getVerifiedChunk ⟨false, sameHeightNetwork⟩ ((0 : Int) / 2016) oneHeaderState).1.map
            (fun chunk => slice chunk (Int.tmod 0 2016 * 80) ((Int.tmod 0 2016 + 1) * 80)),
          (_getVerifiedChunk ⟨false, sameHeightNetwork⟩ ((0 : Int) / 2016) oneHeaderState).2)) :=
  getVerifiedHeader_by_chunk_index ⟨false, sameHeightNetwork⟩ 0 oneHeaderState (by decide)
    (by decide)

/-- C22: a header whose `prevBlockHash` is the hexadecimal form of the previous id, whose bits
are those of the expected target and whose 32-byte id is, as a big-endian integer, strictly
below the expected 32-byte target, is accepted by `verifyHeader`, on testnet and off testnet
alike and whatever the previous header. -/
theorem verifyHeader_accepts_good_header (isTestnet : Bool) (currentHash : Buffer)
    (currentHeader : Header) (prevHash : Buffer) (prevHeader : Option Header) (target : Target)
    (hlink : currentHeader.prevBlockHash = some (toHex prevHash))
    (hbits : target.bits = some (currentHeader.bits : Int))
    (hlen : currentHash.length = 32) (tlen : target.target.length = 32)
    (hbelow : beVal currentHash < beVal target.target) :
    verifyHeader isTestnet currentHash currentHeader prevHash prevHeader target
      = Except.ok () := by
  rw [verifyHeader_eq_tree, isGoodHash_of_beVal_lt currentHash target.target hlen tlen hbelow]
  unfold verifyHeaderTree
  simp [hlink, hbits]

/-- C22, witness: a header of bits `0x1d00ffff` whose id is 32 zero bytes, against the maximum
target, off testnet and with no previous header. -/
theorem verifyHeader_accepts_good_header_witness :
    verifyHeader false (List.replicate 32 0)
        ⟨1, some (toHex zeroHash), txIdZeros, 1000000, 0x1d00ffff, 0⟩ zeroHash none
        ⟨some 0x1d00ffff, maxTarget⟩ = Except.ok () :=
  verifyHeader_accepts_good_header false (List.replicate 32 0)
    ⟨1, some (toHex zeroHash), txIdZeros, 1000000, 0x1d00ffff, 0⟩ zeroHash none
    ⟨some 0x1d00ffff, maxTarget⟩ rfl rfl (by decide) (by decide) (by decide)

/-- C23: when no request for the chunk index is in flight, `n + 1` calls of
`_getVerifiedChunk` made before the promise settles send exactly one `getChunk` request to
the network and all receive the same promise; once the promise settles, resolved or rejected,
the table has no entry for the index, and the next call sends a new request and receives a
new promise. -/
theorem getVerifiedChunk_coalesces (chunkIndex : Int) (n : Nat) (t : ChunkRequests)
    (hfree : t.running.find? (fun e => decide (e.1 = chunkIndex)) = none) :
    (requestVerifiedChunkTimes chunkIndex (n + 1) t).1 = List.replicate (n + 1) t.created ∧
      (requestVerifiedChunkTimes chunkIndex (n + 1) t).2.fetches = t.fetches ++ [chunkIndex] ∧
      (settleVerifiedChunk chunkIndex
          (requestVerifiedChunkTimes chunkIndex (n + 1) t).2).running.find?
        (fun e => decide (e.1 = chunkIndex)) = none ∧
      (requestVerifiedChunk chunkIndex (settleVerifiedChunk chunkIndex
          (requestVerifiedChunkTimes chunkIndex (n + 1) t).2)).2.fetches
        = t.fetches ++ [chunkIndex] ++ [chunkIndex] ∧
      (requestVerifiedChunk chunkIndex (settleVerifiedChunk chunkIndex
          (requestVerifiedChunkTimes chunkIndex (n + 1) t).2)).1 = t.created + 1 := by
  have h1 : requestVerifiedChunk chunkIndex t
      = (t.created,
          { running := (chunkIndex, t.created) :: t.running
            created := t.created + 1
            fetches := t.fetches ++ [chunkIndex] }) := by
    unfold requestVerifiedChunk
    rw [hfree]
  have h2 : requestVerifiedChunkTimes chunkIndex (n + 1) t
      = (List.replicate (n + 1) t.created,
          { running := (chunkIndex, t.created) :: t.running
            created := t.created + 1
            fetches := t.fetches ++ [chunkIndex] }) := by
    unfold requestVerifiedChunkTimes
    simp only [h1]
    rw [requestVerifiedChunkTimes_running chunkIndex t.created n _ (by simp)]
    rfl
  have h3 := find_filter_ne_chunk ((chunkIndex, t.created) :: t.running) chunkIndex
  rw [h2]
  refine ⟨rfl, rfl, h3, ?_, ?_⟩
  · unfold requestVerifiedChunk settleVerifiedChunk
    simp only [h3]
  · unfold requestVerifiedChunk settleVerifiedChunk
    simp only [h3]

/-- C23, witness: three calls for the chunk index 7 on an empty table. -/
theorem getVerifiedChunk_coalesces_witness :
    (requestVerifiedChunkTimes 7 (2 + 1) ⟨[], 0, []⟩).1 = List.replicate (2 + 1) 0 ∧
      (requestVerifiedChunkTimes 7 (2 + 1) ⟨[], 0, []⟩).2.fetches = [] ++ [7] ∧
      (settleVerifiedChunk 7 (requestVerifiedChunkTimes 7 (2 + 1) ⟨[], 0, []⟩).2).running.find?
        (fun e => decide (e.1 = 7)) = none ∧
      (requestVerifiedChunk 7 (settleVerifiedChunk 7
          (requestVerifiedChunkTimes 7 (2 + 1) ⟨[], 0, []⟩).2)).2.fetches = [] ++ [7] ++ [7] ∧
      (requestVerifiedChunk 7 (settleVerifiedChunk 7
          (requestVerifiedChunkTimes 7 (2 + 1) ⟨[], 0, []⟩).2)).1 = 0 + 1 :=
  getVerifiedChunk_coalesces 7 2 ⟨[], 0, []⟩ rfl

/-- C24: for every buffer `b` of 80 bytes, `header2buffer(buffer2header(b))` succeeds and is
`b` byte for byte: the two hash fields, reversed byte-wise into their hexadecimal form by the
decoding, are reversed back by the encoding, and the four integers are written as they were
read. -/
theorem buffer_round_trip (b : Buffer) (h : b.length = 80) :
    (buffer2header b >>= header2buffer) = Except.ok b := by
  obtain ⟨v, p, m, t, bi, n, rfl, hv, hp, hm, ht, hbi, hn⟩ := split_80 b h
  obtain ⟨_, hd⟩ := buffer2header_concat v p m t bi n hv hp hm ht hbi hn
  rw [hd]
  simp only [bind, Except.bind]
  unfold header2buffer
  simp only
  have l1 : (toHex p.reverse).length = 64 := by rw [toHex_length, List.length_reverse, hp]
  have l2 : (toHex m.reverse).length = 64 := by rw [toHex_length, List.length_reverse, hm]
  rw [if_neg (by rw [l1]; simp), if_neg (by rw [l2]; simp), writeUInt32LE_readUInt32LE v hv,
    writeUInt32LE_readUInt32LE t ht, writeUInt32LE_readUInt32LE bi hbi,
    writeUInt32LE_readUInt32LE n hn, bufferFromHex_toHex, bufferFromHex_toHex]
  simp only [List.reverse_reverse]
  rfl

/-- C24, witness: the 80 bytes of `rawHeaderA`. -/
theorem buffer_round_trip_witness :
    (buffer2header ((bufferFromHex rawHeaderA).getD []) >>= header2buffer)
      = Except.ok ((bufferFromHex rawHeaderA).getD []) :=
  buffer_round_trip ((bufferFromHex rawHeaderA).getD []) (by decide)

/-- C25: retarget stability. For every period `index > 0` whose boundary headers are exactly
1209600 seconds apart, and whose last header has compact bits with an exponent between 4 and
29, a mantissa strictly between 0x008000 and 0x800000 and a decoded target (mantissa times
256 to the exponent minus three) not above the maximum target, `getTarget` answers with bits
equal to the bits of the last header, and with the bytes of the decoded target. -/
theorem getTarget_keeps_stable_bits (index : Int) (firstHeader lastHeader : Header)
    (hp : 0 < index)
    (hspan : (lastHeader.timestamp : Int) - (firstHeader.timestamp : Int) = 1209600)
    (hexp1 : 4 ≤ lastHeader.bits / 16777216) (hexp2 : lastHeader.bits / 16777216 ≤ 29)
    (hm1 : 0x008000 < lastHeader.bits % 16777216)
    (hm2 : lastHeader.bits % 16777216 < 0x800000)
    (hmax : lastHeader.bits % 16777216 * 256 ^ (lastHeader.bits / 16777216 - 3)
      ≤ maxTargetBI) :
    getTarget index firstHeader (some lastHeader)
      = Except.ok
          { bits := some (lastHeader.bits : Int)
            target := toByteArrayUnsigned
              (lastHeader.bits % 16777216 * 256 ^ (lastHeader.bits / 16777216 - 3)) } := by
  have hnew : newTarget firstHeader lastHeader
      = lastHeader.bits % 16777216 * 256 ^ (lastHeader.bits / 16777216 - 3) := by
    unfold newTarget
    simp only []
    rw [actualTimestamp_inside firstHeader lastHeader (by omega) (by omega), hspan,
      decodeBits_stable lastHeader.bits (by omega) (by omega)]
    have hn : nTargetTimestamp = 1209600 := rfl
    have ht : (1209600 : Int).toNat = 1209600 := rfl
    rw [hn, ht, Nat.mul_div_cancel _ (by decide)]
    exact min_eq_left hmax
  unfold getTarget
  rw [if_neg (by omega)]
  simp only []
  rw [retarget_eq, hnew,
    encodeBits_stable _ (lastHeader.bits / 16777216 - 3) (by omega) (by omega) hm1 hm2]
  have hMM : (MM : Int) = 16777216 := rfl
  have hbits : ((lastHeader.bits % 16777216 : Nat) : Int)
      + 16777216 * (((lastHeader.bits / 16777216 - 3 : Nat) : Int) + 3)
        = (lastHeader.bits : Int) := by
    omega
  rw [hMM, hbits]

/-- C25, witness: the period 1 whose boundary headers are 1209600 seconds apart, the last one
with the bits `0x1d00ffff`, which are returned unchanged. -/
theorem getTarget_keeps_stable_bits_witness :
    getTarget 1 ⟨1, some txIdZeros, txIdZeros, 1000000, 0x1d00ffff, 0⟩
        (some ⟨1, some txIdZeros, txIdZeros, 2209600, 0x1d00ffff, 0⟩)
      = Except.ok
          { bits := some ((0x1d00ffff : Nat) : Int)
            target := toByteArrayUnsigned
              (0x1d00ffff % 16777216 * 256 ^ (0x1d00ffff / 16777216 - 3)) } :=
  getTarget_keeps_stable_bits 1 ⟨1, some txIdZeros, txIdZeros, 1000000, 0x1d00ffff, 0⟩
    ⟨1, some txIdZeros, txIdZeros, 2209600, 0x1d00ffff, 0⟩ (by decide) (by decide) (by decide)
    (by decide) (by decide) (by decide) (by decide)

/-- C26 (fails on the code): in incremental mode the candidate list is to hold an element where
`chain[0]` is read. When the network height is at most the local height no candidate is
fetched, and once the header of the local tip is obtained the read of `chain[0].header`
raises a `TypeError`, with which the run ends. -/
theorem incremental_mode_reads_empty_chain (env : Env) (fuel : Nat) (s s2 : State)
    (buffer : Buffer) (prevHeader : Header)
    (hmode : ¬ (s.currentBlockHash = env.network.getCurrentBlockHash s.tick ∨
      env.network.getCurrentHeight s.tick = -1))
    (hgap : env.network.getCurrentHeight s.tick - s.currentHeight < 50)
    (hle : env.network.getCurrentHeight s.tick ≤ s.currentHeight)
    (hprev : _getVerifiedHeader env s.currentHeight s = (Except.ok buffer, s2))
    (hdecode : buffer2header buffer = Except.ok prevHeader) :
    fetchChain env (env.network.getCurrentHeight s.tick)
        ((env.network.getCurrentHeight s.tick - s.currentHeight).toNat + 1) [] s
      = (Except.ok [], s) ∧
    _sync env fuel s = (Except.error Err.TypeError, s2) := by
  have hfetch : fetchChain env (env.network.getCurrentHeight s.tick)
        ((env.network.getCurrentHeight s.tick - s.currentHeight).toNat + 1) [] s
      = (Except.ok [], s) := by
    unfold fetchChain
    rw [run_bind, run_getState]
    simp only
    rw [if_neg (by simp only [nextHeight, List.getLast?_nil]; omega)]
    rfl
  refine ⟨hfetch, ?_⟩
  have hreplay : replayChain env [] s = (Except.error Err.TypeError, s2) := by
    unfold replayChain
    rw [run_bind, run_getState]
    simp only
    rw [run_bind, hprev]
    simp only
    rw [run_bind, run_liftExcept, hdecode]
    simp only
    rw [run_bind]
    rfl
  unfold _sync
  rw [run_bind, run_getState]
  simp only
  rw [if_neg hmode, if_pos hgap]
  unfold runChainLoopOnce
  rw [run_bind, run_getState]
  simp only
  rw [run_bind, hfetch]
  simp only
  rw [run_tryCatch, hreplay]
  rfl

/-- C26, witness: the blockchain at height 0 and a network at height 0 with another best
block. -/
theorem incremental_mode_reads_empty_chain_witness :
    fetchChain ⟨false, sameHeightNetwork⟩ 0 (((0 : Int) - 0).toNat + 1) [] oneHeaderState
      = (Except.ok [], oneHeaderState) ∧
    _sync ⟨false, sameHeightNetwork⟩ 0 oneHeaderState
      = (Except.error Err.TypeError, oneHeaderState) :=
  incremental_mode_reads_empty_chain ⟨false, sameHeightNetwork⟩ 0 oneHeaderState oneHeaderState
    ((bufferFromHex rawHeaderA).getD [])
    ⟨1, some txIdZeros, txIdZeros, 1000000, 0x1d00ffff, 0⟩
    (by decide) (by decide) (by decide) (by decide) (by decide)

/-- C27 (fails on the code): a call served from the transaction cache is to yield the
transaction, as the call that filled the cache did. On `txNetwork` the first call for the id
of 64 zeros verifies and yields the transaction; the second call, served from the cache,
yields the cache entry `{ height: 2015, tx: tx }`. -/
theorem getVerifiedTx_from_cache_yields_entry :
    (_getVerifiedTx ⟨false, txNetwork⟩ txIdZeros staleCacheState).1
        = Except.ok (TxResult.tx (some "01000000".toList)) ∧
      (_getVerifiedTx ⟨false, txNetwork⟩ txIdZeros
          (_getVerifiedTx ⟨false, txNetwork⟩ txIdZeros staleCacheState).2).1
        = Except.ok (TxResult.entry { height := 2015, tx := some "01000000".toList }) ∧
      (_getVerifiedTx ⟨false, txNetwork⟩ txIdZeros
          (_getVerifiedTx ⟨false, txNetwork⟩ txIdZeros staleCacheState).2).2.tick
        = (_getVerifiedTx ⟨false, txNetwork⟩ txIdZeros staleCacheState).2.tick := by
  decide

end VerifiedBlockchain
